import Mathlib

/-! # Tetris Stack Control (`tetris.c`)

A shallow embedding of the piece-supply simulator: the circular queue `FilaCircular`
(capacity 5), the linear stack `PilhaLinear` (capacity 3), the two exchange operations and
the command switch of `main`.

Conventions of the embedding.

* A C array is a `List Peca`; `Peca itens[5]` is a list of length 5 and `Peca itens[3]` a list
  of length 3.  A read or write whose index falls outside the array is undefined behaviour in
  C; here the operation that performs it yields `none`.
* `int` fields are integers (`Int`).  The index fields stay within `-1 .. 5` on every state
  the program builds, so their arithmetic never leaves the range of `int`.  The counter
  `id_sequencial` is a 32-bit `int`: `id_sequencial++` is `incrementar`, the successor except
  that 2147483647 is followed by -2147483648 (the value the two's-complement machine leaves;
  the overflow is undefined in C).
* The functions that call `gerarPeca` (the initial fill and the cases 1 and 2 of the switch)
  are written once, over the generator they call (`iniciarCom`, `casoJogarCom`,
  `casoReservarCom`, `comandoCom`).  The program is their instance at `gerarPeca`: `iniciar`,
  `casoJogar`, `casoReservar`, `comando`, `Alcancavel`.  Statements made with ids taken as
  unbounded integers are about their instance at `gerarPecaIdeal`, whose counter has a
  successor whatever its value: `iniciarIdeal`, `comandoIdeal`, `AlcancavelIdeal`.
* The C operator `%` is truncated remainder, `Int.tmod`.
* Every function takes the structures it receives by pointer as arguments and returns their
  new values, together with the lines it writes with `printf` (type `Mensagem`).
* `rand()` is a parameter: the natural number returned by the call.
* A `for` loop with a fixed number of iterations is a recursion on that number.
-/

namespace Tetris

/-! ## Data model -/

/-- Constant `#define CAPACIDADE_FILA 5`. -/
def CAPACIDADE_FILA : Int := 5

/-- Constant `#define CAPACIDADE_PILHA 3`. -/
def CAPACIDADE_PILHA : Int := 3

/-- Structure `typedef struct { char tipo; int id; } Peca;` -/
structure Peca where
  tipo : Char
  id : Int
deriving DecidableEq, Repr

/-- Structure
`typedef struct { Peca itens[CAPACIDADE_FILA]; int inicio; int fim; int contagem; } FilaCircular;`
-/
structure FilaCircular where
  itens : List Peca
  inicio : Int
  fim : Int
  contagem : Int
deriving DecidableEq, Repr

/-- Structure `typedef struct { Peca itens[CAPACIDADE_PILHA]; int topo; } PilhaLinear;` -/
structure PilhaLinear where
  itens : List Peca
  topo : Int
deriving DecidableEq, Repr

/-- The lines the program writes with `printf`, one constructor per format string that reports
the outcome of an operation; the arguments are the values substituted for `%d` and `%c`. -/
inductive Mensagem where
  /-- Line `"ERRO: Fila cheia. Nao foi possivel adicionar Peca %d.\n"` -/
  | erroFilaCheia (id : Int)
  /-- Line `"ERRO: Fila vazia.\n"` -/
  | erroFilaVazia
  /-- Line `"ERRO: Pilha cheia. Nao foi possivel adicionar Peca %d.\n"` -/
  | erroPilhaCheia (id : Int)
  /-- Line `"ERRO: Pilha de reserva vazia.\n"` -/
  | erroPilhaVazia
  /-- Line `"AVISO: A fila e a pilha devem conter ao menos 1 peca para a troca.\n"` -/
  | avisoTrocaFrenteTopo
  /-- Line `"SUCESSO: Peca da frente da fila (ID:%d) trocada com topo da pilha (ID:%d).\n"` -/
  | sucessoTrocaFrenteTopo (a b : Int)
  /-- Line `"AVISO: A fila deve ter >= 3 pecas e a pilha deve estar CHEIA (3 pecas) ..."` -/
  | avisoTrocaTres
  /-- Line `"SUCESSO: As 3 primeiras pecas da fila foram trocadas com a pilha.\n"` -/
  | sucessoTrocaTres
  /-- Line `"Iniciando o jogo... Gerando pecas iniciais...\n"` -/
  | iniciando
  /-- Line `"Encerrando o jogo...\n"` -/
  | encerrando
  /-- Line `"\n[Acao: Jogar Peca]\n"` -/
  | acaoJogar
  /-- Line `"Peca ID:%d (%c) foi jogada.\n"` -/
  | pecaJogada (id : Int) (tipo : Char)
  /-- Line `"Nova peca ID:%d (%c) entrou na fila.\n"` -/
  | novaPeca (id : Int) (tipo : Char)
  /-- Line `"\n[Acao: Fila -> Reserva]\n"` -/
  | acaoReservar
  /-- Line `"AVISO: Pilha de reserva esta cheia!\n"` -/
  | avisoPilhaCheia
  /-- Line `"AVISO: Fila esta vazia! Nao ha o que reservar.\n"` -/
  | avisoFilaVazia
  /-- Line `"Peca ID:%d (%c) movida para a reserva.\n"` -/
  | pecaMovida (id : Int) (tipo : Char)
  /-- Line `"\n[Acao: Usar Reserva]\n"` -/
  | acaoUsar
  /-- Line `"Peca da reserva ID:%d (%c) foi usada.\n"` -/
  | pecaUsada (id : Int) (tipo : Char)
  /-- Line `"\n[Acao: Trocar Frente <-> Topo]\n"` -/
  | acaoTrocarFrenteTopo
  /-- Line `"\n[Acao: Trocar 3 (Fila) <-> 3 (Pilha)]\n"` -/
  | acaoTrocarTres
  /-- Line `"\nOpcao invalida. Tente novamente.\n"` -/
  | opcaoInvalida
  /-- Line `"Fila de Proximas Pecas (Frente -> Fim):\n"` -/
  | cabecalhoFila
  /-- Line `"Pilha de Reserva (Topo -> Base):\n"` -/
  | cabecalhoPilha
  /-- Line `"[ Vazia ]\n"` -/
  | listaVazia
  /-- Text `"[ "` -/
  | abreLista
  /-- Text `"ID:%d(%c) "` -/
  | item (id : Int) (tipo : Char)
  /-- Text `"]\n"` -/
  | fechaLista
deriving DecidableEq, Repr

/-- The session variables of `main` together with the global `id_sequencial`. -/
structure Sessao where
  fila : FilaCircular
  pilha : PilhaLinear
  id_sequencial : Int
deriving DecidableEq, Repr

/-! ## Array access -/

/-- The read `a[i]`: `none` when `i` is outside the array. -/
def ler (a : List Peca) (i : Int) : Option Peca :=
  if 0 ≤ i then a[i.toNat]? else none

/-- The write `a[i] = p`: `none` when `i` is outside the array. -/
def gravar (a : List Peca) (i : Int) (p : Peca) : Option (List Peca) :=
  if 0 ≤ i ∧ i.toNat < a.length then some (a.set i.toNat p) else none

/-! ## Piece generation -/

/-- Table `const char tiposPecas[7] = {'I', 'O', 'T', 'S', 'Z', 'J', 'L'};` -/
def tiposPecas : List Char := ['I', 'O', 'T', 'S', 'Z', 'J', 'L']

/-- The 32-bit `int` that holds the integer `x` modulo 2^32: the value between -2147483648
and 2147483647 that differs from `x` by a multiple of 4294967296. -/
def comoInt (x : Int) : Int := (x + 2147483648) % 4294967296 - 2147483648

/-- The value `id_sequencial++` leaves in the 32-bit `int`: `n + 1`, except that 2147483647 is
followed by -2147483648. -/
def incrementar (n : Int) : Int := comoInt (n + 1)

/-- Function `gerarPeca`: `r` is the value returned by `rand()` and the second argument the
current `id_sequencial`; the result is the new piece and the incremented counter. -/
def gerarPeca (r : Nat) (id_sequencial : Int) : Peca × Int :=
  ({ tipo := tiposPecas.get ⟨r % 7, Nat.mod_lt r (by decide)⟩, id := id_sequencial },
    incrementar id_sequencial)

/-- Function `gerarPeca` with ids taken as unbounded integers: the same piece, and the counter
is followed by its successor whatever its value. -/
def gerarPecaIdeal (r : Nat) (id_sequencial : Int) : Peca × Int :=
  ({ tipo := tiposPecas.get ⟨r % 7, Nat.mod_lt r (by decide)⟩, id := id_sequencial },
    id_sequencial + 1)

/-! ## Circular queue -/

/-- Function `inicializarFila`: the array keeps whatever it held. -/
def inicializarFila (f : FilaCircular) : FilaCircular :=
  { f with inicio := 0, fim := -1, contagem := 0 }

/-- Function `filaVazia`. -/
def filaVazia (f : FilaCircular) : Bool := f.contagem == 0

/-- Function `filaCheia`. -/
def filaCheia (f : FilaCircular) : Bool := f.contagem == CAPACIDADE_FILA

/-- Function `enqueue`: returns the new queue and the lines printed. -/
def enqueue (f : FilaCircular) (p : Peca) : Option (FilaCircular × List Mensagem) :=
  if filaCheia f then
    some (f, [Mensagem.erroFilaCheia p.id])
  else
    let fim := Int.tmod (f.fim + 1) CAPACIDADE_FILA
    match gravar f.itens fim p with
    | none => none
    | some itens => some ({ f with itens := itens, fim := fim, contagem := f.contagem + 1 }, [])

/-- The piece `{'X', -1}` that `dequeue` and `pop` return on an empty container. -/
def vazia : Peca := { tipo := 'X', id := -1 }

/-- Function `dequeue`: returns the piece, the new queue and the lines printed. -/
def dequeue (f : FilaCircular) : Option (Peca × FilaCircular × List Mensagem) :=
  if filaVazia f then
    some (vazia, f, [Mensagem.erroFilaVazia])
  else
    match ler f.itens f.inicio with
    | none => none
    | some p =>
      some (p, { f with inicio := Int.tmod (f.inicio + 1) CAPACIDADE_FILA,
                        contagem := f.contagem - 1 }, [])

/-! ## Linear stack -/

/-- Function `inicializarPilha`. -/
def inicializarPilha (p : PilhaLinear) : PilhaLinear :=
  { p with topo := -1 }

/-- Function `pilhaVazia`. -/
def pilhaVazia (p : PilhaLinear) : Bool := p.topo == -1

/-- Function `pilhaCheia`. -/
def pilhaCheia (p : PilhaLinear) : Bool := p.topo == CAPACIDADE_PILHA - 1

/-- Function `push`: returns the new stack and the lines printed. -/
def push (p : PilhaLinear) (peca : Peca) : Option (PilhaLinear × List Mensagem) :=
  if pilhaCheia p then
    some (p, [Mensagem.erroPilhaCheia peca.id])
  else
    let topo := p.topo + 1
    match gravar p.itens topo peca with
    | none => none
    | some itens => some ({ itens := itens, topo := topo }, [])

/-- Function `pop`: returns the piece, the new stack and the lines printed. -/
def pop (p : PilhaLinear) : Option (Peca × PilhaLinear × List Mensagem) :=
  if pilhaVazia p then
    some (vazia, p, [Mensagem.erroPilhaVazia])
  else
    match ler p.itens p.topo with
    | none => none
    | some peca => some (peca, { p with topo := p.topo - 1 }, [])

/-! ## Display traversals -/

/-- The loop of `mostrarFila`, `for (c = 0; c < f->contagem; c++)`, with `n` iterations left
and the running index `i`: the pieces read at `itens[i]`, `i` stepping to `(i + 1) % 5`. -/
def percorrerFila (itens : List Peca) : Nat → Int → Option (List Peca)
  | 0, _ => some []
  | n + 1, i =>
    match ler itens i with
    | none => none
    | some x =>
      match percorrerFila itens n (Int.tmod (i + 1) CAPACIDADE_FILA) with
      | none => none
      | some xs => some (x :: xs)

/-- Function `mostrarFila`: returns the queue, which it only reads, and the text printed; the
loop runs `contagem` times from `i = inicio`. -/
def mostrarFila (f : FilaCircular) : Option (FilaCircular × List Mensagem) :=
  if filaVazia f then
    some (f, [Mensagem.cabecalhoFila, Mensagem.listaVazia])
  else
    match percorrerFila f.itens f.contagem.toNat f.inicio with
    | none => none
    | some xs =>
      some (f, [Mensagem.cabecalhoFila, Mensagem.abreLista]
        ++ xs.map (fun x => Mensagem.item x.id x.tipo) ++ [Mensagem.fechaLista])

/-- The loop of `mostrarPilha`, `for (int i = p->topo; i >= 0; i--)`, with `n` iterations left
and the running index `i`: the pieces read at `itens[i]`, `i` stepping down by one. -/
def percorrerPilha (itens : List Peca) : Nat → Int → Option (List Peca)
  | 0, _ => some []
  | n + 1, i =>
    match ler itens i with
    | none => none
    | some x =>
      match percorrerPilha itens n (i - 1) with
      | none => none
      | some xs => some (x :: xs)

/-- Function `mostrarPilha`: returns the stack, which it only reads, and the text printed;
the loop runs `topo + 1` times from `i = topo`. -/
def mostrarPilha (p : PilhaLinear) : Option (PilhaLinear × List Mensagem) :=
  if pilhaVazia p then
    some (p, [Mensagem.cabecalhoPilha, Mensagem.listaVazia])
  else
    match percorrerPilha p.itens (p.topo + 1).toNat p.topo with
    | none => none
    | some xs =>
      some (p, [Mensagem.cabecalhoPilha, Mensagem.abreLista]
        ++ xs.map (fun x => Mensagem.item x.id x.tipo) ++ [Mensagem.fechaLista])

/-! ## Exchanges between queue and stack -/

/-- Function `trocarFrenteTopo`. -/
def trocarFrenteTopo (f : FilaCircular) (p : PilhaLinear) :
    Option (FilaCircular × PilhaLinear × List Mensagem) :=
  if filaVazia f || pilhaVazia p then
    some (f, p, [Mensagem.avisoTrocaFrenteTopo])
  else do
    let temp ← ler f.itens f.inicio
    let t ← ler p.itens p.topo
    let fi ← gravar f.itens f.inicio t
    let pi ← gravar p.itens p.topo temp
    let a ← ler pi p.topo
    let b ← ler fi f.inicio
    some ({ f with itens := fi }, { p with itens := pi },
      [Mensagem.sucessoTrocaFrenteTopo a.id b.id])

/-- The body of the `for` loop of `trocarTresComPilha` at loop index `i`. -/
def trocarIndice (fp : FilaCircular × PilhaLinear) (i : Int) :
    Option (FilaCircular × PilhaLinear) := do
  let indiceFila := Int.tmod (fp.1.inicio + i) CAPACIDADE_FILA
  let temp ← ler fp.1.itens indiceFila
  let t ← ler fp.2.itens i
  let fi ← gravar fp.1.itens indiceFila t
  let pi ← gravar fp.2.itens i temp
  some ({ fp.1 with itens := fi }, { fp.2 with itens := pi })

/-- Function `trocarTresComPilha`: the loop `for (int i = 0; i < 3; i++)` runs over
`0, 1, 2`. -/
def trocarTresComPilha (f : FilaCircular) (p : PilhaLinear) :
    Option (FilaCircular × PilhaLinear × List Mensagem) :=
  if f.contagem < 3 || p.topo != CAPACIDADE_PILHA - 1 then
    some (f, p, [Mensagem.avisoTrocaTres])
  else
    match [0, 1, 2].foldlM trocarIndice (f, p) with
    | none => none
    | some (f3, p3) => some (f3, p3, [Mensagem.sucessoTrocaTres])

/-! ## The session: initial fill and the command switch of `main` -/

/-- One iteration of the initial loop `enqueue(&fila, gerarPeca())`, over the generator
`gerar` called as `gerarPeca()`; `r` is the value of `rand()` and the second component the
lines printed so far. -/
def encherUmaCom (gerar : Nat → Int → Peca × Int) (so : Sessao × List Mensagem) (r : Nat) :
    Option (Sessao × List Mensagem) :=
  match enqueue so.1.fila (gerar r so.1.id_sequencial).1 with
  | none => none
  | some (f, o) =>
    some ({ so.1 with fila := f, id_sequencial := (gerar r so.1.id_sequencial).2 },
      so.2 ++ o)

/-- The start of `main` up to the menu loop, over the generator `gerar` called as
`gerarPeca()`: both structures are initialised over whatever the local variables held,
`id_sequencial` is 1, and the loop `for (int i = 0; i < CAPACIDADE_FILA; i++)` enqueues five
generated pieces; `rand i` is the value of the call to `rand()` in iteration `i`. -/
def iniciarCom (gerar : Nat → Int → Peca × Int) (fila : FilaCircular) (pilha : PilhaLinear)
    (rand : Nat → Nat) : Option (Sessao × List Mensagem) :=
  [0, 1, 2, 3, 4].foldlM (fun so i => encherUmaCom gerar so (rand i))
    ({ fila := inicializarFila fila, pilha := inicializarPilha pilha, id_sequencial := 1 },
      [Mensagem.iniciando])

/-- The start of `main` up to the menu loop. -/
def iniciar (fila : FilaCircular) (pilha : PilhaLinear) (rand : Nat → Nat) :
    Option (Sessao × List Mensagem) :=
  iniciarCom gerarPeca fila pilha rand

/-- The start of `main` up to the menu loop, with ids taken as unbounded integers. -/
def iniciarIdeal (fila : FilaCircular) (pilha : PilhaLinear) (rand : Nat → Nat) :
    Option (Sessao × List Mensagem) :=
  iniciarCom gerarPecaIdeal fila pilha rand

/-- Branch `case 1` of the switch (play a piece), over the generator `gerar` called as
`gerarPeca()`. -/
def casoJogarCom (gerar : Nat → Int → Peca × Int) (s : Sessao) (r : Nat) :
    Option (Sessao × List Mensagem) :=
  match dequeue s.fila with
  | none => none
  | some (jogada, f1, o1) =>
    if jogada.id != -1 then
      let nova := (gerar r s.id_sequencial).1
      match enqueue f1 nova with
      | none => none
      | some (f2, o2) =>
        some ({ s with fila := f2, id_sequencial := (gerar r s.id_sequencial).2 },
          [Mensagem.acaoJogar] ++ o1 ++ [Mensagem.pecaJogada jogada.id jogada.tipo] ++ o2
            ++ [Mensagem.novaPeca nova.id nova.tipo])
    else
      some ({ s with fila := f1 }, [Mensagem.acaoJogar] ++ o1)

/-- Branch `case 1` of the switch (play a piece). -/
def casoJogar (s : Sessao) (r : Nat) : Option (Sessao × List Mensagem) :=
  casoJogarCom gerarPeca s r

/-- Branch `case 2` of the switch (move the front of the queue to the reserve), over the
generator `gerar` called as `gerarPeca()`. -/
def casoReservarCom (gerar : Nat → Int → Peca × Int) (s : Sessao) (r : Nat) :
    Option (Sessao × List Mensagem) :=
  if pilhaCheia s.pilha then
    some (s, [Mensagem.acaoReservar, Mensagem.avisoPilhaCheia])
  else if filaVazia s.fila then
    some (s, [Mensagem.acaoReservar, Mensagem.avisoFilaVazia])
  else
    match dequeue s.fila with
    | none => none
    | some (movida, f1, o1) =>
      match push s.pilha movida with
      | none => none
      | some (p1, o2) =>
        let novaResposicao := (gerar r s.id_sequencial).1
        match enqueue f1 novaResposicao with
        | none => none
        | some (f2, o3) =>
          some ({ fila := f2, pilha := p1, id_sequencial := (gerar r s.id_sequencial).2 },
            [Mensagem.acaoReservar] ++ o1 ++ o2 ++ [Mensagem.pecaMovida movida.id movida.tipo]
              ++ o3 ++ [Mensagem.novaPeca novaResposicao.id novaResposicao.tipo])

/-- Branch `case 2` of the switch (move the front of the queue to the reserve). -/
def casoReservar (s : Sessao) (r : Nat) : Option (Sessao × List Mensagem) :=
  casoReservarCom gerarPeca s r

/-- Branch `case 3` of the switch (use the piece on top of the reserve). -/
def casoUsar (s : Sessao) : Option (Sessao × List Mensagem) :=
  match pop s.pilha with
  | none => none
  | some (usada, p1, o1) =>
    some ({ s with pilha := p1 },
      [Mensagem.acaoUsar] ++ o1 ++
        (if usada.id != -1 then [Mensagem.pecaUsada usada.id usada.tipo] else []))

/-- Branch `case 4` of the switch. -/
def casoTrocarFrenteTopo (s : Sessao) : Option (Sessao × List Mensagem) :=
  match trocarFrenteTopo s.fila s.pilha with
  | none => none
  | some (f, p, o) => some ({ s with fila := f, pilha := p }, Mensagem.acaoTrocarFrenteTopo :: o)

/-- Branch `case 5` of the switch. -/
def casoTrocarTres (s : Sessao) : Option (Sessao × List Mensagem) :=
  match trocarTresComPilha s.fila s.pilha with
  | none => none
  | some (f, p, o) => some ({ s with fila := f, pilha := p }, Mensagem.acaoTrocarTres :: o)

/-- The `switch (opcao)` of the menu loop, over the generator `gerar` called as
`gerarPeca()`; `opcao` is the number read (`-1` when `scanf` fails) and `r` the value `rand()`
returns if the command generates a piece.  Option `0` leaves the loop without touching the
state. -/
def comandoCom (gerar : Nat → Int → Peca × Int) (s : Sessao) (opcao : Int) (r : Nat) :
    Option (Sessao × List Mensagem) :=
  if opcao = 0 then some (s, [Mensagem.encerrando])
  else if opcao = 1 then casoJogarCom gerar s r
  else if opcao = 2 then casoReservarCom gerar s r
  else if opcao = 3 then casoUsar s
  else if opcao = 4 then casoTrocarFrenteTopo s
  else if opcao = 5 then casoTrocarTres s
  else some (s, [Mensagem.opcaoInvalida])

/-- The `switch (opcao)` of the menu loop. -/
def comando (s : Sessao) (opcao : Int) (r : Nat) : Option (Sessao × List Mensagem) :=
  comandoCom gerarPeca s opcao r

/-- The `switch (opcao)` of the menu loop, with ids taken as unbounded integers. -/
def comandoIdeal (s : Sessao) (opcao : Int) (r : Nat) : Option (Sessao × List Mensagem) :=
  comandoCom gerarPecaIdeal s opcao r

/-! ## Logical contents and call sequences -/

/-- The queue's logical contents: the reads `itens[(inicio + i) % 5]` for `0 ≤ i < contagem`,
front first. -/
def conteudoFila (f : FilaCircular) : List (Option Peca) :=
  (List.range f.contagem.toNat).map
    (fun (i : Nat) => ler f.itens (Int.tmod (f.inicio + (i : Int)) CAPACIDADE_FILA))

/-- The stack's contents: the reads `itens[i]` for `0 ≤ i ≤ topo`, bottom first. -/
def conteudoPilha (p : PilhaLinear) : List (Option Peca) :=
  (List.range (p.topo + 1).toNat).map (fun (i : Nat) => ler p.itens (i : Int))

/-- A call made on a container: an insertion of a piece or a removal. -/
inductive Chamada where
  | inserir (p : Peca)
  | remover
deriving DecidableEq, Repr

/-- What a call did: the piece was stored, the piece was refused because the container was
full, a stored piece was returned, or the container was empty and the call returned `p`. -/
inductive Efeito where
  | entrou (p : Peca)
  | recusada (p : Peca)
  | saiu (p : Peca)
  | nada (p : Peca)
deriving DecidableEq, Repr

/-- One `enqueue` or `dequeue` call on the queue, with what it did. -/
def chamarFila (f : FilaCircular) : Chamada → Option (FilaCircular × Efeito)
  | Chamada.inserir p =>
    match enqueue f p with
    | none => none
    | some (f1, _) => some (f1, if filaCheia f then Efeito.recusada p else Efeito.entrou p)
  | Chamada.remover =>
    match dequeue f with
    | none => none
    | some (r, f1, _) => some (f1, if filaVazia f then Efeito.nada r else Efeito.saiu r)

/-- A sequence of calls on the queue, left to right. -/
def executarFila (f : FilaCircular) : List Chamada → Option (FilaCircular × List Efeito)
  | [] => some (f, [])
  | c :: cs =>
    match chamarFila f c with
    | none => none
    | some (f1, e) =>
      match executarFila f1 cs with
      | none => none
      | some (f2, es) => some (f2, e :: es)

/-- One `push` or `pop` call on the stack, with what it did. -/
def chamarPilha (p : PilhaLinear) : Chamada → Option (PilhaLinear × Efeito)
  | Chamada.inserir x =>
    match push p x with
    | none => none
    | some (p1, _) => some (p1, if pilhaCheia p then Efeito.recusada x else Efeito.entrou x)
  | Chamada.remover =>
    match pop p with
    | none => none
    | some (r, p1, _) => some (p1, if pilhaVazia p then Efeito.nada r else Efeito.saiu r)

/-- A sequence of calls on the stack, left to right. -/
def executarPilha (p : PilhaLinear) : List Chamada → Option (PilhaLinear × List Efeito)
  | [] => some (p, [])
  | c :: cs =>
    match chamarPilha p c with
    | none => none
    | some (p1, e) =>
      match executarPilha p1 cs with
      | none => none
      | some (p2, es) => some (p2, e :: es)

/-- The pieces stored by a run, in call order. -/
def entradas : List Efeito → List Peca
  | [] => []
  | Efeito.entrou p :: es => p :: entradas es
  | _ :: es => entradas es

/-- The pieces returned by the removals of a run that found a piece, in call order. -/
def saidas : List Efeito → List Peca
  | [] => []
  | Efeito.saiu p :: es => p :: saidas es
  | _ :: es => saidas es

/-! ## The containers as the specification describes them -/

/-- The specification's bounded queue, an ordered sequence of at most 5 pieces with the front
first: insertion appends at the back unless the sequence is full, removal takes the front and
yields the invalid piece on an empty sequence. -/
def filaEspecificada (l : List Peca) : Chamada → List Peca × Efeito
  | Chamada.inserir p => if l.length < 5 then (l ++ [p], Efeito.entrou p) else (l, Efeito.recusada p)
  | Chamada.remover =>
    match l with
    | [] => ([], Efeito.nada { tipo := 'X', id := -1 })
    | x :: t => (t, Efeito.saiu x)

/-- A sequence of calls on the specification's queue. -/
def executarFilaEspecificada (l : List Peca) : List Chamada → List Peca × List Efeito
  | [] => (l, [])
  | c :: cs =>
    ((executarFilaEspecificada (filaEspecificada l c).1 cs).1,
      (filaEspecificada l c).2 :: (executarFilaEspecificada (filaEspecificada l c).1 cs).2)

/-- The specification's bounded stack, a sequence of at most 3 pieces with the top first:
insertion puts the piece on top unless the stack is full, removal takes the top and yields
the invalid piece on an empty stack. -/
def pilhaEspecificada (l : List Peca) : Chamada → List Peca × Efeito
  | Chamada.inserir p => if l.length < 3 then (p :: l, Efeito.entrou p) else (l, Efeito.recusada p)
  | Chamada.remover =>
    match l with
    | [] => ([], Efeito.nada { tipo := 'X', id := -1 })
    | x :: t => (t, Efeito.saiu x)

/-- A sequence of calls on the specification's stack. -/
def executarPilhaEspecificada (l : List Peca) : List Chamada → List Peca × List Efeito
  | [] => (l, [])
  | c :: cs =>
    ((executarPilhaEspecificada (pilhaEspecificada l c).1 cs).1,
      (pilhaEspecificada l c).2 :: (executarPilhaEspecificada (pilhaEspecificada l c).1 cs).2)

/-! ## Well-formed containers -/

/-- The queue's array has its declared size, the indices are in range and `fim` is the slot
just before `(inicio + contagem) mod 5`. -/
def FilaOk (f : FilaCircular) : Prop :=
  f.itens.length = 5 ∧ 0 ≤ f.inicio ∧ f.inicio < 5 ∧ 0 ≤ f.contagem ∧ f.contagem ≤ 5 ∧
    -1 ≤ f.fim ∧ f.fim < 5 ∧ (f.fim + 1) % 5 = (f.inicio + f.contagem) % 5

instance (f : FilaCircular) : Decidable (FilaOk f) := by
  unfold FilaOk; infer_instance

/-- The stack's array has its declared size and `topo` is in range. -/
def PilhaOk (p : PilhaLinear) : Prop :=
  p.itens.length = 3 ∧ -1 ≤ p.topo ∧ p.topo < 3

instance (p : PilhaLinear) : Decidable (PilhaOk p) := by
  unfold PilhaOk; infer_instance

/-- A piece of the specification's data model: a positive id and a type of the alphabet. -/
def PecaOk (q : Peca) : Prop := 1 ≤ q.id ∧ q.tipo ∈ tiposPecas

instance (q : Peca) : Decidable (PecaOk q) := by
  unfold PecaOk; infer_instance

/-- Every logical position of the queue holds a piece of the data model. -/
def FilaDePecas (f : FilaCircular) : Prop :=
  ∀ x ∈ conteudoFila f, ∀ q ∈ x, PecaOk q

/-- The entries of the queue followed by the entries of the stack. -/
def vivas (s : Sessao) : List (Option Peca) :=
  conteudoFila s.fila ++ conteudoPilha s.pilha

/-- A well-formed session state: well-formed containers, a full queue, a positive next id,
and every entry of the queue and of the stack a piece of the data model. -/
def SessaoOk (s : Sessao) : Prop :=
  FilaOk s.fila ∧ s.fila.contagem = 5 ∧ PilhaOk s.pilha ∧ 1 ≤ s.id_sequencial ∧
    ∀ x ∈ vivas s, ∀ q ∈ x, PecaOk q

/-- The session states reachable over the generator `gerar`: the state after the initial
fill (over arrays of the declared sizes), and the state after any command of the menu executed
in a reachable state. -/
inductive AlcancavelCom (gerar : Nat → Int → Peca × Int) : Sessao → Prop where
  | inicial (fila : FilaCircular) (pilha : PilhaLinear) (rand : Nat → Nat) (s : Sessao)
      (o : List Mensagem) (hf : fila.itens.length = 5) (hp : pilha.itens.length = 3)
      (h : iniciarCom gerar fila pilha rand = some (s, o)) : AlcancavelCom gerar s
  | passo (s : Sessao) (opcao : Int) (r : Nat) (s1 : Sessao) (o : List Mensagem)
      (hs : AlcancavelCom gerar s) (h : comandoCom gerar s opcao r = some (s1, o)) :
      AlcancavelCom gerar s1

/-- The session states the program can reach. -/
def Alcancavel (s : Sessao) : Prop := AlcancavelCom gerarPeca s

/-- The session states reachable with ids taken as unbounded integers. -/
def AlcancavelIdeal (s : Sessao) : Prop := AlcancavelCom gerarPecaIdeal s

/-- The session states the program reaches by commands executed while `id_sequencial` is below
2147483647, the one value at which `id_sequencial++` is not the successor. -/
inductive AlcancavelCedo : Sessao → Prop where
  | inicial (fila : FilaCircular) (pilha : PilhaLinear) (rand : Nat → Nat) (s : Sessao)
      (o : List Mensagem) (hf : fila.itens.length = 5) (hp : pilha.itens.length = 3)
      (h : iniciar fila pilha rand = some (s, o)) : AlcancavelCedo s
  | passo (s : Sessao) (opcao : Int) (r : Nat) (s1 : Sessao) (o : List Mensagem)
      (hs : AlcancavelCedo s) (hlim : s.id_sequencial < 2147483647)
      (h : comando s opcao r = some (s1, o)) : AlcancavelCedo s1

/-- The pieces returned by `k` successive calls of `gerarPeca` and the counter after them,
starting from the counter `n`; call number `j` (from 0) receives `rand j` from `rand()`. -/
def gerarVarias (rand : Nat → Nat) : Nat → Int → List Peca × Int
  | 0, n => ([], n)
  | k + 1, n =>
    ((gerarVarias rand k n).1 ++ [(gerarPeca (rand k) (gerarVarias rand k n).2).1],
      (gerarPeca (rand k) (gerarVarias rand k n).2).2)

/-- The queue states reachable from `inicializarFila` (over an array of 5 slots) through
`enqueue`, `dequeue`, `trocarFrenteTopo` and `trocarTresComPilha`, the exchanges being made
with any stack. -/
inductive FilaAlcancavel : FilaCircular → Prop where
  | inicial (f0 : FilaCircular) (h : f0.itens.length = 5) : FilaAlcancavel (inicializarFila f0)
  | enfileirar (f : FilaCircular) (x : Peca) (f1 : FilaCircular) (o : List Mensagem)
      (hf : FilaAlcancavel f) (h : enqueue f x = some (f1, o)) : FilaAlcancavel f1
  | desenfileirar (f : FilaCircular) (x : Peca) (f1 : FilaCircular) (o : List Mensagem)
      (hf : FilaAlcancavel f) (h : dequeue f = some (x, f1, o)) : FilaAlcancavel f1
  | trocarUm (f : FilaCircular) (p : PilhaLinear) (f1 : FilaCircular) (p1 : PilhaLinear)
      (o : List Mensagem) (hf : FilaAlcancavel f)
      (h : trocarFrenteTopo f p = some (f1, p1, o)) : FilaAlcancavel f1
  | trocarTres (f : FilaCircular) (p : PilhaLinear) (f1 : FilaCircular) (p1 : PilhaLinear)
      (o : List Mensagem) (hf : FilaAlcancavel f)
      (h : trocarTresComPilha f p = some (f1, p1, o)) : FilaAlcancavel f1

/-- The index-range predicate of the queue, over an array of the declared size:
`0 ≤ inicio ≤ 4`, `-1 ≤ fim ≤ 4`, `0 ≤ contagem ≤ 5`. -/
def IndicesFila (f : FilaCircular) : Prop :=
  f.itens.length = 5 ∧ 0 ≤ f.inicio ∧ f.inicio ≤ 4 ∧ -1 ≤ f.fim ∧ f.fim ≤ 4 ∧
    0 ≤ f.contagem ∧ f.contagem ≤ 5

instance (f : FilaCircular) : Decidable (IndicesFila f) := by
  unfold IndicesFila; infer_instance

/-- The index-range predicate of the stack, over an array of the declared size:
`-1 ≤ topo ≤ 2`. -/
def IndicesPilha (p : PilhaLinear) : Prop :=
  p.itens.length = 3 ∧ -1 ≤ p.topo ∧ p.topo ≤ 2

instance (p : PilhaLinear) : Decidable (IndicesPilha p) := by
  unfold IndicesPilha; infer_instance

/-- The ids of the entries of the queue followed by those of the stack. -/
def idsVivas (s : Sessao) : List (Option Int) :=
  (vivas s).map (Option.map Peca.id)

/-- The live pieces of a session state have pairwise distinct ids, all below the next id. -/
def SessaoUnica (s : Sessao) : Prop :=
  (idsVivas s).Nodup ∧ ∀ x ∈ vivas s, ∀ q ∈ x, q.id < s.id_sequencial

/-! ## Example data -/

/-- A queue whose array holds arbitrary pieces and whose indices are arbitrary, as found
before initialisation. -/
def filaExemplo : FilaCircular :=
  { itens := [⟨'Z', 40⟩, ⟨'Z', 41⟩, ⟨'Z', 42⟩, ⟨'Z', 43⟩, ⟨'Z', 44⟩],
    inicio := 9, fim := 7, contagem := 3 }

/-- Seven insertions (two of them refused), three removals, two insertions that wrap around
the array, and six removals (the last one on an empty queue). -/
def chamadasExemplo : List Chamada :=
  [Chamada.inserir ⟨'I', 1⟩, Chamada.inserir ⟨'O', 2⟩, Chamada.inserir ⟨'T', 3⟩,
   Chamada.inserir ⟨'S', 4⟩, Chamada.inserir ⟨'Z', 5⟩, Chamada.inserir ⟨'J', 6⟩,
   Chamada.remover, Chamada.remover, Chamada.remover,
   Chamada.inserir ⟨'L', 7⟩, Chamada.inserir ⟨'I', 8⟩,
   Chamada.remover, Chamada.remover, Chamada.remover, Chamada.remover, Chamada.remover]

/-- A stack whose array holds arbitrary pieces and whose `topo` is arbitrary, as found before
initialisation. -/
def pilhaExemplo : PilhaLinear :=
  { itens := [⟨'Z', 50⟩, ⟨'Z', 51⟩, ⟨'Z', 52⟩], topo := 17 }

/-- Four pushes (the last refused), two pops, one push, three pops (the last on an empty
stack). -/
def chamadasPilhaExemplo : List Chamada :=
  [Chamada.inserir ⟨'I', 1⟩, Chamada.inserir ⟨'O', 2⟩, Chamada.inserir ⟨'T', 3⟩,
   Chamada.inserir ⟨'S', 4⟩, Chamada.remover, Chamada.remover, Chamada.inserir ⟨'Z', 5⟩,
   Chamada.remover, Chamada.remover, Chamada.remover]

/-- A full queue whose head is at slot 4, so that its first three logical positions are the
slots 4, 0, 1; they hold the ids 1, 2, 3. -/
def filaCheiaExemplo : FilaCircular :=
  { itens := [⟨'O', 2⟩, ⟨'T', 3⟩, ⟨'S', 7⟩, ⟨'Z', 8⟩, ⟨'I', 1⟩],
    inicio := 4, fim := 3, contagem := 5 }

/-- A full stack holding, bottom to top, the ids 4, 5, 6. -/
def pilhaCheiaExemplo : PilhaLinear :=
  { itens := [⟨'J', 4⟩, ⟨'L', 5⟩, ⟨'I', 6⟩], topo := 2 }

/-- A queue of two pieces whose front is at slot 3, and a stack of two pieces. -/
def filaDoisExemplo : FilaCircular :=
  { itens := [⟨'Z', 40⟩, ⟨'Z', 41⟩, ⟨'Z', 42⟩, ⟨'T', 11⟩, ⟨'S', 12⟩],
    inicio := 3, fim := 4, contagem := 2 }

/-- A stack of two pieces; slot 2 is free. -/
def pilhaDoisExemplo : PilhaLinear :=
  { itens := [⟨'J', 9⟩, ⟨'L', 10⟩, ⟨'Z', 52⟩], topo := 1 }

/-- A full queue whose three front pieces are the three pieces of `pilhaRepetida`. -/
def filaRepetida : FilaCircular :=
  { itens := [⟨'I', 1⟩, ⟨'O', 2⟩, ⟨'T', 3⟩, ⟨'S', 4⟩, ⟨'Z', 5⟩],
    inicio := 0, fim := 4, contagem := 5 }

/-- A full stack holding, bottom to top, the three front pieces of `filaRepetida`. -/
def pilhaRepetida : PilhaLinear :=
  { itens := [⟨'I', 1⟩, ⟨'O', 2⟩, ⟨'T', 3⟩], topo := 2 }

/-- A session state after some commands: the queue is full with its head at slot 4, the
stack holds two pieces, and ten pieces have been generated. -/
def sessaoExemplo : Sessao :=
  { fila := { itens := [⟨'O', 5⟩, ⟨'T', 7⟩, ⟨'S', 8⟩, ⟨'Z', 10⟩, ⟨'I', 4⟩],
              inicio := 4, fim := 3, contagem := 5 },
    pilha := { itens := [⟨'J', 6⟩, ⟨'L', 9⟩, ⟨'I', 3⟩], topo := 1 },
    id_sequencial := 11 }

/-- The queue reached from `inicializarFila filaExemplo` by four insertions and one removal:
three pieces with the head at slot 1. -/
def filaTresExemplo : FilaCircular :=
  { itens := [⟨'I', 1⟩, ⟨'O', 2⟩, ⟨'T', 3⟩, ⟨'S', 4⟩, ⟨'Z', 44⟩],
    inicio := 1, fim := 3, contagem := 3 }

/-- The session state right after the initial fill over `filaExemplo` and `pilhaExemplo` when
every call of `rand()` returns 9 (type `T`). -/
def sessaoInicialExemplo : Sessao :=
  { fila := { itens := [⟨'T', 1⟩, ⟨'T', 2⟩, ⟨'T', 3⟩, ⟨'T', 4⟩, ⟨'T', 5⟩],
              inicio := 0, fim := 4, contagem := 5 },
    pilha := { itens := [⟨'Z', 50⟩, ⟨'Z', 51⟩, ⟨'Z', 52⟩], topo := -1 },
    id_sequencial := 6 }

/-- The session state reached from `sessaoInicialExemplo` by menu option 2 (move the front
piece to the reserve) with `rand()` returning 23 (type `T`). -/
def sessaoReservaExemplo : Sessao :=
  { fila := { itens := [⟨'T', 6⟩, ⟨'T', 2⟩, ⟨'T', 3⟩, ⟨'T', 4⟩, ⟨'T', 5⟩],
              inicio := 1, fim := 0, contagem := 5 },
    pilha := { itens := [⟨'T', 1⟩, ⟨'Z', 51⟩, ⟨'Z', 52⟩], topo := 0 },
    id_sequencial := 7 }

/-- A session state whose queue is well formed and holds 5 pieces, the front one with the
id -1; the ids are -1, 0, 1, 2, 3 and the next id is 4, as generated once the 32-bit counter
has gone from 2147483647 to -2147483648 and on to -1. -/
def sessaoSentinela : Sessao :=
  { fila := { itens := [⟨'I', -1⟩, ⟨'O', 0⟩, ⟨'T', 1⟩, ⟨'S', 2⟩, ⟨'Z', 3⟩],
              inicio := 0, fim := 4, contagem := 5 },
    pilha := { itens := [⟨'Z', 50⟩, ⟨'Z', 51⟩, ⟨'Z', 52⟩], topo := -1 },
    id_sequencial := 4 }

/-- The session state after the initial fill over `filaExemplo` and `pilhaExemplo` followed by
`k` runs of menu option 1 (play a piece), `rand()` returning 0 at every call. -/
def aposJogadas : Nat → Option Sessao
  | 0 => (iniciar filaExemplo pilhaExemplo (fun _ => 0)).map Prod.fst
  | k + 1 => (aposJogadas k).bind (fun s => (comando s 1 0).map Prod.fst)

/-! ## Theorems -/

/-- A list of length 5 is five elements. -/
theorem lista_cinco (l : List Peca) (h : l.length = 5) : ∃ a b c d e, l = [a, b, c, d, e] := by
  match l, h with
  | [a, b, c, d, e], _ => exact ⟨a, b, c, d, e, rfl⟩

/-- A list of length 3 is three elements. -/
theorem lista_tres (l : List Peca) (h : l.length = 3) : ∃ a b c, l = [a, b, c] := by
  match l, h with
  | [a, b, c], _ => exact ⟨a, b, c, rfl⟩

/-- On a well-formed queue that is not full, `enqueue` stores the piece at the back. -/
theorem enqueue_conteudo (f : FilaCircular) (p : Peca) (h : FilaOk f) (hc : f.contagem < 5) :
    ∃ f1, enqueue f p = some (f1, []) ∧ FilaOk f1 ∧ f1.contagem = f.contagem + 1 ∧
      f1.inicio = f.inicio ∧ conteudoFila f1 = conteudoFila f ++ [some p] := by
  obtain ⟨itens, inicio, fim, contagem⟩ := f
  obtain ⟨hl, h1, h2, h3, h4, h5, h6, h7⟩ := h
  obtain ⟨a, b, c, d, e, rfl⟩ := lista_cinco itens hl
  simp only at h1 h2 h3 h4 h5 h6 h7 hc
  interval_cases inicio <;> interval_cases contagem <;> interval_cases fim <;>
    first
    | (exfalso; revert h7; decide)
    | exact ⟨_, rfl, by simp [FilaOk, CAPACIDADE_FILA] <;> decide, rfl, rfl, rfl⟩

/-- On a well-formed non-empty queue, `dequeue` returns the front piece and keeps the rest. -/
theorem dequeue_conteudo (f : FilaCircular) (h : FilaOk f) (hc : 0 < f.contagem) :
    ∃ x f1, dequeue f = some (x, f1, []) ∧ FilaOk f1 ∧ f1.contagem = f.contagem - 1 ∧
      f1.itens = f.itens ∧ f1.fim = f.fim ∧ conteudoFila f = some x :: conteudoFila f1 := by
  obtain ⟨itens, inicio, fim, contagem⟩ := f
  obtain ⟨hl, h1, h2, h3, h4, h5, h6, h7⟩ := h
  obtain ⟨a, b, c, d, e, rfl⟩ := lista_cinco itens hl
  simp only at h1 h2 h3 h4 h5 h6 h7 hc
  interval_cases inicio <;> interval_cases contagem <;> interval_cases fim <;>
    first
    | (exfalso; revert h7; decide)
    | exact ⟨_, _, rfl, by simp [FilaOk, CAPACIDADE_FILA] <;> decide, rfl, rfl, rfl, rfl⟩

/-- The number of logical positions of a queue is its `contagem`. -/
theorem conteudoFila_length (f : FilaCircular) : (conteudoFila f).length = f.contagem.toNat := by
  simp [conteudoFila]

/-- One call on a well-formed queue does what the same call does on the specification's queue
holding the same pieces. -/
theorem chamarFila_simula (f : FilaCircular) (l : List Peca) (c : Chamada) (h : FilaOk f)
    (hl : conteudoFila f = l.map some) :
    ∃ f1, chamarFila f c = some (f1, (filaEspecificada l c).2) ∧ FilaOk f1 ∧
      conteudoFila f1 = (filaEspecificada l c).1.map some := by
  have hlen : l.length = f.contagem.toNat := by
    have := congrArg List.length hl
    simpa [conteudoFila_length] using this.symm
  have h0 : 0 ≤ f.contagem := h.2.2.2.1
  have h5 : f.contagem ≤ 5 := h.2.2.2.2.1
  cases c with
  | inserir p =>
    by_cases hc : f.contagem < 5
    · obtain ⟨f1, he, hok, _, _, hcont⟩ := enqueue_conteudo f p h hc
      have hne : filaCheia f = false := by
        simp only [filaCheia, CAPACIDADE_FILA, beq_eq_false_iff_ne, ne_eq]; omega
      have hlt : l.length < 5 := by omega
      refine ⟨f1, ?_, hok, ?_⟩
      · simp [chamarFila, he, hne, filaEspecificada, hlt]
      · simp [filaEspecificada, hlt, hcont, hl]
    · have hc5 : f.contagem = 5 := by omega
      have hch : filaCheia f = true := by simp [filaCheia, CAPACIDADE_FILA, hc5]
      have hnl : ¬ l.length < 5 := by omega
      refine ⟨f, ?_, h, ?_⟩
      · simp [chamarFila, enqueue, hch, filaEspecificada, hnl]
      · simp [filaEspecificada, hnl, hl]
  | remover =>
    by_cases hc : 0 < f.contagem
    · obtain ⟨x, f1, hd, hok, _, _, _, hcont⟩ := dequeue_conteudo f h hc
      have hne : filaVazia f = false := by
        simp only [filaVazia, beq_eq_false_iff_ne, ne_eq]; omega
      rw [hcont] at hl
      cases l with
      | nil => simp at hl
      | cons y t =>
        simp only [List.map_cons, List.cons.injEq, Option.some.injEq] at hl
        obtain ⟨rfl, ht⟩ := hl
        exact ⟨f1, by simp [chamarFila, hd, hne, filaEspecificada], hok, by
          simpa [filaEspecificada] using ht⟩
    · have hc0 : f.contagem = 0 := by omega
      have hv : filaVazia f = true := by simp [filaVazia, hc0]
      have hnil : l = [] := by
        apply List.eq_nil_of_length_eq_zero; simp [hlen, hc0]
      subst hnil
      exact ⟨f, by simp [chamarFila, dequeue, hv, filaEspecificada, vazia], h, by
        simpa [filaEspecificada] using hl⟩

/-- A sequence of calls on a well-formed queue runs to the end and does what the same
sequence does on the specification's queue holding the same pieces. -/
theorem executarFila_simula (cs : List Chamada) :
    ∀ (f : FilaCircular) (l : List Peca), FilaOk f → conteudoFila f = l.map some →
      ∃ f1, executarFila f cs = some (f1, (executarFilaEspecificada l cs).2) ∧ FilaOk f1 ∧
        conteudoFila f1 = (executarFilaEspecificada l cs).1.map some := by
  induction cs with
  | nil => intro f l h hl; exact ⟨f, rfl, h, hl⟩
  | cons c cs ih =>
    intro f l h hl
    obtain ⟨f1, h1, hok1, hl1⟩ := chamarFila_simula f l c h hl
    obtain ⟨f2, h2, hok2, hl2⟩ := ih f1 _ hok1 hl1
    exact ⟨f2, by simp [executarFila, h1, h2, executarFilaEspecificada], hok2, by
      simpa [executarFilaEspecificada] using hl2⟩

/-- On the specification's queue, the pieces held at the start followed by the pieces stored
are the pieces taken out followed by the pieces held at the end. -/
theorem filaEspecificada_fifo (cs : List Chamada) :
    ∀ l : List Peca, l ++ entradas (executarFilaEspecificada l cs).2 =
      saidas (executarFilaEspecificada l cs).2 ++ (executarFilaEspecificada l cs).1 := by
  induction cs with
  | nil => intro l; simp [executarFilaEspecificada, entradas, saidas]
  | cons c cs ih =>
    intro l
    cases c with
    | inserir p =>
      by_cases hlt : l.length < 5
      · have := ih (l ++ [p])
        simpa [executarFilaEspecificada, filaEspecificada, hlt, entradas, saidas] using this
      · have := ih l
        simpa [executarFilaEspecificada, filaEspecificada, hlt, entradas, saidas] using this
    | remover =>
      cases l with
      | nil =>
        have := ih []
        simpa [executarFilaEspecificada, filaEspecificada, entradas, saidas] using this
      | cons x t =>
        have := ih t
        simpa [executarFilaEspecificada, filaEspecificada, entradas, saidas] using this

/-- A queue set up by `inicializarFila` over an array of 5 slots is well formed and holds
nothing. -/
theorem inicializarFila_ok (f0 : FilaCircular) (hl : f0.itens.length = 5) :
    FilaOk (inicializarFila f0) ∧ conteudoFila (inicializarFila f0) = [] := by
  refine ⟨?_, ?_⟩
  · simp [FilaOk, inicializarFila, hl]
  · simp [conteudoFila, inicializarFila]

/-- C1. Starting from a queue set up by `inicializarFila` (over any array of 5 slots), every
sequence `cs` of `enqueue`/`dequeue` calls runs without an out-of-range access, and after
every step `k` of it: `0 ≤ contagem ≤ 5`; each call so far did exactly what it does on the
specification's bounded FIFO list started empty (append at the back unless 5 pieces are held,
remove and return the head unless empty); the logical contents
`itens[(inicio + i) % 5]`, `0 ≤ i < contagem`, are that list; the pieces accepted so far are
the pieces dequeued so far followed by the pieces still queued, so the `j`-th successful
dequeue returned the `j`-th accepted piece. -/
theorem fila_simula_fifo (f0 : FilaCircular) (hl : f0.itens.length = 5) (cs : List Chamada)
    (k : Nat) :
    ∃ f es, executarFila (inicializarFila f0) (cs.take k) = some (f, es) ∧
      0 ≤ f.contagem ∧ f.contagem ≤ 5 ∧
      es = (executarFilaEspecificada [] (cs.take k)).2 ∧
      conteudoFila f = (executarFilaEspecificada [] (cs.take k)).1.map some ∧
      (entradas es).map some = (saidas es).map some ++ conteudoFila f ∧
      ∀ (j : Nat) (p : Peca), (saidas es)[j]? = some p → (entradas es)[j]? = some p := by
  obtain ⟨hok, hnil⟩ := inicializarFila_ok f0 hl
  obtain ⟨f, hrun, hf, hcont⟩ :=
    executarFila_simula (cs.take k) (inicializarFila f0) [] hok (by simpa using hnil)
  have hfifo := filaEspecificada_fifo (cs.take k) []
  simp only [List.nil_append] at hfifo
  refine ⟨f, _, hrun, hf.2.2.2.1, hf.2.2.2.2.1, rfl, hcont, ?_, ?_⟩
  · rw [hcont, ← List.map_append, ← hfifo]
  · intro j p hj
    rw [hfifo]
    have hlt : j < (saidas (executarFilaEspecificada [] (cs.take k)).2).length := by
      by_contra hge
      rw [List.getElem?_eq_none (by omega)] at hj
      exact Option.noConfusion hj
    rw [List.getElem?_append_left hlt]
    exact hj

/-- C1 at `filaExemplo` and `chamadasExemplo`, after 14 steps. -/
theorem fila_simula_fifo_witness :
    filaExemplo.itens.length = 5 ∧
    ∃ f es, executarFila (inicializarFila filaExemplo) (chamadasExemplo.take 14) = some (f, es) ∧
      0 ≤ f.contagem ∧ f.contagem ≤ 5 ∧
      es = (executarFilaEspecificada [] (chamadasExemplo.take 14)).2 ∧
      conteudoFila f = (executarFilaEspecificada [] (chamadasExemplo.take 14)).1.map some ∧
      (entradas es).map some = (saidas es).map some ++ conteudoFila f ∧
      ∀ (j : Nat) (p : Peca), (saidas es)[j]? = some p → (entradas es)[j]? = some p :=
  ⟨by decide, fila_simula_fifo filaExemplo (by decide) chamadasExemplo 14⟩

/-- The pieces dequeued by `chamadasExemplo`, evaluated: they come out in the order in which
they were accepted, across the wraparound. -/
theorem executarFila_exemplo :
    (executarFila (inicializarFila filaExemplo) chamadasExemplo).map (fun r => saidas r.2)
    = some [⟨'I', 1⟩, ⟨'O', 2⟩, ⟨'T', 3⟩, ⟨'S', 4⟩, ⟨'Z', 5⟩, ⟨'L', 7⟩, ⟨'I', 8⟩] := by decide

/-- On a well-formed stack that is not full, `push` stores the piece above the others. -/
theorem push_conteudo (p : PilhaLinear) (x : Peca) (h : PilhaOk p) (hc : p.topo < 2) :
    ∃ p1, push p x = some (p1, []) ∧ PilhaOk p1 ∧ p1.topo = p.topo + 1 ∧
      conteudoPilha p1 = conteudoPilha p ++ [some x] := by
  obtain ⟨itens, topo⟩ := p
  obtain ⟨hl, h1, h2⟩ := h
  obtain ⟨a, b, c, rfl⟩ := lista_tres itens hl
  simp only at h1 h2 hc
  interval_cases topo <;>
    exact ⟨_, rfl, by simp [PilhaOk], rfl, rfl⟩

/-- On a well-formed non-empty stack, `pop` returns the topmost piece and keeps the rest. -/
theorem pop_conteudo (p : PilhaLinear) (h : PilhaOk p) (hc : -1 < p.topo) :
    ∃ x p1, pop p = some (x, p1, []) ∧ PilhaOk p1 ∧ p1.topo = p.topo - 1 ∧
      p1.itens = p.itens ∧ conteudoPilha p = conteudoPilha p1 ++ [some x] := by
  obtain ⟨itens, topo⟩ := p
  obtain ⟨hl, h1, h2⟩ := h
  obtain ⟨a, b, c, rfl⟩ := lista_tres itens hl
  simp only at h1 h2 hc
  interval_cases topo <;>
    exact ⟨_, _, rfl, by simp [PilhaOk], rfl, rfl, rfl⟩

/-- The number of stored positions of a stack is `topo + 1`. -/
theorem conteudoPilha_length (p : PilhaLinear) :
    (conteudoPilha p).length = (p.topo + 1).toNat := by
  simp [conteudoPilha]

/-- One call on a well-formed stack does what the same call does on the specification's stack
holding the same pieces. -/
theorem chamarPilha_simula (p : PilhaLinear) (l : List Peca) (c : Chamada) (h : PilhaOk p)
    (hl : conteudoPilha p = l.reverse.map some) :
    ∃ p1, chamarPilha p c = some (p1, (pilhaEspecificada l c).2) ∧ PilhaOk p1 ∧
      conteudoPilha p1 = (pilhaEspecificada l c).1.reverse.map some := by
  have hlen : l.length = (p.topo + 1).toNat := by
    have := congrArg List.length hl
    simpa [conteudoPilha_length] using this.symm
  have h0 : -1 ≤ p.topo := h.2.1
  have h3 : p.topo < 3 := h.2.2
  cases c with
  | inserir x =>
    by_cases hc : p.topo < 2
    · obtain ⟨p1, he, hok, _, hcont⟩ := push_conteudo p x h hc
      have hne : pilhaCheia p = false := by
        simp only [pilhaCheia, CAPACIDADE_PILHA, beq_eq_false_iff_ne, ne_eq]; omega
      have hlt : l.length < 3 := by omega
      refine ⟨p1, ?_, hok, ?_⟩
      · simp [chamarPilha, he, hne, pilhaEspecificada, hlt]
      · simp [pilhaEspecificada, hlt, hcont, hl]
    · have hc2 : p.topo = 2 := by omega
      have hch : pilhaCheia p = true := by simp [pilhaCheia, CAPACIDADE_PILHA, hc2]
      have hnl : ¬ l.length < 3 := by omega
      refine ⟨p, ?_, h, ?_⟩
      · simp [chamarPilha, push, hch, pilhaEspecificada, hnl]
      · simp [pilhaEspecificada, hnl, hl]
  | remover =>
    by_cases hc : -1 < p.topo
    · obtain ⟨x, p1, hd, hok, _, _, hcont⟩ := pop_conteudo p h hc
      have hne : pilhaVazia p = false := by
        simp only [pilhaVazia, beq_eq_false_iff_ne, ne_eq]; omega
      rw [hcont] at hl
      cases l with
      | nil => simp at hl
      | cons y t =>
        simp only [List.reverse_cons, List.map_append, List.map_cons, List.map_nil] at hl
        obtain ⟨ht, hx⟩ := List.append_inj' hl rfl
        simp only [List.cons.injEq, Option.some.injEq, and_true] at hx
        subst hx
        exact ⟨p1, by simp [chamarPilha, hd, hne, pilhaEspecificada], hok, by
          simpa [pilhaEspecificada] using ht⟩
    · have hc0 : p.topo = -1 := by omega
      have hv : pilhaVazia p = true := by simp [pilhaVazia, hc0]
      have hnil : l = [] := by
        apply List.eq_nil_of_length_eq_zero; simp [hlen, hc0]
      subst hnil
      exact ⟨p, by simp [chamarPilha, pop, hv, pilhaEspecificada, vazia], h, by
        simpa [pilhaEspecificada] using hl⟩

/-- A sequence of calls on a well-formed stack runs to the end and does what the same
sequence does on the specification's stack holding the same pieces. -/
theorem executarPilha_simula (cs : List Chamada) :
    ∀ (p : PilhaLinear) (l : List Peca), PilhaOk p → conteudoPilha p = l.reverse.map some →
      ∃ p1, executarPilha p cs = some (p1, (executarPilhaEspecificada l cs).2) ∧ PilhaOk p1 ∧
        conteudoPilha p1 = (executarPilhaEspecificada l cs).1.reverse.map some := by
  induction cs with
  | nil => intro p l h hl; exact ⟨p, rfl, h, hl⟩
  | cons c cs ih =>
    intro p l h hl
    obtain ⟨p1, h1, hok1, hl1⟩ := chamarPilha_simula p l c h hl
    obtain ⟨p2, h2, hok2, hl2⟩ := ih p1 _ hok1 hl1
    exact ⟨p2, by simp [executarPilha, h1, h2, executarPilhaEspecificada], hok2, by
      simpa [executarPilhaEspecificada] using hl2⟩

/-- Running two sequences of calls one after the other on the specification's stack. -/
theorem executarPilhaEspecificada_append (cs ds : List Chamada) :
    ∀ l : List Peca, executarPilhaEspecificada l (cs ++ ds) =
      ((executarPilhaEspecificada (executarPilhaEspecificada l cs).1 ds).1,
        (executarPilhaEspecificada l cs).2 ++
          (executarPilhaEspecificada (executarPilhaEspecificada l cs).1 ds).2) := by
  induction cs with
  | nil => intro l; simp [executarPilhaEspecificada]
  | cons c cs ih => intro l; simp [executarPilhaEspecificada, ih]

/-- Pushing `xs` within capacity on the specification's stack stores all of it, last pushed
on top. -/
theorem pilhaEspecificada_inserir (xs : List Peca) :
    ∀ l : List Peca, l.length + xs.length ≤ 3 →
      executarPilhaEspecificada l (xs.map Chamada.inserir) =
        (xs.reverse ++ l, xs.map Efeito.entrou) := by
  induction xs with
  | nil => intro l _; simp [executarPilhaEspecificada]
  | cons x xs ih =>
    intro l h
    simp only [List.length_cons] at h
    have hlt : l.length < 3 := by omega
    have := ih (x :: l) (by simp only [List.length_cons]; omega)
    simp [executarPilhaEspecificada, pilhaEspecificada, hlt, this]

/-- Popping as many pieces as `ys` holds from the specification's stack `ys ++ l` returns
`ys` from the top down and leaves `l`. -/
theorem pilhaEspecificada_remover (ys : List Peca) :
    ∀ l : List Peca, executarPilhaEspecificada (ys ++ l)
        (List.replicate ys.length Chamada.remover) = (l, ys.map Efeito.saiu) := by
  induction ys with
  | nil => intro l; simp [executarPilhaEspecificada]
  | cons y ys ih =>
    intro l
    simp [List.replicate_succ, executarPilhaEspecificada, pilhaEspecificada, ih]

/-- A stack set up by `inicializarPilha` over an array of 3 slots is well formed and holds
nothing. -/
theorem inicializarPilha_ok (p0 : PilhaLinear) (hl : p0.itens.length = 3) :
    PilhaOk (inicializarPilha p0) ∧ conteudoPilha (inicializarPilha p0) = [] := by
  refine ⟨?_, ?_⟩
  · simp [PilhaOk, inicializarPilha, hl]
  · simp [conteudoPilha, inicializarPilha]

/-- C2. Starting from a stack set up by `inicializarPilha` (over any array of 3 slots), every
sequence `cs` of `push`/`pop` calls runs without an out-of-range access, and after every step
`k` of it: `-1 ≤ topo ≤ 2`; each call so far did exactly what it does on the specification's
bounded LIFO list started empty (a push puts the piece on top unless 3 pieces are held, a pop
removes and returns the top unless empty); the slots `0 .. topo` hold that list, bottom
first.  From the stack so reached, pushing any pieces `xs` that fit and popping as many
returns them in reverse order of push and restores the contents. -/
theorem pilha_simula_lifo (p0 : PilhaLinear) (hl : p0.itens.length = 3) (cs : List Chamada)
    (k : Nat) :
    ∃ p es, executarPilha (inicializarPilha p0) (cs.take k) = some (p, es) ∧
      -1 ≤ p.topo ∧ p.topo ≤ 2 ∧
      es = (executarPilhaEspecificada [] (cs.take k)).2 ∧
      conteudoPilha p = (executarPilhaEspecificada [] (cs.take k)).1.reverse.map some ∧
      ∀ xs : List Peca, p.topo + 1 + xs.length ≤ 3 →
        ∃ p1, executarPilha p
            (xs.map Chamada.inserir ++ List.replicate xs.length Chamada.remover) =
              some (p1, xs.map Efeito.entrou ++ xs.reverse.map Efeito.saiu) ∧
          p1.topo = p.topo ∧ conteudoPilha p1 = conteudoPilha p := by
  obtain ⟨hok, hnil⟩ := inicializarPilha_ok p0 hl
  obtain ⟨p, hrun, hp, hcont⟩ :=
    executarPilha_simula (cs.take k) (inicializarPilha p0) [] hok (by simpa using hnil)
  refine ⟨p, _, hrun, hp.2.1, by have := hp.2.2; omega, rfl, hcont, ?_⟩
  intro xs hxs
  have hlen : ((executarPilhaEspecificada [] (cs.take k)).1).length = (p.topo + 1).toNat := by
    have := congrArg List.length hcont
    simpa [conteudoPilha_length] using this.symm
  have hfit : ((executarPilhaEspecificada [] (cs.take k)).1).length + xs.length ≤ 3 := by
    have := hp.2.1
    omega
  obtain ⟨p1, hrun1, hp1, hcont1⟩ := executarPilha_simula
    (xs.map Chamada.inserir ++ List.replicate xs.length Chamada.remover) p _ hp hcont
  have hspec : executarPilhaEspecificada (executarPilhaEspecificada [] (cs.take k)).1
      (xs.map Chamada.inserir ++ List.replicate xs.length Chamada.remover) =
      ((executarPilhaEspecificada [] (cs.take k)).1,
        xs.map Efeito.entrou ++ xs.reverse.map Efeito.saiu) := by
    rw [executarPilhaEspecificada_append, pilhaEspecificada_inserir xs _ hfit]
    have := pilhaEspecificada_remover xs.reverse (executarPilhaEspecificada [] (cs.take k)).1
    rw [List.length_reverse] at this
    simp only [this]
  rw [hspec] at hrun1 hcont1
  have hc : conteudoPilha p1 = conteudoPilha p := by rw [hcont1, hcont]
  refine ⟨p1, hrun1, ?_, hc⟩
  have h1 := conteudoPilha_length p1
  have h2 := conteudoPilha_length p
  rw [hc] at h1
  have := hp.2.1
  have := hp1.2.1
  omega

/-- C2 at `pilhaExemplo` and `chamadasPilhaExemplo`, after 6 steps. -/
theorem pilha_simula_lifo_witness :
    pilhaExemplo.itens.length = 3 ∧
    ∃ p es, executarPilha (inicializarPilha pilhaExemplo) (chamadasPilhaExemplo.take 6) =
        some (p, es) ∧
      -1 ≤ p.topo ∧ p.topo ≤ 2 ∧
      es = (executarPilhaEspecificada [] (chamadasPilhaExemplo.take 6)).2 ∧
      conteudoPilha p =
        (executarPilhaEspecificada [] (chamadasPilhaExemplo.take 6)).1.reverse.map some ∧
      ∀ xs : List Peca, p.topo + 1 + xs.length ≤ 3 →
        ∃ p1, executarPilha p
            (xs.map Chamada.inserir ++ List.replicate xs.length Chamada.remover) =
              some (p1, xs.map Efeito.entrou ++ xs.reverse.map Efeito.saiu) ∧
          p1.topo = p.topo ∧ conteudoPilha p1 = conteudoPilha p :=
  ⟨by decide, pilha_simula_lifo pilhaExemplo (by decide) chamadasPilhaExemplo 6⟩

/-- The effects of `chamadasPilhaExemplo`, evaluated. -/
theorem executarPilha_exemplo :
    (executarPilha (inicializarPilha pilhaExemplo) chamadasPilhaExemplo).map
    (fun r => r.2) = some [Efeito.entrou ⟨'I', 1⟩, Efeito.entrou ⟨'O', 2⟩,
      Efeito.entrou ⟨'T', 3⟩, Efeito.recusada ⟨'S', 4⟩, Efeito.saiu ⟨'T', 3⟩,
      Efeito.saiu ⟨'O', 2⟩, Efeito.entrou ⟨'Z', 5⟩, Efeito.saiu ⟨'Z', 5⟩,
      Efeito.saiu ⟨'I', 1⟩, Efeito.nada vazia] := by decide

/-! ### Reads and writes -/

/-- A read that yields a piece was within the array. -/
theorem ler_some_dentro (a : List Peca) (i : Int) (x : Peca) (h : ler a i = some x) :
    0 ≤ i ∧ i.toNat < a.length := by
  unfold ler at h
  split at h
  · rename_i h0
    exact ⟨h0, (List.getElem?_eq_some_iff.mp h).1⟩
  · exact Option.noConfusion h

/-- A read outside the array yields nothing. -/
theorem ler_fora (a : List Peca) (i : Int) (h : ¬ (0 ≤ i ∧ i < a.length)) : ler a i = none := by
  unfold ler
  split
  · rename_i h0
    apply List.getElem?_eq_none
    have : ¬ i < a.length := fun hlt => h ⟨h0, hlt⟩
    omega
  · rfl

/-- A write within the array replaces one slot. -/
theorem gravar_dentro (a : List Peca) (i : Int) (p : Peca) (h0 : 0 ≤ i)
    (h1 : i.toNat < a.length) : gravar a i p = some (a.set i.toNat p) := by
  simp [gravar, h0, h1]

/-- Reading the slot just written yields the piece written. -/
theorem ler_set_mesmo (a : List Peca) (i : Int) (p : Peca) (h0 : 0 ≤ i)
    (h1 : i.toNat < a.length) : ler (a.set i.toNat p) i = some p := by
  simp [ler, h0, h1]

/-- Reading any other slot is not affected by a write. -/
theorem ler_set_outro (a : List Peca) (i j : Int) (p : Peca) (h0 : 0 ≤ i) (hij : j ≠ i) :
    ler (a.set i.toNat p) j = ler a j := by
  unfold ler
  split
  · rename_i hj
    have : i.toNat ≠ j.toNat := by omega
    simp [List.getElem?_set_ne this]
  · rfl

/-! ### The exchanges -/

/-- What `trocarTresComPilha` does when its precondition holds on arrays of the declared
sizes with the head in range. -/
theorem trocarTresComPilha_efeito (f : FilaCircular) (p : PilhaLinear)
    (hf : f.itens.length = 5) (hp : p.itens.length = 3) (h0 : 0 ≤ f.inicio)
    (h1 : f.inicio < 5) (hc : 3 ≤ f.contagem) (ht : p.topo = 2) :
    ∃ f1 p1, trocarTresComPilha f p = some (f1, p1, [Mensagem.sucessoTrocaTres]) ∧
      (∀ i : Nat, i < 3 → ∃ a b,
        ler f.itens (Int.tmod (f.inicio + (i : Int)) 5) = some a ∧
        ler p.itens (i : Int) = some b ∧
        ler f1.itens (Int.tmod (f.inicio + (i : Int)) 5) = some b ∧
        ler p1.itens (i : Int) = some a) ∧
      (∀ j : Int, (∀ i : Nat, i < 3 → j ≠ Int.tmod (f.inicio + (i : Int)) 5) →
        ler f1.itens j = ler f.itens j) ∧
      f1.itens.length = 5 ∧ p1.itens.length = 3 ∧
      f1.inicio = f.inicio ∧ f1.fim = f.fim ∧ f1.contagem = f.contagem ∧ p1.topo = p.topo := by
  obtain ⟨itens, inicio, fim, contagem⟩ := f
  obtain ⟨pitens, topo⟩ := p
  obtain ⟨a, b, c, d, e, rfl⟩ := lista_cinco itens hf
  obtain ⟨x, y, z, rfl⟩ := lista_tres pitens hp
  simp only at h0 h1 hc ht
  subst ht
  have hcond : (decide (contagem < 3) || (2 : Int) != CAPACIDADE_PILHA - 1) = false := by
    simp only [CAPACIDADE_PILHA, Bool.or_eq_false_iff, decide_eq_false_iff_not, not_lt]
    exact ⟨hc, by decide⟩
  simp only [trocarTresComPilha, hcond]
  interval_cases inicio
  all_goals
    refine ⟨_, _, rfl, ?_, ?_, rfl, rfl, rfl, rfl, rfl, rfl⟩
    · intro i hi
      interval_cases i <;> exact ⟨_, _, rfl, rfl, rfl, rfl⟩
    · intro j hj
      by_cases hin : 0 ≤ j ∧ j < 5
      · obtain ⟨hj0, hj5⟩ := hin
        have e0 := hj 0 (by decide)
        have e1 := hj 1 (by decide)
        have e2 := hj 2 (by decide)
        interval_cases j <;>
          first
          | rfl
          | exact (e0 rfl).elim
          | exact (e1 rfl).elim
          | exact (e2 rfl).elim
      · rw [ler_fora _ j (by simpa using hin), ler_fora _ j (by simpa using hin)]

/-- C3. For every queue with at least 3 pieces at any head position `0 .. 4` and every full
stack (`topo = 2`), `trocarTresComPilha` succeeds and, for `i = 0, 1, 2`, the queue's logical
position `i` (slot `(inicio + i) % 5`) now holds what the stack's slot `i` held and the
stack's slot `i` now holds what that queue position held; every other queue slot, `inicio`,
`fim`, `contagem` and `topo` are unchanged. -/
theorem trocarTresComPilha_troca (f : FilaCircular) (p : PilhaLinear)
    (hf : f.itens.length = 5) (hp : p.itens.length = 3) (h0 : 0 ≤ f.inicio)
    (h1 : f.inicio < 5) (hc : 3 ≤ f.contagem) (ht : p.topo = 2) :
    ∃ f1 p1, trocarTresComPilha f p = some (f1, p1, [Mensagem.sucessoTrocaTres]) ∧
      (∀ i : Nat, i < 3 → ∃ a b,
        ler f.itens (Int.tmod (f.inicio + (i : Int)) 5) = some a ∧
        ler p.itens (i : Int) = some b ∧
        ler f1.itens (Int.tmod (f.inicio + (i : Int)) 5) = some b ∧
        ler p1.itens (i : Int) = some a) ∧
      (∀ j : Int, (∀ i : Nat, i < 3 → j ≠ Int.tmod (f.inicio + (i : Int)) 5) →
        ler f1.itens j = ler f.itens j) ∧
      f1.itens.length = 5 ∧ p1.itens.length = 3 ∧
      f1.inicio = f.inicio ∧ f1.fim = f.fim ∧ f1.contagem = f.contagem ∧ p1.topo = p.topo :=
  trocarTresComPilha_efeito f p hf hp h0 h1 hc ht

/-- C3 at `filaCheiaExemplo` and `pilhaCheiaExemplo`. -/
theorem trocarTresComPilha_troca_witness :
    (filaCheiaExemplo.itens.length = 5 ∧ pilhaCheiaExemplo.itens.length = 3 ∧
      0 ≤ filaCheiaExemplo.inicio ∧ filaCheiaExemplo.inicio < 5 ∧
      3 ≤ filaCheiaExemplo.contagem ∧ pilhaCheiaExemplo.topo = 2) ∧
    ∃ f1 p1, trocarTresComPilha filaCheiaExemplo pilhaCheiaExemplo =
        some (f1, p1, [Mensagem.sucessoTrocaTres]) ∧
      (∀ i : Nat, i < 3 → ∃ a b,
        ler filaCheiaExemplo.itens (Int.tmod (filaCheiaExemplo.inicio + (i : Int)) 5) = some a ∧
        ler pilhaCheiaExemplo.itens (i : Int) = some b ∧
        ler f1.itens (Int.tmod (filaCheiaExemplo.inicio + (i : Int)) 5) = some b ∧
        ler p1.itens (i : Int) = some a) ∧
      (∀ j : Int,
        (∀ i : Nat, i < 3 → j ≠ Int.tmod (filaCheiaExemplo.inicio + (i : Int)) 5) →
        ler f1.itens j = ler filaCheiaExemplo.itens j) ∧
      f1.itens.length = 5 ∧ p1.itens.length = 3 ∧
      f1.inicio = filaCheiaExemplo.inicio ∧ f1.fim = filaCheiaExemplo.fim ∧
      f1.contagem = filaCheiaExemplo.contagem ∧ p1.topo = pilhaCheiaExemplo.topo :=
  ⟨by decide, trocarTresComPilha_troca filaCheiaExemplo pilhaCheiaExemplo (by decide)
    (by decide) (by decide) (by decide) (by decide) (by decide)⟩

/-- The instance named in the specification, with the head at slot 4: front-three ids
`[1, 2, 3]` and stack ids `[4, 5, 6]` (bottom to top) become front-three `[4, 5, 6]` and stack
`[1, 2, 3]`, the two remaining queue pieces staying in place. -/
theorem trocarTresComPilha_ids_exemplo :
    (trocarTresComPilha filaCheiaExemplo pilhaCheiaExemplo).map
        (fun r => ((conteudoFila r.1).map (Option.map Peca.id),
          (conteudoPilha r.2.1).map (Option.map Peca.id))) =
      some ([some 4, some 5, some 6, some 7, some 8], [some 1, some 2, some 3]) := by
  decide

/-- C4. For every non-empty queue whose front piece is `A` and every non-empty stack whose
top piece is `B`, `trocarFrenteTopo` succeeds, leaves `B` at the queue's front slot and `A` at
the stack's top slot, changes no other slot of either array, and leaves `inicio`, `fim`,
`contagem` and `topo` unchanged. -/
theorem trocarFrenteTopo_troca (f : FilaCircular) (p : PilhaLinear) (A B : Peca)
    (hf : f.contagem ≠ 0) (hp : p.topo ≠ -1) (hA : ler f.itens f.inicio = some A)
    (hB : ler p.itens p.topo = some B) :
    ∃ f1 p1, trocarFrenteTopo f p =
        some (f1, p1, [Mensagem.sucessoTrocaFrenteTopo A.id B.id]) ∧
      ler f1.itens f1.inicio = some B ∧ ler p1.itens p1.topo = some A ∧
      (∀ j : Int, j ≠ f.inicio → ler f1.itens j = ler f.itens j) ∧
      (∀ j : Int, j ≠ p.topo → ler p1.itens j = ler p.itens j) ∧
      f1.itens.length = f.itens.length ∧ p1.itens.length = p.itens.length ∧
      f1.inicio = f.inicio ∧ f1.fim = f.fim ∧ f1.contagem = f.contagem ∧ p1.topo = p.topo := by
  obtain ⟨hi0, hi1⟩ := ler_some_dentro _ _ _ hA
  obtain ⟨ht0, ht1⟩ := ler_some_dentro _ _ _ hB
  have hcond : (filaVazia f || pilhaVazia p) = false := by
    simp [filaVazia, pilhaVazia, hf, hp]
  refine ⟨{ f with itens := f.itens.set f.inicio.toNat B },
    { p with itens := p.itens.set p.topo.toNat A }, ?_, ?_, ?_, ?_, ?_, ?_, ?_, rfl, rfl, rfl,
    rfl⟩
  · simp [trocarFrenteTopo, hcond, hA, hB, gravar_dentro _ _ _ hi0 hi1,
      gravar_dentro _ _ _ ht0 ht1, ler_set_mesmo _ _ _ hi0 hi1, ler_set_mesmo _ _ _ ht0 ht1]
  · exact ler_set_mesmo _ _ _ hi0 hi1
  · exact ler_set_mesmo _ _ _ ht0 ht1
  · intro j hj
    exact ler_set_outro _ _ _ _ hi0 hj
  · intro j hj
    exact ler_set_outro _ _ _ _ ht0 hj
  · simp
  · simp

/-- C4 at `filaDoisExemplo` (front `{'T', 11}`) and `pilhaDoisExemplo` (top `{'L', 10}`). -/
theorem trocarFrenteTopo_troca_witness :
    (filaDoisExemplo.contagem ≠ 0 ∧ pilhaDoisExemplo.topo ≠ -1 ∧
      ler filaDoisExemplo.itens filaDoisExemplo.inicio = some ⟨'T', 11⟩ ∧
      ler pilhaDoisExemplo.itens pilhaDoisExemplo.topo = some ⟨'L', 10⟩) ∧
    ∃ f1 p1, trocarFrenteTopo filaDoisExemplo pilhaDoisExemplo =
        some (f1, p1, [Mensagem.sucessoTrocaFrenteTopo (11 : Int) (10 : Int)]) ∧
      ler f1.itens f1.inicio = some ⟨'L', 10⟩ ∧ ler p1.itens p1.topo = some ⟨'T', 11⟩ ∧
      (∀ j : Int, j ≠ filaDoisExemplo.inicio → ler f1.itens j = ler filaDoisExemplo.itens j) ∧
      (∀ j : Int, j ≠ pilhaDoisExemplo.topo → ler p1.itens j = ler pilhaDoisExemplo.itens j) ∧
      f1.itens.length = filaDoisExemplo.itens.length ∧
      p1.itens.length = pilhaDoisExemplo.itens.length ∧
      f1.inicio = filaDoisExemplo.inicio ∧ f1.fim = filaDoisExemplo.fim ∧
      f1.contagem = filaDoisExemplo.contagem ∧ p1.topo = pilhaDoisExemplo.topo :=
  ⟨by decide, trocarFrenteTopo_troca filaDoisExemplo pilhaDoisExemplo ⟨'T', 11⟩ ⟨'L', 10⟩
    (by decide) (by decide) (by decide) (by decide)⟩

/-! ### Empty and full containers -/

/-- C5. `dequeue` on a queue with `contagem = 0` returns the piece `{'X', -1}` and leaves the
queue as it was; `pop` on a stack with `topo = -1` returns the same piece and leaves the stack
as it was.  Each prints its error line. -/
theorem vazio_devolve_sentinela (f : FilaCircular) (p : PilhaLinear) (hf : f.contagem = 0)
    (hp : p.topo = -1) :
    dequeue f = some ({ tipo := 'X', id := -1 }, f, [Mensagem.erroFilaVazia]) ∧
      pop p = some ({ tipo := 'X', id := -1 }, p, [Mensagem.erroPilhaVazia]) := by
  constructor
  · simp [dequeue, filaVazia, hf, vazia]
  · simp [pop, pilhaVazia, hp, vazia]

/-- C5 at an empty queue whose head is at slot 2 and at an empty stack. -/
theorem vazio_devolve_sentinela_witness :
    ((⟨[⟨'I', 1⟩, ⟨'O', 2⟩, ⟨'T', 3⟩, ⟨'S', 4⟩, ⟨'Z', 5⟩], 2, 1, 0⟩ : FilaCircular).contagem = 0 ∧
      (⟨[⟨'J', 6⟩, ⟨'L', 7⟩, ⟨'I', 8⟩], -1⟩ : PilhaLinear).topo = -1) ∧
    (dequeue ⟨[⟨'I', 1⟩, ⟨'O', 2⟩, ⟨'T', 3⟩, ⟨'S', 4⟩, ⟨'Z', 5⟩], 2, 1, 0⟩ =
        some ({ tipo := 'X', id := -1 },
          ⟨[⟨'I', 1⟩, ⟨'O', 2⟩, ⟨'T', 3⟩, ⟨'S', 4⟩, ⟨'Z', 5⟩], 2, 1, 0⟩,
          [Mensagem.erroFilaVazia]) ∧
      pop ⟨[⟨'J', 6⟩, ⟨'L', 7⟩, ⟨'I', 8⟩], -1⟩ =
        some ({ tipo := 'X', id := -1 }, ⟨[⟨'J', 6⟩, ⟨'L', 7⟩, ⟨'I', 8⟩], -1⟩,
          [Mensagem.erroPilhaVazia])) :=
  ⟨by decide, vazio_devolve_sentinela ⟨[⟨'I', 1⟩, ⟨'O', 2⟩, ⟨'T', 3⟩, ⟨'S', 4⟩, ⟨'Z', 5⟩], 2, 1, 0⟩
    ⟨[⟨'J', 6⟩, ⟨'L', 7⟩, ⟨'I', 8⟩], -1⟩ rfl rfl⟩

/-- C6. `enqueue` on a queue with `contagem = 5` leaves the queue as it was, the offered piece
being dropped, and reports the failure with the line "ERRO: Fila cheia ..." naming the piece;
`push` on a stack with `topo = 2` leaves the stack as it was and reports the failure with the
line "ERRO: Pilha cheia ..." naming the piece.  Neither line is printed by a call that stores
its piece. -/
theorem cheio_recusa (f : FilaCircular) (p : PilhaLinear) (x : Peca) (hf : f.contagem = 5)
    (hp : p.topo = 2) :
    enqueue f x = some (f, [Mensagem.erroFilaCheia x.id]) ∧
      push p x = some (p, [Mensagem.erroPilhaCheia x.id]) ∧
      (∀ (g g1 : FilaCircular) (o : List Mensagem), enqueue g x = some (g1, o) →
        (o = [Mensagem.erroFilaCheia x.id] ↔ g.contagem = 5)) ∧
      (∀ (q q1 : PilhaLinear) (o : List Mensagem), push q x = some (q1, o) →
        (o = [Mensagem.erroPilhaCheia x.id] ↔ q.topo = 2)) := by
  refine ⟨?_, ?_, ?_, ?_⟩
  · simp [enqueue, filaCheia, CAPACIDADE_FILA, hf]
  · simp [push, pilhaCheia, CAPACIDADE_PILHA, hp]
  · intro g g1 o h
    by_cases hg : g.contagem = 5
    · simp [enqueue, filaCheia, CAPACIDADE_FILA, hg] at h
      simp [hg, h.2.symm]
    · simp only [enqueue, filaCheia, CAPACIDADE_FILA, beq_iff_eq, hg, if_false] at h
      split at h
      · exact Option.noConfusion h
      · simp only [Option.some.injEq, Prod.mk.injEq] at h
        simp [hg, h.2.symm]
  · intro q q1 o h
    by_cases hq : q.topo = 2
    · simp [push, pilhaCheia, CAPACIDADE_PILHA, hq] at h
      simp [hq, h.2.symm]
    · have hq2 : ¬ q.topo = 3 - 1 := by omega
      simp only [push, pilhaCheia, CAPACIDADE_PILHA, beq_iff_eq, hq2, if_false] at h
      split at h
      · exact Option.noConfusion h
      · simp only [Option.some.injEq, Prod.mk.injEq] at h
        simp [hq, h.2.symm]

/-- C6 at `filaCheiaExemplo`, `pilhaCheiaExemplo` and the piece `{'S', 9}`. -/
theorem cheio_recusa_witness :
    (filaCheiaExemplo.contagem = 5 ∧ pilhaCheiaExemplo.topo = 2) ∧
    (enqueue filaCheiaExemplo ⟨'S', 9⟩ =
        some (filaCheiaExemplo, [Mensagem.erroFilaCheia (⟨'S', 9⟩ : Peca).id]) ∧
      push pilhaCheiaExemplo ⟨'S', 9⟩ =
        some (pilhaCheiaExemplo, [Mensagem.erroPilhaCheia (⟨'S', 9⟩ : Peca).id]) ∧
      (∀ (g g1 : FilaCircular) (o : List Mensagem), enqueue g ⟨'S', 9⟩ = some (g1, o) →
        (o = [Mensagem.erroFilaCheia (⟨'S', 9⟩ : Peca).id] ↔ g.contagem = 5)) ∧
      (∀ (q q1 : PilhaLinear) (o : List Mensagem), push q ⟨'S', 9⟩ = some (q1, o) →
        (o = [Mensagem.erroPilhaCheia (⟨'S', 9⟩ : Peca).id] ↔ q.topo = 2))) :=
  ⟨by decide, cheio_recusa filaCheiaExemplo pilhaCheiaExemplo ⟨'S', 9⟩ rfl rfl⟩

/-- Two arrays that read alike at every index are equal. -/
theorem ler_ext (a b : List Peca) (h : ∀ j : Int, ler a j = ler b j) : a = b := by
  apply List.ext_getElem?
  intro n
  have := h (n : Int)
  simpa [ler] using this

/-- When its precondition fails, `trocarTresComPilha` changes nothing. -/
theorem trocarTresComPilha_recusa (f : FilaCircular) (p : PilhaLinear)
    (h : ¬ (3 ≤ f.contagem ∧ p.topo = 2)) :
    trocarTresComPilha f p = some (f, p, [Mensagem.avisoTrocaTres]) := by
  have hcond : (decide (f.contagem < 3) || p.topo != CAPACIDADE_PILHA - 1) = true := by
    simp only [CAPACIDADE_PILHA, Bool.or_eq_true, decide_eq_true_eq, bne_iff_ne, ne_eq]
    by_cases hc : f.contagem < 3
    · exact Or.inl hc
    · exact Or.inr (fun ht => h ⟨by omega, by omega⟩)
  simp [trocarTresComPilha, hcond]

/-- When its precondition fails, `trocarFrenteTopo` changes nothing. -/
theorem trocarFrenteTopo_recusa (f : FilaCircular) (p : PilhaLinear)
    (h : f.contagem = 0 ∨ p.topo = -1) :
    trocarFrenteTopo f p = some (f, p, [Mensagem.avisoTrocaFrenteTopo]) := by
  have hcond : (filaVazia f || pilhaVazia p) = true := by
    simpa [filaVazia, pilhaVazia] using h
  simp [trocarFrenteTopo, hcond]

/-- C7, as amended. `trocarTresComPilha` changes the queue or the stack only if
`contagem ≥ 3` and `topo = 2`: whenever that precondition fails both are returned exactly as
they were.  When the precondition holds (arrays of the declared sizes, head in range) the
three exchanges are all carried out, and the queue and stack come back unchanged exactly when
each of the three queue pieces equals the stack piece it is exchanged with.
`trocarFrenteTopo` returns both exactly as they were whenever the queue is empty or the stack
is empty. -/
theorem trocas_tudo_ou_nada (f : FilaCircular) (p : PilhaLinear) :
    (¬ (3 ≤ f.contagem ∧ p.topo = 2) →
      trocarTresComPilha f p = some (f, p, [Mensagem.avisoTrocaTres])) ∧
    (∀ f1 p1 o, trocarTresComPilha f p = some (f1, p1, o) → (f1 ≠ f ∨ p1 ≠ p) →
      3 ≤ f.contagem ∧ p.topo = 2) ∧
    (f.itens.length = 5 → p.itens.length = 3 → 0 ≤ f.inicio → f.inicio < 5 →
      3 ≤ f.contagem → p.topo = 2 →
      ∃ f1 p1, trocarTresComPilha f p = some (f1, p1, [Mensagem.sucessoTrocaTres]) ∧
        ((f1 = f ∧ p1 = p) ↔ ∀ i : Nat, i < 3 →
          ler f.itens (Int.tmod (f.inicio + (i : Int)) 5) = ler p.itens (i : Int))) ∧
    ((f.contagem = 0 ∨ p.topo = -1) →
      trocarFrenteTopo f p = some (f, p, [Mensagem.avisoTrocaFrenteTopo])) := by
  refine ⟨trocarTresComPilha_recusa f p, ?_, ?_, trocarFrenteTopo_recusa f p⟩
  · intro f1 p1 o hrun hne
    by_contra hpre
    rw [trocarTresComPilha_recusa f p hpre] at hrun
    simp only [Option.some.injEq, Prod.mk.injEq] at hrun
    rcases hne with h | h
    · exact h hrun.1.symm
    · exact h hrun.2.1.symm
  · intro hf hp h0 h1 hc ht
    obtain ⟨f1, p1, hrun, htroca, hresto, hlf, hlp, hi, hfim, hcont, htopo⟩ :=
      trocarTresComPilha_efeito f p hf hp h0 h1 hc ht
    refine ⟨f1, p1, hrun, ?_, ?_⟩
    · rintro ⟨rfl, rfl⟩ i hi3
      obtain ⟨a, b, ha, hb, ha1, hb1⟩ := htroca i hi3
      rw [hb, ← ha1]
    · intro hig
      have hfi : f1.itens = f.itens := by
        apply ler_ext
        intro j
        by_cases hj : ∀ i : Nat, i < 3 → j ≠ Int.tmod (f.inicio + (i : Int)) 5
        · exact hresto j hj
        · push_neg at hj
          obtain ⟨i, hi3, rfl⟩ := hj
          obtain ⟨a, b, ha, hb, ha1, hb1⟩ := htroca i hi3
          rw [ha1, hig i hi3, hb]
      have hpi : p1.itens = p.itens := by
        apply ler_ext
        intro j
        by_cases hj : 0 ≤ j ∧ j < 3
        · obtain ⟨i, rfl⟩ := Int.eq_ofNat_of_zero_le hj.1
          have hi3 : i < 3 := by omega
          obtain ⟨a, b, ha, hb, ha1, hb1⟩ := htroca i hi3
          rw [hb1, ← ha, hig i hi3]
        · rw [ler_fora _ j (by rw [hlp]; exact hj), ler_fora _ j (by rw [hp]; exact hj)]
      constructor
      · cases f1; cases f; simp_all
      · cases p1; cases p; simp_all

/-- C7 as stated fails at `filaRepetida` and `pilhaRepetida`: the precondition
`contagem ≥ 3` and `topo = 2` holds, the call succeeds, and yet neither the queue nor the
stack is changed, so "changes the queue or stack if and only if the precondition holds" is
false there. -/
theorem trocarTres_sem_mudanca :
    ¬ ((∃ f1 p1 o, trocarTresComPilha filaRepetida pilhaRepetida = some (f1, p1, o) ∧
          (f1 ≠ filaRepetida ∨ p1 ≠ pilhaRepetida)) ↔
        (3 ≤ filaRepetida.contagem ∧ pilhaRepetida.topo = 2)) := by
  intro h
  obtain ⟨f1, p1, o, hrun, hne⟩ := h.mpr (by decide)
  have hval : trocarTresComPilha filaRepetida pilhaRepetida =
      some (filaRepetida, pilhaRepetida, [Mensagem.sucessoTrocaTres]) := by decide
  rw [hval] at hrun
  simp only [Option.some.injEq, Prod.mk.injEq] at hrun
  rcases hne with h1 | h1
  · exact h1 hrun.1.symm
  · exact h1 hrun.2.1.symm

/-- C7, as amended, at concrete containers: a rejected three-piece exchange
(`filaDoisExemplo` holds 2 pieces), an accepted one (`filaCheiaExemplo`,
`pilhaCheiaExemplo`) and a rejected one-piece exchange (empty stack). -/
theorem trocas_tudo_ou_nada_witness :
    (¬ (3 ≤ filaDoisExemplo.contagem ∧ pilhaCheiaExemplo.topo = 2) ∧
      trocarTresComPilha filaDoisExemplo pilhaCheiaExemplo =
        some (filaDoisExemplo, pilhaCheiaExemplo, [Mensagem.avisoTrocaTres])) ∧
    ((filaCheiaExemplo.itens.length = 5 ∧ pilhaCheiaExemplo.itens.length = 3 ∧
        0 ≤ filaCheiaExemplo.inicio ∧ filaCheiaExemplo.inicio < 5 ∧
        3 ≤ filaCheiaExemplo.contagem ∧ pilhaCheiaExemplo.topo = 2) ∧
      ∃ f1 p1, trocarTresComPilha filaCheiaExemplo pilhaCheiaExemplo =
          some (f1, p1, [Mensagem.sucessoTrocaTres]) ∧
        ((f1 = filaCheiaExemplo ∧ p1 = pilhaCheiaExemplo) ↔ ∀ i : Nat, i < 3 →
          ler filaCheiaExemplo.itens (Int.tmod (filaCheiaExemplo.inicio + (i : Int)) 5) =
            ler pilhaCheiaExemplo.itens (i : Int))) ∧
    ((filaCheiaExemplo.contagem = 0 ∨ (inicializarPilha pilhaCheiaExemplo).topo = -1) ∧
      trocarFrenteTopo filaCheiaExemplo (inicializarPilha pilhaCheiaExemplo) =
        some (filaCheiaExemplo, inicializarPilha pilhaCheiaExemplo,
          [Mensagem.avisoTrocaFrenteTopo])) :=
  ⟨⟨by decide, (trocas_tudo_ou_nada filaDoisExemplo pilhaCheiaExemplo).1 (by decide)⟩,
   ⟨by decide, (trocas_tudo_ou_nada filaCheiaExemplo pilhaCheiaExemplo).2.2.1 (by decide)
      (by decide) (by decide) (by decide) (by decide) (by decide)⟩,
   ⟨by decide, (trocas_tudo_ou_nada filaCheiaExemplo (inicializarPilha pilhaCheiaExemplo)).2.2.2
      (by decide)⟩⟩

/-! ### The commands Play and Stash -/

/-- A piece of the data model does not carry the id `-1`. -/
theorem pecaOk_id (q : Peca) (h : PecaOk q) : (q.id != -1) = true := by
  have := h.1
  simp only [bne_iff_ne, ne_eq]
  omega

/-- The piece `dequeue` returns from a non-empty queue is the one read at `itens[inicio]`. -/
theorem dequeue_frente (f : FilaCircular) (x : Peca) (f1 : FilaCircular) (o : List Mensagem)
    (hc : f.contagem ≠ 0) (h : dequeue f = some (x, f1, o)) : ler f.itens f.inicio = some x := by
  have hv : filaVazia f = false := by
    simp only [filaVazia, beq_eq_false_iff_ne, ne_eq]; exact hc
  cases hl : ler f.itens f.inicio with
  | none => simp [dequeue, hv, hl] at h
  | some y =>
    simp only [dequeue, hv, hl, Bool.false_eq_true, if_false, Option.some.injEq,
      Prod.mk.injEq] at h
    rw [h.1]

/-- What `case 1` does on a well-formed queue of 5 entries whose front piece has an id other
than -1, whatever the generator called. -/
theorem casoJogarCom_efeito (gerar : Nat → Int → Peca × Int) (s : Sessao) (r : Nat)
    (hok : FilaOk s.fila) (h5 : s.fila.contagem = 5)
    (hfrente : ∀ x, ler s.fila.itens s.fila.inicio = some x → x.id ≠ -1) :
    ∃ s1 x, casoJogarCom gerar s r = some (s1, [Mensagem.acaoJogar,
        Mensagem.pecaJogada x.id x.tipo,
        Mensagem.novaPeca (gerar r s.id_sequencial).1.id (gerar r s.id_sequencial).1.tipo]) ∧
      conteudoFila s.fila = some x :: (conteudoFila s.fila).tail ∧
      s1.fila.contagem = 5 ∧ FilaOk s1.fila ∧
      conteudoFila s1.fila = (conteudoFila s.fila).tail ++ [some (gerar r s.id_sequencial).1] ∧
      s1.pilha = s.pilha ∧ s1.id_sequencial = (gerar r s.id_sequencial).2 := by
  obtain ⟨x, f1, hd, hok1, hc1, _, _, hcont⟩ := dequeue_conteudo s.fila hok (by omega)
  obtain ⟨f2, he, hok2, hc2, _, hcont2⟩ :=
    enqueue_conteudo f1 (gerar r s.id_sequencial).1 hok1 (by omega)
  have hx : (x.id != -1) = true := by
    simp only [bne_iff_ne, ne_eq]
    exact hfrente x (dequeue_frente s.fila x f1 [] (by omega) hd)
  refine ⟨{ s with fila := f2, id_sequencial := (gerar r s.id_sequencial).2 }, x, ?_, ?_,
    ?_, hok2, ?_, rfl, rfl⟩
  · simp [casoJogarCom, hd, he, hx]
  · rw [hcont]; rfl
  · simp only [hc2, hc1, h5]; rfl
  · rw [hcont2, hcont]; rfl

/-- What `case 1` does on a well-formed non-empty queue whose front piece has the id -1,
whatever the generator called: the front piece leaves and nothing is generated. -/
theorem casoJogarCom_sentinela (gerar : Nat → Int → Peca × Int) (s : Sessao) (r : Nat)
    (hok : FilaOk s.fila) (hc : 0 < s.fila.contagem) (x : Peca)
    (hx : conteudoFila s.fila = some x :: (conteudoFila s.fila).tail) (hid : x.id = -1) :
    ∃ s1, casoJogarCom gerar s r = some (s1, [Mensagem.acaoJogar]) ∧
      s1.fila.contagem = s.fila.contagem - 1 ∧ FilaOk s1.fila ∧
      conteudoFila s1.fila = (conteudoFila s.fila).tail ∧
      s1.pilha = s.pilha ∧ s1.id_sequencial = s.id_sequencial := by
  obtain ⟨y, f1, hd, hok1, hc1, _, _, hcont⟩ := dequeue_conteudo s.fila hok hc
  have hxy : y = x := by
    rw [hcont] at hx
    simp only [List.cons.injEq, Option.some.injEq] at hx
    exact hx.1
  subst hxy
  refine ⟨{ s with fila := f1 }, ?_, hc1, hok1, by rw [hcont]; rfl, rfl, rfl⟩
  simp [casoJogarCom, hd, hid]

/-- C8. For every session state in which the queue holds 5 pieces (a well-formed queue with
`contagem = 5`) and the front piece, the one at `itens[inicio]`, has an id other than -1, menu
option 1 succeeds and ends with the queue again holding 5 pieces: the old front piece `x` is
removed and reported as played, the remaining four keep their order, the freshly generated
piece is the new last element, and the stack is unchanged. -/
theorem jogar_mantem_cinco (s : Sessao) (r : Nat) (hok : FilaOk s.fila)
    (h5 : s.fila.contagem = 5)
    (hfrente : ∀ x, ler s.fila.itens s.fila.inicio = some x → x.id ≠ -1) :
    ∃ s1 x, comando s 1 r = some (s1, [Mensagem.acaoJogar, Mensagem.pecaJogada x.id x.tipo,
        Mensagem.novaPeca (gerarPeca r s.id_sequencial).1.id
          (gerarPeca r s.id_sequencial).1.tipo]) ∧
      conteudoFila s.fila = some x :: (conteudoFila s.fila).tail ∧
      s1.fila.contagem = 5 ∧ FilaOk s1.fila ∧
      conteudoFila s1.fila =
        (conteudoFila s.fila).tail ++ [some (gerarPeca r s.id_sequencial).1] ∧
      s1.pilha = s.pilha ∧ s1.id_sequencial = incrementar s.id_sequencial := by
  have h : comando s 1 r = casoJogarCom gerarPeca s r := by simp [comando, comandoCom]
  rw [h]
  exact casoJogarCom_efeito gerarPeca s r hok h5 hfrente

/-- C8 at `sessaoExemplo` (front piece `{'I', 4}`) with `rand()` returning 23. -/
theorem jogar_mantem_cinco_witness :
    (FilaOk sessaoExemplo.fila ∧ sessaoExemplo.fila.contagem = 5 ∧
      ∀ x, ler sessaoExemplo.fila.itens sessaoExemplo.fila.inicio = some x → x.id ≠ -1) ∧
    ∃ s1 x, comando sessaoExemplo 1 23 = some (s1, [Mensagem.acaoJogar,
        Mensagem.pecaJogada x.id x.tipo,
        Mensagem.novaPeca (gerarPeca 23 sessaoExemplo.id_sequencial).1.id
          (gerarPeca 23 sessaoExemplo.id_sequencial).1.tipo]) ∧
      conteudoFila sessaoExemplo.fila = some x :: (conteudoFila sessaoExemplo.fila).tail ∧
      s1.fila.contagem = 5 ∧ FilaOk s1.fila ∧
      conteudoFila s1.fila = (conteudoFila sessaoExemplo.fila).tail ++
        [some (gerarPeca 23 sessaoExemplo.id_sequencial).1] ∧
      s1.pilha = sessaoExemplo.pilha ∧
      s1.id_sequencial = incrementar sessaoExemplo.id_sequencial :=
  ⟨⟨by decide, by decide, by decide⟩,
    jogar_mantem_cinco sessaoExemplo 23 (by decide) (by decide) (by decide)⟩

/-- The run of menu option 1 on `sessaoExemplo`, evaluated. -/
theorem jogar_exemplo :
    (comando sessaoExemplo 1 23).map (fun r => (conteudoFila r.1.fila, r.1.pilha, r.2)) =
      some ([some ⟨'O', 5⟩, some ⟨'T', 7⟩, some ⟨'S', 8⟩, some ⟨'Z', 10⟩, some ⟨'T', 11⟩],
        sessaoExemplo.pilha,
        [Mensagem.acaoJogar, Mensagem.pecaJogada 4 'I', Mensagem.novaPeca 11 'T']) := by
  decide

/-- C8 as stated fails at `sessaoSentinela`: its queue is well formed and holds 5 pieces, yet
menu option 1 ends with the queue holding 4.  The front piece `{'I', -1}` is removed, the
test `jogada.id != -1` fails on it, and no piece is generated (nothing is printed after the
header, and the counter stays at 4). -/
theorem jogar_sentinela_quatro :
    FilaOk sessaoSentinela.fila ∧ sessaoSentinela.fila.contagem = 5 ∧
    conteudoFila sessaoSentinela.fila =
      [some ⟨'I', -1⟩, some ⟨'O', 0⟩, some ⟨'T', 1⟩, some ⟨'S', 2⟩, some ⟨'Z', 3⟩] ∧
    (comando sessaoSentinela 1 23).map
        (fun r => (r.1.fila.contagem, conteudoFila r.1.fila, r.1.id_sequencial, r.2)) =
      some (4, [some ⟨'O', 0⟩, some ⟨'T', 1⟩, some ⟨'S', 2⟩, some ⟨'Z', 3⟩], 4,
        [Mensagem.acaoJogar]) ∧
    ¬ ∃ s1 o, comando sessaoSentinela 1 23 = some (s1, o) ∧ s1.fila.contagem = 5 := by
  refine ⟨by decide, by decide, by decide, by decide, ?_⟩
  rintro ⟨s1, o, h, h5⟩
  have hrun : comando sessaoSentinela 1 23 =
      some ({ sessaoSentinela with
                fila := { sessaoSentinela.fila with inicio := 1, contagem := 4 } },
        [Mensagem.acaoJogar]) := by decide
  rw [hrun] at h
  simp only [Option.some.injEq, Prod.mk.injEq] at h
  obtain ⟨rfl, _⟩ := h
  exact absurd h5 (by decide)

/-- C9. For every session state in which the stack is full (`topo = 2`), menu option 2 is
rejected with the line "AVISO: Pilha de reserva esta cheia!" and returns the whole state
(queue, stack and id counter) exactly as it was. -/
theorem reservar_pilha_cheia (s : Sessao) (r : Nat) (h : s.pilha.topo = 2) :
    comando s 2 r = some (s, [Mensagem.acaoReservar, Mensagem.avisoPilhaCheia]) := by
  simp [comando, comandoCom, casoReservarCom, pilhaCheia, CAPACIDADE_PILHA, h]

/-- C9 at a state with a full stack. -/
theorem reservar_pilha_cheia_witness :
    ({ sessaoExemplo with pilha := pilhaCheiaExemplo } : Sessao).pilha.topo = 2 ∧
    comando { sessaoExemplo with pilha := pilhaCheiaExemplo } 2 23 =
      some ({ sessaoExemplo with pilha := pilhaCheiaExemplo },
        [Mensagem.acaoReservar, Mensagem.avisoPilhaCheia]) :=
  ⟨by decide, reservar_pilha_cheia { sessaoExemplo with pilha := pilhaCheiaExemplo } 23 rfl⟩

/-- What `case 2` does on well-formed containers when the stack is not full and the queue is
not empty, whatever the generator called. -/
theorem casoReservarCom_efeito (gerar : Nat → Int → Peca × Int) (s : Sessao) (r : Nat)
    (hf : FilaOk s.fila) (hp : PilhaOk s.pilha) (hnc : s.pilha.topo ≠ 2)
    (hnv : s.fila.contagem ≠ 0) :
    ∃ s1 x, casoReservarCom gerar s r = some (s1, [Mensagem.acaoReservar,
        Mensagem.pecaMovida x.id x.tipo,
        Mensagem.novaPeca (gerar r s.id_sequencial).1.id (gerar r s.id_sequencial).1.tipo]) ∧
      conteudoFila s.fila = some x :: (conteudoFila s.fila).tail ∧
      conteudoPilha s1.pilha = conteudoPilha s.pilha ++ [some x] ∧
      s1.pilha.topo = s.pilha.topo + 1 ∧
      conteudoFila s1.fila = (conteudoFila s.fila).tail ++ [some (gerar r s.id_sequencial).1] ∧
      s1.fila.contagem = s.fila.contagem ∧
      FilaOk s1.fila ∧ PilhaOk s1.pilha ∧ s1.id_sequencial = (gerar r s.id_sequencial).2 := by
  have hc0 := hf.2.2.2.1
  have hc5 := hf.2.2.2.2.1
  have ht := hp.2.2
  obtain ⟨x, f1, hd, hok1, hc1, _, _, hcont⟩ := dequeue_conteudo s.fila hf (by omega)
  obtain ⟨p1, hpu, hpok, htopo, hpcont⟩ := push_conteudo s.pilha x hp (by omega)
  obtain ⟨f2, he, hok2, hc2, _, hcont2⟩ :=
    enqueue_conteudo f1 (gerar r s.id_sequencial).1 hok1 (by omega)
  have hcheia : pilhaCheia s.pilha = false := by
    simp only [pilhaCheia, CAPACIDADE_PILHA, beq_eq_false_iff_ne, ne_eq]; omega
  have hvazia : filaVazia s.fila = false := by
    simp only [filaVazia, beq_eq_false_iff_ne, ne_eq]; exact hnv
  refine ⟨{ fila := f2, pilha := p1, id_sequencial := (gerar r s.id_sequencial).2 }, x,
    ?_, ?_, hpcont, htopo, ?_, ?_, hok2, hpok, rfl⟩
  · simp [casoReservarCom, hcheia, hvazia, hd, hpu, he]
  · rw [hcont]; rfl
  · rw [hcont2, hcont]; rfl
  · simp only [hc2, hc1]; omega

/-- C10. For every session state with well-formed containers in which the stack is not full
and the queue is not empty, menu option 2 succeeds: the queue's old front piece `x` becomes
the top of the stack (`topo` grows by one, the pieces below are unchanged), then the freshly
generated piece is appended at the back of the queue, whose `contagem` is what it was. -/
theorem reservar_move_frente (s : Sessao) (r : Nat) (hf : FilaOk s.fila) (hp : PilhaOk s.pilha)
    (hnc : s.pilha.topo ≠ 2) (hnv : s.fila.contagem ≠ 0) :
    ∃ s1 x, comando s 2 r = some (s1, [Mensagem.acaoReservar,
        Mensagem.pecaMovida x.id x.tipo,
        Mensagem.novaPeca (gerarPeca r s.id_sequencial).1.id
          (gerarPeca r s.id_sequencial).1.tipo]) ∧
      conteudoFila s.fila = some x :: (conteudoFila s.fila).tail ∧
      conteudoPilha s1.pilha = conteudoPilha s.pilha ++ [some x] ∧
      s1.pilha.topo = s.pilha.topo + 1 ∧
      conteudoFila s1.fila =
        (conteudoFila s.fila).tail ++ [some (gerarPeca r s.id_sequencial).1] ∧
      s1.fila.contagem = s.fila.contagem ∧
      FilaOk s1.fila ∧ PilhaOk s1.pilha ∧
      s1.id_sequencial = incrementar s.id_sequencial := by
  have h : comando s 2 r = casoReservarCom gerarPeca s r := by simp [comando, comandoCom]
  rw [h]
  exact casoReservarCom_efeito gerarPeca s r hf hp hnc hnv

/-- C10 at `sessaoExemplo` with `rand()` returning 23. -/
theorem reservar_move_frente_witness :
    (FilaOk sessaoExemplo.fila ∧ PilhaOk sessaoExemplo.pilha ∧
      sessaoExemplo.pilha.topo ≠ 2 ∧ sessaoExemplo.fila.contagem ≠ 0) ∧
    ∃ s1 x, comando sessaoExemplo 2 23 = some (s1, [Mensagem.acaoReservar,
        Mensagem.pecaMovida x.id x.tipo,
        Mensagem.novaPeca (gerarPeca 23 sessaoExemplo.id_sequencial).1.id
          (gerarPeca 23 sessaoExemplo.id_sequencial).1.tipo]) ∧
      conteudoFila sessaoExemplo.fila = some x :: (conteudoFila sessaoExemplo.fila).tail ∧
      conteudoPilha s1.pilha = conteudoPilha sessaoExemplo.pilha ++ [some x] ∧
      s1.pilha.topo = sessaoExemplo.pilha.topo + 1 ∧
      conteudoFila s1.fila = (conteudoFila sessaoExemplo.fila).tail ++
        [some (gerarPeca 23 sessaoExemplo.id_sequencial).1] ∧
      s1.fila.contagem = sessaoExemplo.fila.contagem ∧
      FilaOk s1.fila ∧ PilhaOk s1.pilha ∧
      s1.id_sequencial = incrementar sessaoExemplo.id_sequencial :=
  ⟨by decide, reservar_move_frente sessaoExemplo 23 (by decide) (by decide) (by decide)
    (by decide)⟩

/-! ### Reachable session states -/

set_option maxHeartbeats 1600000 in
/-- On well-formed non-empty containers `trocarFrenteTopo` exchanges the first entry of the
queue with the last entry of the stack and keeps every other entry. -/
theorem trocarFrenteTopo_conteudo (f : FilaCircular) (p : PilhaLinear) (hf : FilaOk f)
    (hp : PilhaOk p) (hc : 0 < f.contagem) (ht : -1 < p.topo) :
    ∃ f1 p1 x y, trocarFrenteTopo f p =
        some (f1, p1, [Mensagem.sucessoTrocaFrenteTopo x.id y.id]) ∧
      FilaOk f1 ∧ PilhaOk p1 ∧ f1.contagem = f.contagem ∧ p1.topo = p.topo ∧
      conteudoFila f = some x :: (conteudoFila f).tail ∧
      conteudoFila f1 = some y :: (conteudoFila f).tail ∧
      conteudoPilha p = conteudoPilha { p with topo := p.topo - 1 } ++ [some y] ∧
      conteudoPilha p1 = conteudoPilha { p with topo := p.topo - 1 } ++ [some x] := by
  obtain ⟨itens, inicio, fim, contagem⟩ := f
  obtain ⟨pitens, topo⟩ := p
  obtain ⟨hl, h1, h2, h3, h4, h5, h6, h7⟩ := hf
  obtain ⟨hpl, hp1, hp2⟩ := hp
  obtain ⟨a, b, c, d, e, rfl⟩ := lista_cinco itens hl
  obtain ⟨u, v, w, rfl⟩ := lista_tres pitens hpl
  simp only at h1 h2 h3 h4 h5 h6 h7 hc hp1 hp2 ht
  interval_cases inicio <;> interval_cases contagem <;> interval_cases fim <;>
    first
    | (exfalso; revert h7; decide)
    | (interval_cases topo <;>
        exact ⟨_, _, _, _, rfl, by simp [FilaOk], by simp [PilhaOk], rfl, rfl, rfl,
          rfl, rfl, rfl⟩)

/-- On a well-formed queue of at least 3 pieces and a full stack `trocarTresComPilha`
exchanges the first three entries of the queue with the three entries of the stack and keeps
the other entries of the queue. -/
theorem trocarTresComPilha_conteudo (f : FilaCircular) (p : PilhaLinear) (hf : FilaOk f)
    (hp : PilhaOk p) (hc : 3 ≤ f.contagem) (ht : p.topo = 2) :
    ∃ f1 p1 a b c x y z, trocarTresComPilha f p =
        some (f1, p1, [Mensagem.sucessoTrocaTres]) ∧
      FilaOk f1 ∧ PilhaOk p1 ∧ f1.contagem = f.contagem ∧ p1.topo = p.topo ∧
      conteudoFila f = [some a, some b, some c] ++ (conteudoFila f).drop 3 ∧
      conteudoFila f1 = [some x, some y, some z] ++ (conteudoFila f).drop 3 ∧
      conteudoPilha p = [some x, some y, some z] ∧
      conteudoPilha p1 = [some a, some b, some c] := by
  obtain ⟨itens, inicio, fim, contagem⟩ := f
  obtain ⟨pitens, topo⟩ := p
  obtain ⟨hl, h1, h2, h3, h4, h5, h6, h7⟩ := hf
  obtain ⟨hpl, hp1, hp2⟩ := hp
  obtain ⟨a, b, c, d, e, rfl⟩ := lista_cinco itens hl
  obtain ⟨u, v, w, rfl⟩ := lista_tres pitens hpl
  simp only at h1 h2 h3 h4 h5 h6 h7 hc hp1 hp2 ht
  subst ht
  interval_cases inicio <;> interval_cases contagem <;> interval_cases fim <;>
    first
    | (exfalso; revert h7; decide)
    | exact ⟨_, _, _, _, _, _, _, _, rfl, by simp [FilaOk], by simp [PilhaOk], rfl,
        rfl, rfl, rfl, rfl, rfl⟩

/-- A generated piece is a piece of the data model when the id counter is positive. -/
theorem gerarPeca_ok (r : Nat) (n : Int) (h : 1 ≤ n) : PecaOk (gerarPeca r n).1 :=
  ⟨h, List.get_mem _ _ _⟩

/-- With ids taken as unbounded integers, a generated piece is a piece of the data model when
the id counter is positive. -/
theorem gerarPecaIdeal_ok (r : Nat) (n : Int) (h : 1 ≤ n) : PecaOk (gerarPecaIdeal r n).1 :=
  ⟨h, List.get_mem _ _ _⟩

/-- The initial fill succeeds: the queue holds the five generated pieces, with ids 1 to 5,
front first; the stack is empty and the next id is 6. -/
theorem iniciar_efeito (fila : FilaCircular) (pilha : PilhaLinear) (rand : Nat → Nat)
    (hf : fila.itens.length = 5) (hp : pilha.itens.length = 3) :
    ∃ s, iniciar fila pilha rand = some (s, [Mensagem.iniciando]) ∧
      FilaOk s.fila ∧ s.fila.contagem = 5 ∧ s.fila.inicio = 0 ∧
      conteudoFila s.fila = [some (gerarPeca (rand 0) 1).1, some (gerarPeca (rand 1) 2).1,
        some (gerarPeca (rand 2) 3).1, some (gerarPeca (rand 3) 4).1,
        some (gerarPeca (rand 4) 5).1] ∧
      s.pilha = inicializarPilha pilha ∧ conteudoPilha s.pilha = [] ∧ PilhaOk s.pilha ∧
      s.id_sequencial = 6 := by
  obtain ⟨itens, inicio, fim, contagem⟩ := fila
  obtain ⟨pitens, topo⟩ := pilha
  obtain ⟨a, b, c, d, e, rfl⟩ := lista_cinco itens hf
  obtain ⟨u, v, w, rfl⟩ := lista_tres pitens hp
  exact ⟨_, rfl, by simp [FilaOk, inicializarFila, CAPACIDADE_FILA]; decide, rfl, rfl, rfl,
    rfl, rfl, by simp [PilhaOk, inicializarPilha], rfl⟩

/-- With ids taken as unbounded integers the initial fill does the same: the queue holds the
five generated pieces, with ids 1 to 5, front first; the stack is empty and the next id
is 6. -/
theorem iniciarIdeal_efeito (fila : FilaCircular) (pilha : PilhaLinear) (rand : Nat → Nat)
    (hf : fila.itens.length = 5) (hp : pilha.itens.length = 3) :
    ∃ s, iniciarIdeal fila pilha rand = some (s, [Mensagem.iniciando]) ∧
      FilaOk s.fila ∧ s.fila.contagem = 5 ∧ s.fila.inicio = 0 ∧
      conteudoFila s.fila = [some (gerarPecaIdeal (rand 0) 1).1,
        some (gerarPecaIdeal (rand 1) 2).1, some (gerarPecaIdeal (rand 2) 3).1,
        some (gerarPecaIdeal (rand 3) 4).1, some (gerarPecaIdeal (rand 4) 5).1] ∧
      s.pilha = inicializarPilha pilha ∧ conteudoPilha s.pilha = [] ∧ PilhaOk s.pilha ∧
      s.id_sequencial = 6 := by
  obtain ⟨itens, inicio, fim, contagem⟩ := fila
  obtain ⟨pitens, topo⟩ := pilha
  obtain ⟨a, b, c, d, e, rfl⟩ := lista_cinco itens hf
  obtain ⟨u, v, w, rfl⟩ := lista_tres pitens hp
  exact ⟨_, rfl, by simp [FilaOk, inicializarFila, CAPACIDADE_FILA]; decide, rfl, rfl, rfl,
    rfl, rfl, by simp [PilhaOk, inicializarPilha], rfl⟩

/-- With ids taken as unbounded integers, the state after the initial fill is a well-formed
session state. -/
theorem iniciarIdeal_ok (fila : FilaCircular) (pilha : PilhaLinear) (rand : Nat → Nat)
    (s : Sessao) (o : List Mensagem) (hf : fila.itens.length = 5)
    (hp : pilha.itens.length = 3) (h : iniciarIdeal fila pilha rand = some (s, o)) :
    SessaoOk s := by
  obtain ⟨s1, hrun, hok, h5, _, hcont, _, hpil, hpok, hid⟩ :=
    iniciarIdeal_efeito fila pilha rand hf hp
  rw [hrun] at h
  simp only [Option.some.injEq, Prod.mk.injEq] at h
  obtain ⟨rfl, _⟩ := h
  refine ⟨hok, h5, hpok, by omega, ?_⟩
  intro x hx q hq
  simp only [vivas, hcont, hpil, List.append_nil, List.mem_cons, List.mem_singleton,
    List.not_mem_nil, or_false] at hx
  rcases hx with rfl | rfl | rfl | rfl | rfl <;>
    (cases hq; exact gerarPecaIdeal_ok _ _ (by decide))

/-- The piece read at `itens[inicio]` of a well-formed non-empty queue is the first of its
logical contents. -/
theorem frente_conteudo (f : FilaCircular) (hok : FilaOk f) (hc : 0 < f.contagem) (x : Peca)
    (hx : ler f.itens f.inicio = some x) :
    conteudoFila f = some x :: (conteudoFila f).tail := by
  obtain ⟨y, f1, hd, _, _, _, _, hcont⟩ := dequeue_conteudo f hok hc
  have hy := dequeue_frente f y f1 [] (by omega) hd
  rw [hx] at hy
  cases hy
  rw [hcont]
  rfl

/-- The front piece of a queue whose entries are pieces of the data model does not carry the
id -1. -/
theorem frente_peca (f : FilaCircular) (hok : FilaOk f) (hc : 0 < f.contagem)
    (hp : FilaDePecas f) : ∀ x, ler f.itens f.inicio = some x → x.id ≠ -1 := by
  intro x hx
  have hcont := frente_conteudo f hok hc x hx
  have := (hp (some x) (by rw [hcont]; exact List.mem_cons_self _ _) x rfl).1
  omega

/-- With ids taken as unbounded integers, menu option 1 keeps a session state well formed. -/
theorem casoJogarIdeal_ok (s : Sessao) (r : Nat) (s1 : Sessao) (o : List Mensagem)
    (h : SessaoOk s) (hc : casoJogarCom gerarPecaIdeal s r = some (s1, o)) : SessaoOk s1 := by
  obtain ⟨hf, h5, hp, hid, hv⟩ := h
  have hpecas : FilaDePecas s.fila := fun x hx q hq =>
    hv x (List.mem_append_left _ hx) q hq
  obtain ⟨s2, x, hrun, hx, h52, hok2, hcont2, hpil, hid2⟩ :=
    casoJogarCom_efeito gerarPecaIdeal s r hf h5 (frente_peca s.fila hf (by omega) hpecas)
  rw [hrun] at hc
  simp only [Option.some.injEq, Prod.mk.injEq] at hc
  obtain ⟨rfl, _⟩ := hc
  have hid3 : s2.id_sequencial = s.id_sequencial + 1 := hid2
  refine ⟨hok2, h52, by rw [hpil]; exact hp, by omega, ?_⟩
  intro y hy q hq
  simp only [vivas, hcont2, hpil, List.mem_append, List.mem_singleton] at hy
  rcases hy with (hy | rfl) | hy
  · exact hv y (List.mem_append_left _ (List.mem_of_mem_tail hy)) q hq
  · cases hq; exact gerarPecaIdeal_ok _ _ hid
  · exact hv y (List.mem_append_right _ hy) q hq

/-- With ids taken as unbounded integers, menu option 2 keeps a session state well formed. -/
theorem casoReservarIdeal_ok (s : Sessao) (r : Nat) (s1 : Sessao) (o : List Mensagem)
    (h : SessaoOk s) (hc : casoReservarCom gerarPecaIdeal s r = some (s1, o)) :
    SessaoOk s1 := by
  by_cases ht : s.pilha.topo = 2
  · have : casoReservarCom gerarPecaIdeal s r =
        some (s, [Mensagem.acaoReservar, Mensagem.avisoPilhaCheia]) := by
      simp [casoReservarCom, pilhaCheia, CAPACIDADE_PILHA, ht]
    rw [this] at hc
    simp only [Option.some.injEq, Prod.mk.injEq] at hc
    obtain ⟨rfl, _⟩ := hc
    exact h
  · obtain ⟨hf, h5, hp, hid, hv⟩ := h
    obtain ⟨s2, x, hrun, hx, hpc, htopo, hcont2, hcnt, hok2, hpok2, hid2⟩ :=
      casoReservarCom_efeito gerarPecaIdeal s r hf hp ht (by omega)
    rw [hrun] at hc
    simp only [Option.some.injEq, Prod.mk.injEq] at hc
    obtain ⟨rfl, _⟩ := hc
    have hid3 : s2.id_sequencial = s.id_sequencial + 1 := hid2
    refine ⟨hok2, by omega, hpok2, by omega, ?_⟩
    intro y hy q hq
    simp only [vivas, hcont2, hpc, List.mem_append, List.mem_singleton] at hy
    rcases hy with (hy | rfl) | (hy | rfl)
    · exact hv y (List.mem_append_left _ (List.mem_of_mem_tail hy)) q hq
    · cases hq; exact gerarPecaIdeal_ok _ _ hid
    · exact hv y (List.mem_append_right _ hy) q hq
    · exact hv _ (List.mem_append_left _ (by rw [hx]; exact List.mem_cons_self _ _)) q hq

/-- Menu option 3 keeps a session state well formed. -/
theorem casoUsar_ok (s : Sessao) (s1 : Sessao) (o : List Mensagem) (h : SessaoOk s)
    (hc : casoUsar s = some (s1, o)) : SessaoOk s1 := by
  obtain ⟨hf, h5, hp, hid, hv⟩ := h
  by_cases ht : s.pilha.topo = -1
  · have hpop : pop s.pilha = some (vazia, s.pilha, [Mensagem.erroPilhaVazia]) := by
      simp [pop, pilhaVazia, ht]
    simp only [casoUsar, hpop, Option.some.injEq, Prod.mk.injEq] at hc
    obtain ⟨rfl, _⟩ := hc
    exact ⟨hf, h5, hp, hid, hv⟩
  · obtain ⟨x, p1, hpop, hpok, _, _, hcont⟩ := pop_conteudo s.pilha hp (by have := hp.2.1; omega)
    simp only [casoUsar, hpop, Option.some.injEq, Prod.mk.injEq] at hc
    obtain ⟨rfl, _⟩ := hc
    refine ⟨hf, h5, hpok, hid, ?_⟩
    intro y hy q hq
    simp only [vivas, List.mem_append] at hy
    rcases hy with hy | hy
    · exact hv y (List.mem_append_left _ hy) q hq
    · exact hv y (List.mem_append_right _ (by rw [hcont]; exact List.mem_append_left _ hy)) q hq

/-- Menu option 4 keeps a session state well formed. -/
theorem casoTrocarFrenteTopo_ok (s : Sessao) (s1 : Sessao) (o : List Mensagem)
    (h : SessaoOk s) (hc : casoTrocarFrenteTopo s = some (s1, o)) : SessaoOk s1 := by
  obtain ⟨hf, h5, hp, hid, hv⟩ := h
  by_cases ht : s.pilha.topo = -1
  · rw [casoTrocarFrenteTopo, trocarFrenteTopo_recusa _ _ (Or.inr ht)] at hc
    simp only [Option.some.injEq, Prod.mk.injEq] at hc
    obtain ⟨rfl, _⟩ := hc
    exact ⟨hf, h5, hp, hid, hv⟩
  · obtain ⟨f1, p1, x, y, hrun, hok1, hpok1, hc1, _, hx, hx1, hy, hy1⟩ :=
      trocarFrenteTopo_conteudo s.fila s.pilha hf hp (by omega) (by have := hp.2.1; omega)
    rw [casoTrocarFrenteTopo, hrun] at hc
    simp only [Option.some.injEq, Prod.mk.injEq] at hc
    obtain ⟨rfl, _⟩ := hc
    refine ⟨hok1, by simp only [hc1, h5], hpok1, hid, ?_⟩
    intro z hz q hq
    simp only [vivas, hx1, hy1, List.mem_append, List.mem_cons, List.not_mem_nil,
      or_false] at hz
    rcases hz with (rfl | hz) | (hz | rfl)
    · exact hv _ (List.mem_append_right _ (by rw [hy]; simp)) q hq
    · exact hv z (List.mem_append_left _ (List.mem_of_mem_tail hz)) q hq
    · exact hv z (List.mem_append_right _ (by rw [hy]; exact List.mem_append_left _ hz)) q hq
    · exact hv _ (List.mem_append_left _ (by rw [hx]; exact List.mem_cons_self _ _)) q hq

/-- Menu option 5 keeps a session state well formed. -/
theorem casoTrocarTres_ok (s : Sessao) (s1 : Sessao) (o : List Mensagem)
    (h : SessaoOk s) (hc : casoTrocarTres s = some (s1, o)) : SessaoOk s1 := by
  obtain ⟨hf, h5, hp, hid, hv⟩ := h
  by_cases ht : s.pilha.topo = 2
  · obtain ⟨f1, p1, a, b, c, x, y, z, hrun, hok1, hpok1, hc1, _, ha, ha1, hx, hx1⟩ :=
      trocarTresComPilha_conteudo s.fila s.pilha hf hp (by omega) ht
    rw [casoTrocarTres, hrun] at hc
    simp only [Option.some.injEq, Prod.mk.injEq] at hc
    obtain ⟨rfl, _⟩ := hc
    refine ⟨hok1, by simp only [hc1, h5], hpok1, hid, ?_⟩
    intro w hw q hq
    have hfila : ∀ t, t ∈ [some a, some b, some c] → t ∈ conteudoFila s.fila := by
      intro t htm; rw [ha]; exact List.mem_append_left _ htm
    have hpilha : ∀ t, t ∈ [some x, some y, some z] → t ∈ conteudoPilha s.pilha := by
      intro t htm; rw [hx]; exact htm
    simp only [vivas, ha1, hx1, List.mem_append] at hw
    rcases hw with (hw | hw) | hw
    · exact hv w (List.mem_append_right _ (hpilha w hw)) q hq
    · exact hv w (List.mem_append_left _ (List.mem_of_mem_drop hw)) q hq
    · exact hv w (List.mem_append_left _ (hfila w hw)) q hq
  · rw [casoTrocarTres, trocarTresComPilha_recusa _ _ (fun hh => ht hh.2)] at hc
    simp only [Option.some.injEq, Prod.mk.injEq] at hc
    obtain ⟨rfl, _⟩ := hc
    exact ⟨hf, h5, hp, hid, hv⟩

/-- With ids taken as unbounded integers, every command of the menu keeps a session state
well formed. -/
theorem comandoIdeal_ok (s : Sessao) (opcao : Int) (r : Nat) (s1 : Sessao) (o : List Mensagem)
    (h : SessaoOk s) (hc : comandoIdeal s opcao r = some (s1, o)) : SessaoOk s1 := by
  unfold comandoIdeal comandoCom at hc
  split_ifs at hc
  · simp only [Option.some.injEq, Prod.mk.injEq] at hc
    obtain ⟨rfl, _⟩ := hc
    exact h
  · exact casoJogarIdeal_ok s r s1 o h hc
  · exact casoReservarIdeal_ok s r s1 o h hc
  · exact casoUsar_ok s s1 o h hc
  · exact casoTrocarFrenteTopo_ok s s1 o h hc
  · exact casoTrocarTres_ok s s1 o h hc
  · simp only [Option.some.injEq, Prod.mk.injEq] at hc
    obtain ⟨rfl, _⟩ := hc
    exact h

/-- With ids taken as unbounded integers, every reachable session state is well formed: its
containers are well formed, its queue holds 5 entries, and every entry of the queue and of the
stack is a piece of the data model.  No command of the menu performs an out-of-range access
there. -/
theorem alcancavelIdeal_ok (s : Sessao) (h : AlcancavelIdeal s) : SessaoOk s := by
  unfold AlcancavelIdeal at h
  induction h with
  | inicial fila pilha rand s o hf hp h => exact iniciarIdeal_ok fila pilha rand s o hf hp h
  | passo s opcao r s1 o _ h ih => exact comandoIdeal_ok s opcao r s1 o ih h

/-! ### The command Retrieve -/

/-- On an empty stack `case 3` changes nothing. -/
theorem casoUsar_vazia (s : Sessao) (h : s.pilha.topo = -1) :
    casoUsar s = some (s, [Mensagem.acaoUsar, Mensagem.erroPilhaVazia]) := by
  simp [casoUsar, pop, pilhaVazia, h, vazia]

/-- On a non-empty stack whose top slot holds `x`, `case 3` only lowers `topo` by one. -/
theorem casoUsar_valor (s : Sessao) (x : Peca) (h : s.pilha.topo ≠ -1)
    (hx : ler s.pilha.itens s.pilha.topo = some x) :
    casoUsar s = some ({ s with pilha := { s.pilha with topo := s.pilha.topo - 1 } },
      [Mensagem.acaoUsar] ++
        (if x.id != -1 then [Mensagem.pecaUsada x.id x.tipo] else [])) := by
  have hv : pilhaVazia s.pilha = false := by
    simp only [pilhaVazia, beq_eq_false_iff_ne, ne_eq]; exact h
  simp [casoUsar, pop, hv, hx]

/-- Whatever `case 3` returns, the queue and the id counter are the ones it received. -/
theorem casoUsar_fila (s s1 : Sessao) (o : List Mensagem) (h : casoUsar s = some (s1, o)) :
    s1.fila = s.fila ∧ s1.id_sequencial = s.id_sequencial := by
  unfold casoUsar at h
  split at h
  · exact Option.noConfusion h
  · simp only [Option.some.injEq, Prod.mk.injEq] at h
    obtain ⟨rfl, _⟩ := h
    exact ⟨rfl, rfl⟩

/-- C11. Menu option 3 never changes the queue or the id counter.  On an empty stack
(`topo = -1`) it returns the whole state as it was.  On a non-empty stack whose top slot holds
`x` it succeeds, lowers `topo` by one and leaves the array of the stack, the queue and the id
counter as they were, so that on a well-formed stack exactly the top entry `x` is removed and
the entries below are unchanged; the queue is not refilled. -/
theorem usar_so_retira_topo (s : Sessao) (r : Nat) :
    (s.pilha.topo = -1 →
      comando s 3 r = some (s, [Mensagem.acaoUsar, Mensagem.erroPilhaVazia])) ∧
    (∀ x : Peca, s.pilha.topo ≠ -1 → ler s.pilha.itens s.pilha.topo = some x →
      ∃ s1 o, comando s 3 r = some (s1, o) ∧ s1.fila = s.fila ∧
        s1.id_sequencial = s.id_sequencial ∧ s1.pilha.topo = s.pilha.topo - 1 ∧
        s1.pilha.itens = s.pilha.itens ∧
        (PilhaOk s.pilha → conteudoPilha s.pilha = conteudoPilha s1.pilha ++ [some x])) ∧
    (∀ s1 o, comando s 3 r = some (s1, o) →
      s1.fila = s.fila ∧ s1.id_sequencial = s.id_sequencial) := by
  have h3 : comando s 3 r = casoUsar s := by simp [comando, comandoCom]
  rw [h3]
  refine ⟨casoUsar_vazia s, ?_, fun s1 o h => casoUsar_fila s s1 o h⟩
  intro x ht hx
  refine ⟨_, _, casoUsar_valor s x ht hx, rfl, rfl, rfl, rfl, ?_⟩
  intro hok
  obtain ⟨y, p1, hpop, _, htopo, hitens, hcont⟩ :=
    pop_conteudo s.pilha hok (by have := hok.2.1; omega)
  have hv : pilhaVazia s.pilha = false := by
    simp only [pilhaVazia, beq_eq_false_iff_ne, ne_eq]; exact ht
  simp only [pop, hv, hx, Bool.false_eq_true, if_false, Option.some.injEq,
    Prod.mk.injEq] at hpop
  obtain ⟨rfl, rfl, _⟩ := hpop
  exact hcont

/-- C11 at `sessaoExemplo`, first with its stack emptied, then as it is (top `{'L', 9}`). -/
theorem usar_so_retira_topo_witness :
    (({ sessaoExemplo with pilha := inicializarPilha sessaoExemplo.pilha } : Sessao).pilha.topo
        = -1 ∧
      comando { sessaoExemplo with pilha := inicializarPilha sessaoExemplo.pilha } 3 23 =
        some ({ sessaoExemplo with pilha := inicializarPilha sessaoExemplo.pilha },
          [Mensagem.acaoUsar, Mensagem.erroPilhaVazia])) ∧
    ((sessaoExemplo.pilha.topo ≠ -1 ∧
        ler sessaoExemplo.pilha.itens sessaoExemplo.pilha.topo = some ⟨'L', 9⟩) ∧
      ∃ s1 o, comando sessaoExemplo 3 23 = some (s1, o) ∧ s1.fila = sessaoExemplo.fila ∧
        s1.id_sequencial = sessaoExemplo.id_sequencial ∧
        s1.pilha.topo = sessaoExemplo.pilha.topo - 1 ∧
        s1.pilha.itens = sessaoExemplo.pilha.itens ∧
        (PilhaOk sessaoExemplo.pilha →
          conteudoPilha sessaoExemplo.pilha = conteudoPilha s1.pilha ++ [some ⟨'L', 9⟩])) :=
  ⟨⟨by decide, (usar_so_retira_topo
      { sessaoExemplo with pilha := inicializarPilha sessaoExemplo.pilha } 23).1 (by decide)⟩,
   ⟨by decide, (usar_so_retira_topo sessaoExemplo 23).2.1 ⟨'L', 9⟩ (by decide) (by decide)⟩⟩

/-! ### Piece generation -/

/-- An integer within the range of `int` is its own 32-bit value. -/
theorem comoInt_dentro (x : Int) (h0 : -2147483648 ≤ x) (h1 : x ≤ 2147483647) :
    comoInt x = x := by
  unfold comoInt
  omega

/-- Incrementing the 32-bit value of `x` gives the 32-bit value of `x + 1`. -/
theorem incrementar_comoInt (x : Int) : incrementar (comoInt x) = comoInt (x + 1) := by
  unfold incrementar comoInt
  omega

/-- After `k` successive calls of `gerarPeca` from the counter that holds `n`, the counter
holds `n + k` and the pieces carry the 32-bit values of `n, n + 1, ..., n + k - 1` in call
order. -/
theorem gerarVarias_ids (rand : Nat → Nat) (k : Nat) (n : Int) :
    (gerarVarias rand k (comoInt n)).2 = comoInt (n + k) ∧
      (gerarVarias rand k (comoInt n)).1.map Peca.id =
        (List.range k).map (fun j : Nat => comoInt (n + (j : Int))) := by
  induction k with
  | zero => simp [gerarVarias]
  | succ k ih =>
    obtain ⟨h1, h2⟩ := ih
    constructor
    · simp only [gerarVarias, gerarPeca, h1, incrementar_comoInt]
      congr 1
      push_cast
      ring
    · simp only [gerarVarias, gerarPeca, List.map_append, h2, h1, List.map_cons, List.map_nil,
        List.range_succ]

/-- The ids of the first `k` pieces generated in a session, for `k` up to 2147483647, are
`1, ..., k`. -/
theorem gerarVarias_ids_cedo (rand : Nat → Nat) (k : Nat) (hk : k ≤ 2147483647) :
    (gerarVarias rand k 1).1.map Peca.id = (List.range k).map (fun j : Nat => 1 + (j : Int)) := by
  have h := (gerarVarias_ids rand k 1).2
  rw [comoInt_dentro 1 (by omega) (by omega)] at h
  rw [h]
  apply List.map_congr_left
  intro j hj
  have := List.mem_range.mp hj
  exact comoInt_dentro _ (by omega) (by omega)

/-- C12. For every value `r` of `rand()` and every counter `n`, `gerarPeca` returns a piece
whose id is `n` and whose type is one of I, O, T, S, Z, J, L; the counter becomes `n + 1`,
except that from 2147483647 the 32-bit counter goes to -2147483648.  Hence, for every `k` up
to 2147483647, `k` successive calls from the initial counter 1 return the ids `1, ..., k`, and
leave the counter at `1 + k` (at -2147483648 when `k` is 2147483647); and the initial fill
(over arrays of the declared sizes) succeeds with the queue holding, front to back, the five
pieces generated, of ids 1, 2, 3, 4, 5, the stack empty and the next id 6. -/
theorem gerarPeca_sequencial (r : Nat) (n : Int) (rand : Nat → Nat) (k : Nat)
    (fila : FilaCircular) (pilha : PilhaLinear) (hf : fila.itens.length = 5)
    (hp : pilha.itens.length = 3) :
    ((gerarPeca r n).1.id = n ∧ (gerarPeca r n).1.tipo ∈ ['I', 'O', 'T', 'S', 'Z', 'J', 'L'] ∧
      (-2147483648 ≤ n → n < 2147483647 → (gerarPeca r n).2 = n + 1) ∧
      (n = 2147483647 → (gerarPeca r n).2 = -2147483648)) ∧
    (k ≤ 2147483647 →
      (gerarVarias rand k 1).1.map Peca.id = (List.range k).map (fun j : Nat => 1 + (j : Int)) ∧
      (∀ j : Nat, j < k → ((gerarVarias rand k 1).1[j]?).map Peca.id = some ((j : Int) + 1)) ∧
      (k < 2147483647 → (gerarVarias rand k 1).2 = 1 + k) ∧
      (k = 2147483647 → (gerarVarias rand k 1).2 = -2147483648)) ∧
    (∃ s o, iniciar fila pilha rand = some (s, o) ∧
      conteudoFila s.fila = (gerarVarias rand 5 1).1.map some ∧
      (conteudoFila s.fila).map (Option.map Peca.id) = [some 1, some 2, some 3, some 4, some 5] ∧
      s.pilha.topo = -1 ∧ conteudoPilha s.pilha = [] ∧ s.id_sequencial = 6) := by
  refine ⟨⟨rfl, List.get_mem _ _ _, ?_, ?_⟩, ?_, ?_⟩
  · intro h0 h1
    exact comoInt_dentro (n + 1) (by omega) (by omega)
  · intro h
    rw [h]
    show incrementar 2147483647 = -2147483648
    decide
  · intro hk
    have hcont : (gerarVarias rand k 1).2 = comoInt (1 + k) := by
      have h := (gerarVarias_ids rand k 1).1
      rw [comoInt_dentro 1 (by omega) (by omega)] at h
      exact h
    refine ⟨gerarVarias_ids_cedo rand k hk, ?_, ?_, ?_⟩
    · intro j hj
      have h := congrArg (fun l => l[j]?) (gerarVarias_ids_cedo rand k hk)
      simp only [List.getElem?_map, List.getElem?_range hj, Option.map_some'] at h
      rw [h]; congr 1; ring
    · intro hlt
      rw [hcont]
      exact comoInt_dentro _ (by omega) (by omega)
    · intro he
      rw [hcont, he]
      decide
  · obtain ⟨s, hrun, _, _, _, hcont, hpil, hpc, _, hid⟩ := iniciar_efeito fila pilha rand hf hp
    refine ⟨s, _, hrun, ?_, ?_, ?_, hpc, hid⟩
    · rw [hcont]; rfl
    · rw [hcont]; rfl
    · rw [hpil]; rfl

/-- C12 with `rand()` returning 23, four calls, 9 at each call of the fill, over `filaExemplo`
and `pilhaExemplo`. -/
theorem gerarPeca_sequencial_witness :
    (filaExemplo.itens.length = 5 ∧ pilhaExemplo.itens.length = 3) ∧
    (((gerarPeca 23 11).1.id = 11 ∧
        (gerarPeca 23 11).1.tipo ∈ ['I', 'O', 'T', 'S', 'Z', 'J', 'L'] ∧
        (-2147483648 ≤ (11 : Int) → (11 : Int) < 2147483647 → (gerarPeca 23 11).2 = 11 + 1) ∧
        ((11 : Int) = 2147483647 → (gerarPeca 23 11).2 = -2147483648)) ∧
      (4 ≤ 2147483647 →
        (gerarVarias (fun _ => 9) 4 1).1.map Peca.id =
          (List.range 4).map (fun j : Nat => 1 + (j : Int)) ∧
        (∀ j : Nat, j < 4 →
          ((gerarVarias (fun _ => 9) 4 1).1[j]?).map Peca.id = some ((j : Int) + 1)) ∧
        (4 < 2147483647 → (gerarVarias (fun _ => 9) 4 1).2 = 1 + (4 : Nat)) ∧
        (4 = 2147483647 → (gerarVarias (fun _ => 9) 4 1).2 = -2147483648)) ∧
      (∃ s o, iniciar filaExemplo pilhaExemplo (fun _ => 9) = some (s, o) ∧
        conteudoFila s.fila = (gerarVarias (fun _ => 9) 5 1).1.map some ∧
        (conteudoFila s.fila).map (Option.map Peca.id) =
          [some 1, some 2, some 3, some 4, some 5] ∧
        s.pilha.topo = -1 ∧ conteudoPilha s.pilha = [] ∧ s.id_sequencial = 6)) :=
  ⟨by decide, gerarPeca_sequencial 23 11 (fun _ => 9) 4 filaExemplo pilhaExemplo (by decide)
    (by decide)⟩

/-- C12 as stated fails at the counter 2147483647: `gerarPeca` gives the piece the id
2147483647 and leaves the 32-bit counter at -2147483648, not at 2147483648.  The piece
generated next, the 2147483648th of a session, has the id -2147483648. -/
theorem gerarPeca_estouro :
    (gerarPeca 0 2147483647).1 = ⟨'I', 2147483647⟩ ∧
    (gerarPeca 0 2147483647).2 = -2147483648 ∧
    (gerarPeca 0 2147483647).2 ≠ 2147483647 + 1 ∧
    ((gerarVarias (fun _ => 0) 2147483648 1).1[2147483647]?).map Peca.id =
      some (-2147483648) := by
  refine ⟨by decide, by decide, by decide, ?_⟩
  have h := (gerarVarias_ids (fun _ => 0) 2147483648 1).2
  rw [comoInt_dentro 1 (by omega) (by omega)] at h
  have h2 := congrArg (fun l => l[2147483647]?) h
  simp only [List.getElem?_map, List.getElem?_range (by omega : 2147483647 < 2147483648),
    Option.map_some'] at h2
  rw [h2]
  decide

/-! ### Index fields -/

/-- On a non-negative argument the C remainder by 5 is the mathematical one. -/
theorem tmod_cinco (a : Int) (h : 0 ≤ a) : Int.tmod a 5 = a % 5 :=
  Int.tmod_eq_emod h (by decide)

/-- A write that succeeds keeps the size of the array. -/
theorem gravar_length (a : List Peca) (i : Int) (p : Peca) (b : List Peca)
    (h : gravar a i p = some b) : b.length = a.length := by
  unfold gravar at h
  split at h
  · simp only [Option.some.injEq] at h
    subst h
    simp
  · exact Option.noConfusion h

/-- A read within the array yields a piece. -/
theorem ler_dentro (a : List Peca) (i : Int) (h0 : 0 ≤ i) (h1 : i < a.length) :
    ∃ x, ler a i = some x := by
  have hlt : i.toNat < a.length := by omega
  exact ⟨a[i.toNat], by simp [ler, h0, hlt]⟩

/-- The value of `enqueue` on a queue that is not full, when the write succeeds. -/
theorem enqueue_valor (f : FilaCircular) (x : Peca) (b : List Peca) (hc : f.contagem ≠ 5)
    (hg : gravar f.itens (Int.tmod (f.fim + 1) 5) x = some b) :
    enqueue f x = some
      ({ f with
          itens := b
          fim := Int.tmod (f.fim + 1) 5
          contagem := f.contagem + 1 }, []) := by
  simp [enqueue, filaCheia, CAPACIDADE_FILA, hc, hg]

/-- The value of `dequeue` on a non-empty queue, when the read succeeds. -/
theorem dequeue_valor (f : FilaCircular) (x : Peca) (hc : f.contagem ≠ 0)
    (hl : ler f.itens f.inicio = some x) :
    dequeue f = some
      (x, { f with
              inicio := Int.tmod (f.inicio + 1) 5
              contagem := f.contagem - 1 }, []) := by
  simp [dequeue, filaVazia, CAPACIDADE_FILA, hc, hl]

/-- The value of `trocarFrenteTopo` on non-empty containers, when the reads succeed. -/
theorem trocarFrenteTopo_valor (f : FilaCircular) (p : PilhaLinear) (A B : Peca)
    (hf : f.contagem ≠ 0) (hp : p.topo ≠ -1) (hA : ler f.itens f.inicio = some A)
    (hB : ler p.itens p.topo = some B) :
    trocarFrenteTopo f p = some ({ f with itens := f.itens.set f.inicio.toNat B },
      { p with itens := p.itens.set p.topo.toNat A },
      [Mensagem.sucessoTrocaFrenteTopo A.id B.id]) := by
  obtain ⟨hi0, hi1⟩ := ler_some_dentro _ _ _ hA
  obtain ⟨ht0, ht1⟩ := ler_some_dentro _ _ _ hB
  have hcond : (filaVazia f || pilhaVazia p) = false := by
    simp [filaVazia, pilhaVazia, hf, hp]
  simp [trocarFrenteTopo, hcond, hA, hB, gravar_dentro _ _ _ hi0 hi1,
    gravar_dentro _ _ _ ht0 ht1, ler_set_mesmo _ _ _ hi0 hi1, ler_set_mesmo _ _ _ ht0 ht1]

/-- Whatever `trocarFrenteTopo` returns, the index fields and the array sizes are the ones
it received. -/
theorem trocarFrenteTopo_indices (f : FilaCircular) (p : PilhaLinear) (f1 : FilaCircular)
    (p1 : PilhaLinear) (o : List Mensagem) (h : trocarFrenteTopo f p = some (f1, p1, o)) :
    f1.inicio = f.inicio ∧ f1.fim = f.fim ∧ f1.contagem = f.contagem ∧
      f1.itens.length = f.itens.length ∧ p1.topo = p.topo ∧
      p1.itens.length = p.itens.length := by
  by_cases hc : f.contagem = 0 ∨ p.topo = -1
  · rw [trocarFrenteTopo_recusa f p hc] at h
    simp only [Option.some.injEq, Prod.mk.injEq] at h
    obtain ⟨rfl, rfl, _⟩ := h
    exact ⟨rfl, rfl, rfl, rfl, rfl, rfl⟩
  · push_neg at hc
    cases hA : ler f.itens f.inicio with
    | none =>
      have hcond : (filaVazia f || pilhaVazia p) = false := by
        simp [filaVazia, pilhaVazia, hc.1, hc.2]
      simp [trocarFrenteTopo, hcond, hA] at h
    | some A =>
      cases hB : ler p.itens p.topo with
      | none =>
        have hcond : (filaVazia f || pilhaVazia p) = false := by
          simp [filaVazia, pilhaVazia, hc.1, hc.2]
        simp [trocarFrenteTopo, hcond, hA, hB] at h
      | some B =>
        rw [trocarFrenteTopo_valor f p A B hc.1 hc.2 hA hB] at h
        simp only [Option.some.injEq, Prod.mk.injEq] at h
        obtain ⟨rfl, rfl, _⟩ := h
        simp

/-- Whatever one exchange of the loop of `trocarTresComPilha` returns, the index fields and
the array sizes are the ones it received. -/
theorem trocarIndice_indices (fp fp1 : FilaCircular × PilhaLinear) (i : Int)
    (h : trocarIndice fp i = some fp1) :
    fp1.1.inicio = fp.1.inicio ∧ fp1.1.fim = fp.1.fim ∧ fp1.1.contagem = fp.1.contagem ∧
      fp1.1.itens.length = fp.1.itens.length ∧ fp1.2.topo = fp.2.topo ∧
      fp1.2.itens.length = fp.2.itens.length := by
  simp only [trocarIndice, Option.bind_eq_bind, Option.bind_eq_some, Option.some.injEq] at h
  obtain ⟨temp, _, t, _, fi, hfi, pi, hpi, rfl⟩ := h
  exact ⟨rfl, rfl, rfl, gravar_length _ _ _ _ hfi, rfl, gravar_length _ _ _ _ hpi⟩

/-- Whatever `trocarTresComPilha` returns, the index fields and the array sizes are the ones
it received. -/
theorem trocarTresComPilha_indices (f : FilaCircular) (p : PilhaLinear) (f1 : FilaCircular)
    (p1 : PilhaLinear) (o : List Mensagem) (h : trocarTresComPilha f p = some (f1, p1, o)) :
    f1.inicio = f.inicio ∧ f1.fim = f.fim ∧ f1.contagem = f.contagem ∧
      f1.itens.length = f.itens.length ∧ p1.topo = p.topo ∧
      p1.itens.length = p.itens.length := by
  by_cases hc : 3 ≤ f.contagem ∧ p.topo = 2
  · have hcond : (decide (f.contagem < 3) || p.topo != CAPACIDADE_PILHA - 1) = false := by
      simp only [CAPACIDADE_PILHA, Bool.or_eq_false_iff, decide_eq_false_iff_not, not_lt]
      exact ⟨hc.1, by simp [hc.2]⟩
    simp only [trocarTresComPilha, hcond, Bool.false_eq_true, if_false, List.foldlM,
      Option.bind_eq_bind] at h
    cases h0 : trocarIndice (f, p) 0 with
    | none => simp [h0] at h
    | some a =>
      cases h1 : trocarIndice a 1 with
      | none => simp [h0, h1] at h
      | some b =>
        cases h2 : trocarIndice b 2 with
        | none => simp [h0, h1, h2] at h
        | some c =>
          simp only [h0, h1, h2, Option.some_bind, Option.pure_def, Option.some.injEq,
            Prod.mk.injEq] at h
          obtain ⟨rfl, rfl, _⟩ := h
          have e0 := trocarIndice_indices _ _ _ h0
          have e1 := trocarIndice_indices _ _ _ h1
          have e2 := trocarIndice_indices _ _ _ h2
          simp only at e0
          refine ⟨?_, ?_, ?_, ?_, ?_, ?_⟩ <;> simp only [e2, e1, e0]
  · rw [trocarTresComPilha_recusa f p hc] at h
    simp only [Option.some.injEq, Prod.mk.injEq] at h
    obtain ⟨rfl, rfl, _⟩ := h
    exact ⟨rfl, rfl, rfl, rfl, rfl, rfl⟩

/-- A well-formed queue stays well formed under `enqueue`, and afterwards `fim` is not `-1`
unless the call was refused. -/
theorem enqueue_fim (f : FilaCircular) (x : Peca) (f1 : FilaCircular) (o : List Mensagem)
    (hok : FilaOk f) (hm : f.fim = -1 → f.contagem = 0) (h : enqueue f x = some (f1, o)) :
    FilaOk f1 ∧ (f1.fim = -1 → f1.contagem = 0) := by
  obtain ⟨hl, h1, h2, h3, h4, h5, h6, h7⟩ := hok
  by_cases hc : f.contagem = 5
  · simp only [enqueue, filaCheia, CAPACIDADE_FILA, hc, beq_self_eq_true, if_true,
      Option.some.injEq, Prod.mk.injEq] at h
    obtain ⟨rfl, _⟩ := h
    exact ⟨⟨hl, h1, h2, h3, h4, h5, h6, h7⟩, hm⟩
  · have ht : Int.tmod (f.fim + 1) 5 = (f.fim + 1) % 5 := tmod_cinco _ (by omega)
    have hg := gravar_dentro f.itens (Int.tmod (f.fim + 1) 5) x (by rw [ht]; omega)
      (by rw [ht, hl]; omega)
    rw [enqueue_valor f x _ hc hg] at h
    simp only [Option.some.injEq, Prod.mk.injEq] at h
    obtain ⟨rfl, _⟩ := h
    refine ⟨⟨by simp [hl], h1, h2, by simp only; omega, by simp only; omega,
      by simp only [ht]; omega, by simp only [ht]; omega, by simp only [ht]; omega⟩, ?_⟩
    simp only [ht]
    omega

/-- A well-formed queue stays well formed under `dequeue`, and `fim` is `-1` afterwards only
on an empty queue. -/
theorem dequeue_fim (f : FilaCircular) (x : Peca) (f1 : FilaCircular) (o : List Mensagem)
    (hok : FilaOk f) (hm : f.fim = -1 → f.contagem = 0) (h : dequeue f = some (x, f1, o)) :
    FilaOk f1 ∧ (f1.fim = -1 → f1.contagem = 0) := by
  by_cases hc : f.contagem = 0
  · simp only [dequeue, filaVazia, hc, beq_self_eq_true, if_true, Option.some.injEq,
      Prod.mk.injEq] at h
    obtain ⟨_, rfl, _⟩ := h
    exact ⟨hok, hm⟩
  · obtain ⟨hl, h1, h2, h3, h4, h5, h6, h7⟩ := hok
    obtain ⟨y, hy⟩ := ler_dentro f.itens f.inicio h1 (by rw [hl]; exact_mod_cast h2)
    have ht : Int.tmod (f.inicio + 1) 5 = (f.inicio + 1) % 5 := tmod_cinco _ (by omega)
    rw [dequeue_valor f y hc hy] at h
    simp only [Option.some.injEq, Prod.mk.injEq] at h
    obtain ⟨_, rfl, _⟩ := h
    refine ⟨⟨hl, by simp only [ht]; omega, by simp only [ht]; omega, by simp only; omega,
      by simp only; omega, h5, h6, by simp only [ht]; omega⟩, ?_⟩
    intro hf
    exact absurd (hm hf) hc

/-- Every reachable queue is well formed, and its `fim` is `-1` only while it is empty. -/
theorem filaAlcancavel_ok (f : FilaCircular) (h : FilaAlcancavel f) :
    FilaOk f ∧ (f.fim = -1 → f.contagem = 0) := by
  induction h with
  | inicial f0 hl => exact ⟨(inicializarFila_ok f0 hl).1, fun _ => rfl⟩
  | enfileirar f x f1 o _ h ih => exact enqueue_fim f x f1 o ih.1 ih.2 h
  | desenfileirar f x f1 o _ h ih => exact dequeue_fim f x f1 o ih.1 ih.2 h
  | trocarUm f p f1 p1 o _ h ih =>
    obtain ⟨e1, e2, e3, e4, _, _⟩ := trocarFrenteTopo_indices f p f1 p1 o h
    obtain ⟨⟨hl, h1, h2, h3, h4, h5, h6, h7⟩, hm⟩ := ih
    exact ⟨⟨by rw [e4, hl], by rw [e1]; exact h1, by rw [e1]; exact h2, by rw [e3]; exact h3,
      by rw [e3]; exact h4, by rw [e2]; exact h5, by rw [e2]; exact h6,
      by rw [e1, e2, e3]; exact h7⟩, by rw [e2, e3]; exact hm⟩
  | trocarTres f p f1 p1 o _ h ih =>
    obtain ⟨e1, e2, e3, e4, _, _⟩ := trocarTresComPilha_indices f p f1 p1 o h
    obtain ⟨⟨hl, h1, h2, h3, h4, h5, h6, h7⟩, hm⟩ := ih
    exact ⟨⟨by rw [e4, hl], by rw [e1]; exact h1, by rw [e1]; exact h2, by rw [e3]; exact h3,
      by rw [e3]; exact h4, by rw [e2]; exact h5, by rw [e2]; exact h6,
      by rw [e1, e2, e3]; exact h7⟩, by rw [e2, e3]; exact hm⟩

/-- C13. In every queue state reachable from `inicializarFila` through `enqueue`, `dequeue`,
`trocarFrenteTopo` and `trocarTresComPilha`: when `contagem ≥ 1` the stored `fim` equals
`(inicio + contagem - 1) mod 5`; and when the queue is not full `enqueue` succeeds and writes
the new piece at slot `(inicio + contagem) mod 5`, which becomes `fim`, changing no other
slot. -/
theorem fim_derivavel (f : FilaCircular) (h : FilaAlcancavel f) :
    (1 ≤ f.contagem → f.fim = (f.inicio + f.contagem - 1) % 5) ∧
    (f.contagem < 5 → ∀ x : Peca, ∃ f1, enqueue f x = some (f1, []) ∧
      f1.fim = (f.inicio + f.contagem) % 5 ∧
      f1.itens = f.itens.set ((f.inicio + f.contagem) % 5).toNat x ∧
      ler f1.itens ((f.inicio + f.contagem) % 5) = some x ∧
      f1.inicio = f.inicio ∧ f1.contagem = f.contagem + 1) := by
  obtain ⟨⟨hl, h1, h2, h3, h4, h5, h6, h7⟩, hm⟩ := filaAlcancavel_ok f h
  constructor
  · intro hc
    have : f.fim ≠ -1 := fun hf => by have := hm hf; omega
    omega
  · intro hc x
    have ht : Int.tmod (f.fim + 1) 5 = (f.inicio + f.contagem) % 5 := by
      rw [tmod_cinco _ (by omega)]; exact h7
    have hk0 : 0 ≤ (f.inicio + f.contagem) % 5 := by omega
    have hk1 : ((f.inicio + f.contagem) % 5).toNat < f.itens.length := by rw [hl]; omega
    have hg := gravar_dentro f.itens _ x hk0 hk1
    have hv := enqueue_valor f x _ (by omega) (by rw [ht]; exact hg)
    rw [ht] at hv
    exact ⟨_, hv, rfl, rfl, ler_set_mesmo _ _ _ hk0 hk1, rfl, rfl⟩

/-- The queue `filaTresExemplo` is reachable: four insertions and one removal from
`inicializarFila filaExemplo`. -/
theorem filaTresExemplo_alcancavel : FilaAlcancavel filaTresExemplo := by
  have h0 := FilaAlcancavel.inicial filaExemplo (by decide)
  have h1 := FilaAlcancavel.enfileirar _ ⟨'I', 1⟩ _ _ h0 rfl
  have h2 := FilaAlcancavel.enfileirar _ ⟨'O', 2⟩ _ _ h1 rfl
  have h3 := FilaAlcancavel.enfileirar _ ⟨'T', 3⟩ _ _ h2 rfl
  have h4 := FilaAlcancavel.enfileirar _ ⟨'S', 4⟩ _ _ h3 rfl
  exact FilaAlcancavel.desenfileirar _ _ _ _ h4 rfl

/-- C13 at `filaTresExemplo`: `fim = 3 = (1 + 3 - 1) mod 5` and the next piece goes to slot
`4 = (1 + 3) mod 5`. -/
theorem fim_derivavel_witness :
    FilaAlcancavel filaTresExemplo ∧
    ((1 ≤ filaTresExemplo.contagem →
        filaTresExemplo.fim = (filaTresExemplo.inicio + filaTresExemplo.contagem - 1) % 5) ∧
      (filaTresExemplo.contagem < 5 → ∀ x : Peca, ∃ f1,
        enqueue filaTresExemplo x = some (f1, []) ∧
        f1.fim = (filaTresExemplo.inicio + filaTresExemplo.contagem) % 5 ∧
        f1.itens = filaTresExemplo.itens.set
          ((filaTresExemplo.inicio + filaTresExemplo.contagem) % 5).toNat x ∧
        ler f1.itens ((filaTresExemplo.inicio + filaTresExemplo.contagem) % 5) = some x ∧
        f1.inicio = filaTresExemplo.inicio ∧
        f1.contagem = filaTresExemplo.contagem + 1)) :=
  ⟨filaTresExemplo_alcancavel, fim_derivavel filaTresExemplo filaTresExemplo_alcancavel⟩

/-! ### Invariants of the session -/

/-- Every logical position of a well-formed queue is within the array. -/
theorem conteudoFila_some (f : FilaCircular) (hok : FilaOk f) :
    ∀ x ∈ conteudoFila f, ∃ q, x = some q := by
  obtain ⟨hl, h1, h2, h3, h4, _, _, _⟩ := hok
  intro x hx
  simp only [conteudoFila, List.mem_map, List.mem_range] at hx
  obtain ⟨i, hi, rfl⟩ := hx
  have ht : Int.tmod (f.inicio + (i : Int)) CAPACIDADE_FILA = (f.inicio + (i : Int)) % 5 :=
    tmod_cinco _ (by omega)
  rw [ht]
  obtain ⟨q, hq⟩ := ler_dentro f.itens ((f.inicio + (i : Int)) % 5) (by omega)
    (by rw [hl]; push_cast; omega)
  exact ⟨q, hq⟩

/-- Every stored position of a well-formed stack is within the array. -/
theorem conteudoPilha_some (p : PilhaLinear) (hok : PilhaOk p) :
    ∀ x ∈ conteudoPilha p, ∃ q, x = some q := by
  obtain ⟨hl, h1, h2⟩ := hok
  intro x hx
  simp only [conteudoPilha, List.mem_map, List.mem_range] at hx
  obtain ⟨i, hi, rfl⟩ := hx
  obtain ⟨q, hq⟩ := ler_dentro p.itens (i : Int) (by omega) (by rw [hl]; push_cast; omega)
  exact ⟨q, hq⟩

/-- On a well-formed queue whose entries are pieces of the data model, the test `id != -1` on
the piece `dequeue` returns succeeds exactly when the queue was not empty. -/
theorem dequeue_teste (f : FilaCircular) (hok : FilaOk f) (hp : FilaDePecas f) :
    ∃ jogada f1 o, dequeue f = some (jogada, f1, o) ∧
      ((jogada.id != -1) = true ↔ f.contagem ≠ 0) := by
  by_cases hc : f.contagem = 0
  · refine ⟨vazia, f, [Mensagem.erroFilaVazia], by simp [dequeue, filaVazia, hc], ?_⟩
    simp [hc, vazia]
  · obtain ⟨x, f1, hd, _, _, _, _, hcont⟩ :=
      dequeue_conteudo f hok (by have := hok.2.2.2.1; omega)
    have hx : PecaOk x := hp (some x) (by rw [hcont]; exact List.mem_cons_self _ _) x rfl
    exact ⟨x, f1, [], hd, by simp [hc, pecaOk_id x hx]⟩

/-- On a well-formed stack whose entries are pieces of the data model, the test `id != -1` on
the piece `pop` returns succeeds exactly when the stack was not empty. -/
theorem pop_teste (p : PilhaLinear) (hok : PilhaOk p)
    (hp : ∀ x ∈ conteudoPilha p, ∀ q ∈ x, PecaOk q) :
    ∃ usada p1 o, pop p = some (usada, p1, o) ∧
      ((usada.id != -1) = true ↔ p.topo ≠ -1) := by
  by_cases hc : p.topo = -1
  · refine ⟨vazia, p, [Mensagem.erroPilhaVazia], by simp [pop, pilhaVazia, hc], ?_⟩
    simp [hc, vazia]
  · obtain ⟨x, p1, hd, _, _, _, hcont⟩ := pop_conteudo p hok (by have := hok.2.1; omega)
    have hx : PecaOk x := hp (some x) (by rw [hcont]; simp) x rfl
    exact ⟨x, p1, [], hd, by simp [hc, pecaOk_id x hx]⟩

/-- C14. In every session state reachable from the initial fill by any sequence of commands
(ids being unbounded integers), every live entry of the queue and of the stack is a piece
whose type is one of I, O, T, S, Z, J, L and whose id is at least 1, so none is `{'X', -1}`.
Consequently `dequeue` and `pop` succeed there, and the test `id != -1` on the piece returned
is true exactly when the queue, respectively the stack, was not empty before the call. -/
theorem sentinela_nunca_armazenada (s : Sessao) (h : AlcancavelIdeal s) :
    (∀ x ∈ vivas s, ∃ q : Peca, x = some q ∧ q.tipo ∈ ['I', 'O', 'T', 'S', 'Z', 'J', 'L'] ∧
      1 ≤ q.id ∧ q ≠ { tipo := 'X', id := -1 }) ∧
    (∃ jogada f1 o, dequeue s.fila = some (jogada, f1, o) ∧
      ((jogada.id != -1) = true ↔ s.fila.contagem ≠ 0)) ∧
    (∃ usada p1 o, pop s.pilha = some (usada, p1, o) ∧
      ((usada.id != -1) = true ↔ s.pilha.topo ≠ -1)) := by
  obtain ⟨hf, _, hp, _, hv⟩ := alcancavelIdeal_ok s h
  refine ⟨?_, ?_, ?_⟩
  · intro x hx
    have hsome : ∃ q, x = some q := by
      rcases List.mem_append.mp hx with hx1 | hx1
      · exact conteudoFila_some s.fila hf x hx1
      · exact conteudoPilha_some s.pilha hp x hx1
    obtain ⟨q, rfl⟩ := hsome
    have hq := hv (some q) hx q rfl
    refine ⟨q, rfl, hq.2, hq.1, ?_⟩
    intro he
    have := hq.1
    rw [he] at this
    exact absurd this (by decide)
  · exact dequeue_teste s.fila hf (fun x hx q hq => hv x (List.mem_append_left _ hx) q hq)
  · exact pop_teste s.pilha hp (fun x hx q hq => hv x (List.mem_append_right _ hx) q hq)

/-- The state `sessaoInicialExemplo` is the result of the initial fill, whether the counter
is the 32-bit one or unbounded. -/
theorem sessaoInicialExemplo_alcancavel :
    Alcancavel sessaoInicialExemplo ∧ AlcancavelIdeal sessaoInicialExemplo :=
  ⟨AlcancavelCom.inicial filaExemplo pilhaExemplo (fun _ => 9) sessaoInicialExemplo
      [Mensagem.iniciando] (by decide) (by decide) (by decide),
    AlcancavelCom.inicial filaExemplo pilhaExemplo (fun _ => 9) sessaoInicialExemplo
      [Mensagem.iniciando] (by decide) (by decide) (by decide)⟩

/-- The state `sessaoReservaExemplo` is reached from the initial fill by menu option 2,
whether the counter is the 32-bit one or unbounded. -/
theorem sessaoReservaExemplo_alcancavel :
    Alcancavel sessaoReservaExemplo ∧ AlcancavelIdeal sessaoReservaExemplo :=
  ⟨AlcancavelCom.passo sessaoInicialExemplo 2 23 sessaoReservaExemplo
      [Mensagem.acaoReservar, Mensagem.pecaMovida 1 'T', Mensagem.novaPeca 6 'T']
      sessaoInicialExemplo_alcancavel.1 (by decide),
    AlcancavelCom.passo sessaoInicialExemplo 2 23 sessaoReservaExemplo
      [Mensagem.acaoReservar, Mensagem.pecaMovida 1 'T', Mensagem.novaPeca 6 'T']
      sessaoInicialExemplo_alcancavel.2 (by decide)⟩

/-- C14 at `sessaoReservaExemplo`. -/
theorem sentinela_nunca_armazenada_witness :
    AlcancavelIdeal sessaoReservaExemplo ∧
    ((∀ x ∈ vivas sessaoReservaExemplo, ∃ q : Peca, x = some q ∧
        q.tipo ∈ ['I', 'O', 'T', 'S', 'Z', 'J', 'L'] ∧ 1 ≤ q.id ∧
        q ≠ { tipo := 'X', id := -1 }) ∧
      (∃ jogada f1 o, dequeue sessaoReservaExemplo.fila = some (jogada, f1, o) ∧
        ((jogada.id != -1) = true ↔ sessaoReservaExemplo.fila.contagem ≠ 0)) ∧
      (∃ usada p1 o, pop sessaoReservaExemplo.pilha = some (usada, p1, o) ∧
        ((usada.id != -1) = true ↔ sessaoReservaExemplo.pilha.topo ≠ -1))) :=
  ⟨sessaoReservaExemplo_alcancavel.2,
    sentinela_nunca_armazenada sessaoReservaExemplo sessaoReservaExemplo_alcancavel.2⟩

/-- In a well-formed session state every command of the menu runs to its end without an
out-of-range access, and prints none of the lines that report an empty or a full queue,
whatever the generator called. -/
theorem comandoCom_saida (gerar : Nat → Int → Peca × Int) (s : Sessao) (h : SessaoOk s)
    (opcao : Int) (r : Nat) :
    ∃ s1 o, comandoCom gerar s opcao r = some (s1, o) ∧ Mensagem.erroFilaVazia ∉ o ∧
      Mensagem.avisoFilaVazia ∉ o ∧ ∀ n : Int, Mensagem.erroFilaCheia n ∉ o := by
  obtain ⟨hf, h5, hp, hid, hv⟩ := h
  have hpecas : FilaDePecas s.fila := fun x hx q hq =>
    hv x (List.mem_append_left _ hx) q hq
  unfold comandoCom
  split_ifs with k0 k1 k2 k3 k4 k5
  · exact ⟨s, _, rfl, by simp, by simp, by simp⟩
  · obtain ⟨s1, x, hrun, _⟩ :=
      casoJogarCom_efeito gerar s r hf h5 (frente_peca s.fila hf (by omega) hpecas)
    exact ⟨s1, _, hrun, by simp, by simp, by simp⟩
  · by_cases ht : s.pilha.topo = 2
    · refine ⟨s, [Mensagem.acaoReservar, Mensagem.avisoPilhaCheia], ?_, by simp, by simp,
        by simp⟩
      simp [casoReservarCom, pilhaCheia, CAPACIDADE_PILHA, ht]
    · obtain ⟨s1, x, hrun, _⟩ := casoReservarCom_efeito gerar s r hf hp ht (by omega)
      exact ⟨s1, _, hrun, by simp, by simp, by simp⟩
  · by_cases ht : s.pilha.topo = -1
    · exact ⟨s, _, casoUsar_vazia s ht, by simp, by simp, by simp⟩
    · obtain ⟨x, hx⟩ := ler_dentro s.pilha.itens s.pilha.topo (by have := hp.2.1; omega)
        (by rw [hp.1]; have := hp.2.2; exact_mod_cast this)
      refine ⟨_, _, casoUsar_valor s x ht hx, ?_, ?_, ?_⟩ <;>
        (split_ifs <;> simp)
  · by_cases ht : s.pilha.topo = -1
    · refine ⟨s, [Mensagem.acaoTrocarFrenteTopo, Mensagem.avisoTrocaFrenteTopo], ?_, by simp,
        by simp, by simp⟩
      simp [casoTrocarFrenteTopo, trocarFrenteTopo_recusa _ _ (Or.inr ht)]
    · obtain ⟨f1, p1, x, y, hrun, _⟩ := trocarFrenteTopo_conteudo s.fila s.pilha hf hp
        (by omega) (by have := hp.2.1; omega)
      refine ⟨{ s with fila := f1, pilha := p1 }, [Mensagem.acaoTrocarFrenteTopo,
        Mensagem.sucessoTrocaFrenteTopo x.id y.id], ?_, by simp, by simp, by simp⟩
      simp [casoTrocarFrenteTopo, hrun]
  · by_cases ht : s.pilha.topo = 2
    · obtain ⟨f1, p1, a, b, c, x, y, z, hrun, _⟩ :=
        trocarTresComPilha_conteudo s.fila s.pilha hf hp (by omega) ht
      refine ⟨{ s with fila := f1, pilha := p1 }, [Mensagem.acaoTrocarTres,
        Mensagem.sucessoTrocaTres], ?_, by simp, by simp, by simp⟩
      simp [casoTrocarTres, hrun]
    · refine ⟨s, [Mensagem.acaoTrocarTres, Mensagem.avisoTrocaTres], ?_, by simp, by simp,
        by simp⟩
      simp [casoTrocarTres, trocarTresComPilha_recusa _ _ (fun hh => ht hh.2)]
  · exact ⟨s, _, rfl, by simp, by simp, by simp⟩

/-- C15. With ids taken as unbounded integers, in every session state reachable from the
initial fill by any sequence of commands the queue holds exactly 5 pieces, so it is never
empty.  Every command of the menu then runs to its end there, leaves the queue with 5 pieces
and prints neither "ERRO: Fila vazia." (the empty branch of `dequeue`), nor "AVISO: Fila esta
vazia!" (the rejection of menu option 2), nor "ERRO: Fila cheia ..." (an `enqueue` refused);
the initial fill itself prints no such line either. -/
theorem fila_sempre_cheia (s : Sessao) (h : AlcancavelIdeal s) :
    s.fila.contagem = 5 ∧
    (∃ a b c d e : Peca, conteudoFila s.fila = [some a, some b, some c, some d, some e]) ∧
    filaVazia s.fila = false ∧
    (∀ (opcao : Int) (r : Nat), ∃ s1 o, comandoIdeal s opcao r = some (s1, o) ∧
      s1.fila.contagem = 5 ∧ Mensagem.erroFilaVazia ∉ o ∧ Mensagem.avisoFilaVazia ∉ o ∧
      ∀ n : Int, Mensagem.erroFilaCheia n ∉ o) ∧
    (∀ (fila : FilaCircular) (pilha : PilhaLinear) (rand : Nat → Nat),
      fila.itens.length = 5 → pilha.itens.length = 3 →
      ∃ s0, iniciarIdeal fila pilha rand = some (s0, [Mensagem.iniciando]) ∧
        s0.fila.contagem = 5) := by
  have hok := alcancavelIdeal_ok s h
  obtain ⟨hf, h5, hp, hid, hv⟩ := hok
  refine ⟨h5, ?_, by simp [filaVazia, h5], ?_, ?_⟩
  · have hlen := conteudoFila_length s.fila
    rw [h5] at hlen
    have hsome := conteudoFila_some s.fila hf
    match hc : conteudoFila s.fila, hlen, hsome with
    | [x1, x2, x3, x4, x5], _, hs =>
      obtain ⟨a, rfl⟩ := hs x1 (by simp)
      obtain ⟨b, rfl⟩ := hs x2 (by simp)
      obtain ⟨c, rfl⟩ := hs x3 (by simp)
      obtain ⟨d, rfl⟩ := hs x4 (by simp)
      obtain ⟨e, rfl⟩ := hs x5 (by simp)
      exact ⟨a, b, c, d, e, rfl⟩
  · intro opcao r
    obtain ⟨s1, o, hrun, h1, h2, h3⟩ :=
      comandoCom_saida gerarPecaIdeal s ⟨hf, h5, hp, hid, hv⟩ opcao r
    exact ⟨s1, o, hrun, (comandoIdeal_ok s opcao r s1 o ⟨hf, h5, hp, hid, hv⟩ hrun).2.1, h1,
      h2, h3⟩
  · intro fila pilha rand hlf hlp
    obtain ⟨s0, hrun, _, hc, _⟩ := iniciarIdeal_efeito fila pilha rand hlf hlp
    exact ⟨s0, hrun, hc⟩

/-- C15 at `sessaoReservaExemplo`. -/
theorem fila_sempre_cheia_witness :
    AlcancavelIdeal sessaoReservaExemplo ∧
    (sessaoReservaExemplo.fila.contagem = 5 ∧
      (∃ a b c d e : Peca, conteudoFila sessaoReservaExemplo.fila =
        [some a, some b, some c, some d, some e]) ∧
      filaVazia sessaoReservaExemplo.fila = false ∧
      (∀ (opcao : Int) (r : Nat), ∃ s1 o,
        comandoIdeal sessaoReservaExemplo opcao r = some (s1, o) ∧
        s1.fila.contagem = 5 ∧ Mensagem.erroFilaVazia ∉ o ∧ Mensagem.avisoFilaVazia ∉ o ∧
        ∀ n : Int, Mensagem.erroFilaCheia n ∉ o) ∧
      (∀ (fila : FilaCircular) (pilha : PilhaLinear) (rand : Nat → Nat),
        fila.itens.length = 5 → pilha.itens.length = 3 →
        ∃ s0, iniciarIdeal fila pilha rand = some (s0, [Mensagem.iniciando]) ∧
          s0.fila.contagem = 5)) :=
  ⟨sessaoReservaExemplo_alcancavel.2,
    fila_sempre_cheia sessaoReservaExemplo sessaoReservaExemplo_alcancavel.2⟩

/-! ### The session once the 32-bit counter has wrapped -/

/-- One more run of menu option 1. -/
theorem aposJogadas_succ (k : Nat) :
    aposJogadas (k + 1) = (aposJogadas k).bind (fun s => (comando s 1 0).map Prod.fst) :=
  rfl

/-- The program's session after the initial fill and `k` runs of menu option 1, for `k` up to
4294967294 (`rand()` returning 0, type `I`, every time): the queue holds the five pieces
generated last, whose ids are the 32-bit values of `k + 1, ..., k + 5`, the stack is empty,
and the counter holds the 32-bit value of `k + 6`. -/
theorem aposJogadas_efeito (k : Nat) (hk : k ≤ 4294967294) :
    ∃ s, aposJogadas k = some s ∧ Alcancavel s ∧ FilaOk s.fila ∧ s.fila.contagem = 5 ∧
      conteudoFila s.fila = [some ⟨'I', comoInt ((k : Int) + 1)⟩,
        some ⟨'I', comoInt ((k : Int) + 2)⟩, some ⟨'I', comoInt ((k : Int) + 3)⟩,
        some ⟨'I', comoInt ((k : Int) + 4)⟩, some ⟨'I', comoInt ((k : Int) + 5)⟩] ∧
      conteudoPilha s.pilha = [] ∧ s.id_sequencial = comoInt ((k : Int) + 6) := by
  induction k with
  | zero =>
    obtain ⟨s, hrun, hok, h5, _, hcont, _, hpc, _, hid⟩ :=
      iniciar_efeito filaExemplo pilhaExemplo (fun _ => 0) (by decide) (by decide)
    refine ⟨s, by simp [aposJogadas, hrun],
      AlcancavelCom.inicial filaExemplo pilhaExemplo (fun _ => 0) s _ (by decide) (by decide)
        hrun, hok, h5, ?_, hpc, ?_⟩
    · rw [hcont]; decide
    · rw [hid]; decide
  | succ k ih =>
    obtain ⟨s, hap, hs, hok, h5, hcont, hpc, hid⟩ := ih (by omega)
    have hfrente : ∀ x, ler s.fila.itens s.fila.inicio = some x → x.id ≠ -1 := by
      intro x hx
      have hc := frente_conteudo s.fila hok (by omega) x hx
      rw [hcont] at hc
      simp only [List.cons.injEq, Option.some.injEq] at hc
      rw [← hc.1]
      show comoInt ((k : Int) + 1) ≠ -1
      unfold comoInt
      omega
    obtain ⟨s1, x, hrun, _, h51, hok1, hcont1, hpil, hid1⟩ :=
      casoJogarCom_efeito gerarPeca s 0 hok h5 hfrente
    have hcmd : comando s 1 0 = casoJogarCom gerarPeca s 0 := by simp [comando, comandoCom]
    refine ⟨s1, by simp [aposJogadas, hap, hcmd, hrun],
      AlcancavelCom.passo s 1 0 s1 _ hs (hcmd ▸ hrun), hok1, h51, ?_, by rw [hpil]; exact hpc,
      ?_⟩
    · rw [hcont1, hcont, hid]
      have e : ((k + 1 : Nat) : Int) = (k : Int) + 1 := by push_cast; ring
      rw [e]
      have e1 : (k : Int) + 1 + 1 = (k : Int) + 2 := by ring
      have e2 : (k : Int) + 1 + 2 = (k : Int) + 3 := by ring
      have e3 : (k : Int) + 1 + 3 = (k : Int) + 4 := by ring
      have e4 : (k : Int) + 1 + 4 = (k : Int) + 5 := by ring
      have e5 : (k : Int) + 1 + 5 = (k : Int) + 6 := by ring
      rw [e1, e2, e3, e4, e5]
      rfl
    · rw [hid1, hid]
      show incrementar (comoInt ((k : Int) + 6)) = comoInt (((k + 1 : Nat) : Int) + 6)
      have e : ((k + 1 : Nat) : Int) + 6 = (k : Int) + 6 + 1 := by omega
      rw [incrementar_comoInt, e]

/-- C15 as stated fails: the state the program is in after the initial fill and 4294967295
runs of menu option 1 is reachable and its queue holds 4 pieces, not 5.  The run before the
last left the piece generated with the id -1 at the front, and menu option 1 does not refill
the queue after removing it.  So it is not in every reachable state that the queue holds 5
pieces. -/
theorem fila_com_quatro :
    (∃ s, aposJogadas 4294967295 = some s ∧ Alcancavel s ∧ s.fila.contagem = 4 ∧
      conteudoFila s.fila = [some ⟨'I', 0⟩, some ⟨'I', 1⟩, some ⟨'I', 2⟩, some ⟨'I', 3⟩]) ∧
    ¬ ∀ s, Alcancavel s → s.fila.contagem = 5 := by
  have hex : ∃ s, aposJogadas 4294967295 = some s ∧ Alcancavel s ∧ s.fila.contagem = 4 ∧
      conteudoFila s.fila = [some ⟨'I', 0⟩, some ⟨'I', 1⟩, some ⟨'I', 2⟩, some ⟨'I', 3⟩] := by
    obtain ⟨s, hap, hs, hok, h5, hcont, _, _⟩ := aposJogadas_efeito 4294967294 (by omega)
    have hcont2 : conteudoFila s.fila = [some ⟨'I', -1⟩, some ⟨'I', 0⟩, some ⟨'I', 1⟩,
        some ⟨'I', 2⟩, some ⟨'I', 3⟩] := by
      rw [hcont]; decide
    obtain ⟨s1, hrun, hc1, _, hcont1, _, _⟩ :=
      casoJogarCom_sentinela gerarPeca s 0 hok (by omega) ⟨'I', -1⟩ (by rw [hcont2]; rfl) rfl
    have hcmd : comando s 1 0 = casoJogarCom gerarPeca s 0 := by simp [comando, comandoCom]
    refine ⟨s1, ?_, AlcancavelCom.passo s 1 0 s1 _ hs (hcmd ▸ hrun), by rw [hc1, h5]; rfl, ?_⟩
    · show aposJogadas (4294967294 + 1) = some s1
      rw [aposJogadas_succ, hap]
      simp [hcmd, hrun]
    · rw [hcont1, hcont2]; rfl
  refine ⟨hex, ?_⟩
  intro hall
  obtain ⟨s, _, hs, h4, _⟩ := hex
  have := hall s hs
  omega

/-! ### The display traversals -/

/-- The traversal of `mostrarFila` reads the pieces that successive `dequeue` calls return:
for every queue and every number `n` of pieces, whether or not the indices are in range. -/
theorem percorrerFila_dequeue (n : Nat) :
    ∀ f : FilaCircular, f.contagem.toNat = n →
      (executarFila f (List.replicate n Chamada.remover)).map (fun r => r.2) =
        (percorrerFila f.itens n f.inicio).map (fun xs => xs.map Efeito.saiu) := by
  induction n with
  | zero => intro f _; rfl
  | succ n ih =>
    intro f hn
    have hc : f.contagem ≠ 0 := by omega
    have hv : filaVazia f = false := by
      simp only [filaVazia, beq_eq_false_iff_ne, ne_eq]; exact hc
    cases hl : ler f.itens f.inicio with
    | none =>
      simp [List.replicate_succ, executarFila, chamarFila, dequeue, hv, hl, percorrerFila]
    | some x =>
      have hd := dequeue_valor f x hc hl
      have hn1 : ({ f with inicio := Int.tmod (f.inicio + 1) 5,
                           contagem := f.contagem - 1 } : FilaCircular).contagem.toNat = n := by
        simp only; omega
      have h := ih _ hn1
      simp only [List.replicate_succ, executarFila, chamarFila, hd, hv, percorrerFila, hl,
        CAPACIDADE_FILA] at h ⊢
      cases hrun : executarFila { f with inicio := Int.tmod (f.inicio + 1) 5,
                                         contagem := f.contagem - 1 }
          (List.replicate n Chamada.remover) with
      | none =>
        rw [hrun] at h
        cases hp : percorrerFila f.itens n (Int.tmod (f.inicio + 1) 5) with
        | none => simp
        | some xs => rw [hp] at h; simp at h
      | some res =>
        rw [hrun] at h
        cases hp : percorrerFila f.itens n (Int.tmod (f.inicio + 1) 5) with
        | none => rw [hp] at h; simp at h
        | some xs =>
          rw [hp] at h
          simp only [Option.map_some', Option.some.injEq] at h
          simp [h]

/-- The traversal of `mostrarPilha` reads the pieces that successive `pop` calls return: for
every stack and every number `n` of pieces, whether or not `topo` is in range. -/
theorem percorrerPilha_pop (n : Nat) :
    ∀ p : PilhaLinear, (p.topo + 1).toNat = n →
      (executarPilha p (List.replicate n Chamada.remover)).map (fun r => r.2) =
        (percorrerPilha p.itens n p.topo).map (fun xs => xs.map Efeito.saiu) := by
  induction n with
  | zero => intro p _; rfl
  | succ n ih =>
    intro p hn
    have hc : p.topo ≠ -1 := by omega
    have hv : pilhaVazia p = false := by
      simp only [pilhaVazia, beq_eq_false_iff_ne, ne_eq]; exact hc
    cases hl : ler p.itens p.topo with
    | none =>
      simp [List.replicate_succ, executarPilha, chamarPilha, pop, hv, hl, percorrerPilha]
    | some x =>
      have hn1 : (({ p with topo := p.topo - 1 } : PilhaLinear).topo + 1).toNat = n := by
        simp only; omega
      have h := ih _ hn1
      simp only [List.replicate_succ, executarPilha, chamarPilha, pop, hv, percorrerPilha, hl,
        Bool.false_eq_true, if_false] at h ⊢
      cases hrun : executarPilha { p with topo := p.topo - 1 }
          (List.replicate n Chamada.remover) with
      | none =>
        rw [hrun] at h
        cases hp : percorrerPilha p.itens n (p.topo - 1) with
        | none => simp
        | some xs => rw [hp] at h; simp at h
      | some res =>
        rw [hrun] at h
        cases hp : percorrerPilha p.itens n (p.topo - 1) with
        | none => rw [hp] at h; simp at h
        | some xs =>
          rw [hp] at h
          simp only [Option.map_some', Option.some.injEq] at h
          simp [h]

/-- On a well-formed queue the traversal of `mostrarFila` reads every logical position within
the array and visits the contents front first. -/
theorem percorrerFila_conteudo (n : Nat) :
    ∀ f : FilaCircular, FilaOk f → f.contagem.toNat = n →
      ∃ xs, percorrerFila f.itens n f.inicio = some xs ∧ xs.map some = conteudoFila f := by
  induction n with
  | zero =>
    intro f _ hn
    exact ⟨[], rfl, by simp [conteudoFila, hn]⟩
  | succ n ih =>
    intro f hok hn
    have hc : f.contagem ≠ 0 := by omega
    obtain ⟨x, f1, hd, hok1, hc1, hit, _, hcont⟩ :=
      dequeue_conteudo f hok (by have := hok.2.2.2.1; omega)
    obtain ⟨y, hy⟩ := ler_dentro f.itens f.inicio hok.2.1
      (by rw [hok.1]; exact_mod_cast hok.2.2.1)
    rw [dequeue_valor f y hc hy] at hd
    simp only [Option.some.injEq, Prod.mk.injEq] at hd
    obtain ⟨rfl, rfl, _⟩ := hd
    obtain ⟨xs, hxs, hmap⟩ := ih _ hok1 (by simp only; omega)
    simp only at hxs
    refine ⟨y :: xs, ?_, ?_⟩
    · simp [percorrerFila, hy, CAPACIDADE_FILA, hxs]
    · rw [hcont, List.map_cons, hmap]

/-- On a well-formed stack the traversal of `mostrarPilha` reads every stored position within
the array and visits the contents top first. -/
theorem percorrerPilha_conteudo (n : Nat) :
    ∀ p : PilhaLinear, PilhaOk p → (p.topo + 1).toNat = n →
      ∃ xs, percorrerPilha p.itens n p.topo = some xs ∧
        xs.reverse.map some = conteudoPilha p := by
  induction n with
  | zero =>
    intro p _ hn
    exact ⟨[], rfl, by simp [conteudoPilha, hn]⟩
  | succ n ih =>
    intro p hok hn
    have hc : p.topo ≠ -1 := by omega
    have hv : pilhaVazia p = false := by
      simp only [pilhaVazia, beq_eq_false_iff_ne, ne_eq]; exact hc
    obtain ⟨x, p1, hd, hok1, hc1, hit, hcont⟩ :=
      pop_conteudo p hok (by have := hok.2.1; omega)
    obtain ⟨y, hy⟩ := ler_dentro p.itens p.topo (by have := hok.2.1; omega)
      (by rw [hok.1]; exact_mod_cast hok.2.2)
    simp only [pop, hv, hy, Bool.false_eq_true, if_false, Option.some.injEq,
      Prod.mk.injEq] at hd
    obtain ⟨rfl, rfl, _⟩ := hd
    obtain ⟨xs, hxs, hmap⟩ := ih _ hok1 (by simp only; omega)
    simp only at hxs
    refine ⟨y :: xs, ?_, ?_⟩
    · simp [percorrerPilha, hy, hxs]
    · rw [hcont, List.reverse_cons, List.map_append, hmap]; rfl

/-- Whatever `mostrarFila` returns, the queue is the one it received. -/
theorem mostrarFila_mesma (f f1 : FilaCircular) (o : List Mensagem)
    (h : mostrarFila f = some (f1, o)) : f1 = f := by
  unfold mostrarFila at h
  split at h
  · simp only [Option.some.injEq, Prod.mk.injEq] at h
    exact h.1.symm
  · split at h
    · exact Option.noConfusion h
    · simp only [Option.some.injEq, Prod.mk.injEq] at h
      exact h.1.symm

/-- Whatever `mostrarPilha` returns, the stack is the one it received. -/
theorem mostrarPilha_mesma (p p1 : PilhaLinear) (o : List Mensagem)
    (h : mostrarPilha p = some (p1, o)) : p1 = p := by
  unfold mostrarPilha at h
  split at h
  · simp only [Option.some.injEq, Prod.mk.injEq] at h
    exact h.1.symm
  · split at h
    · exact Option.noConfusion h
    · simp only [Option.some.injEq, Prod.mk.injEq] at h
      exact h.1.symm

/-- C16. For every queue, the pieces the loop of `mostrarFila` visits (`contagem` pieces from
`inicio`, stepping `(i + 1) % 5`) are the pieces that `contagem` successive `dequeue` calls
return, and for every stack the pieces the loop of `mostrarPilha` visits (from `topo` down to
0) are the pieces that `topo + 1` successive `pop` calls return.  On a well-formed queue or
stack the traversal stays within the array, visits exactly the contents (front first, top
first) and prints them.  Both display functions return the container they received, so a
second call prints the same text; `filaVazia`, `filaCheia`, `pilhaVazia` and `pilhaCheia` are
values computed from the container and have the same value before and after. -/
theorem percursos_sem_efeito (f : FilaCircular) (p : PilhaLinear) :
    ((executarFila f (List.replicate f.contagem.toNat Chamada.remover)).map (fun r => r.2) =
      (percorrerFila f.itens f.contagem.toNat f.inicio).map (fun xs => xs.map Efeito.saiu)) ∧
    ((executarPilha p (List.replicate (p.topo + 1).toNat Chamada.remover)).map (fun r => r.2) =
      (percorrerPilha p.itens (p.topo + 1).toNat p.topo).map
        (fun xs => xs.map Efeito.saiu)) ∧
    (FilaOk f → ∃ xs, percorrerFila f.itens f.contagem.toNat f.inicio = some xs ∧
      xs.map some = conteudoFila f ∧
      mostrarFila f = some (f,
        if f.contagem = 0 then [Mensagem.cabecalhoFila, Mensagem.listaVazia]
        else [Mensagem.cabecalhoFila, Mensagem.abreLista]
          ++ xs.map (fun x => Mensagem.item x.id x.tipo) ++ [Mensagem.fechaLista])) ∧
    (PilhaOk p → ∃ xs, percorrerPilha p.itens (p.topo + 1).toNat p.topo = some xs ∧
      xs.reverse.map some = conteudoPilha p ∧
      mostrarPilha p = some (p,
        if p.topo = -1 then [Mensagem.cabecalhoPilha, Mensagem.listaVazia]
        else [Mensagem.cabecalhoPilha, Mensagem.abreLista]
          ++ xs.map (fun x => Mensagem.item x.id x.tipo) ++ [Mensagem.fechaLista])) ∧
    (∀ f1 o, mostrarFila f = some (f1, o) → f1 = f ∧ mostrarFila f1 = some (f1, o) ∧
      filaVazia f1 = filaVazia f ∧ filaCheia f1 = filaCheia f) ∧
    (∀ p1 o, mostrarPilha p = some (p1, o) → p1 = p ∧ mostrarPilha p1 = some (p1, o) ∧
      pilhaVazia p1 = pilhaVazia p ∧ pilhaCheia p1 = pilhaCheia p) := by
  refine ⟨percorrerFila_dequeue _ f rfl, percorrerPilha_pop _ p rfl, ?_, ?_, ?_, ?_⟩
  · intro hok
    obtain ⟨xs, hxs, hmap⟩ := percorrerFila_conteudo _ f hok rfl
    refine ⟨xs, hxs, hmap, ?_⟩
    by_cases hc : f.contagem = 0
    · simp [mostrarFila, filaVazia, hc]
    · simp [mostrarFila, filaVazia, hc, hxs]
  · intro hok
    obtain ⟨xs, hxs, hmap⟩ := percorrerPilha_conteudo _ p hok rfl
    refine ⟨xs, hxs, hmap, ?_⟩
    by_cases hc : p.topo = -1
    · simp [mostrarPilha, pilhaVazia, hc]
    · simp [mostrarPilha, pilhaVazia, hc, hxs]
  · intro f1 o h
    have := mostrarFila_mesma f f1 o h
    subst this
    exact ⟨rfl, h, rfl, rfl⟩
  · intro p1 o h
    have := mostrarPilha_mesma p p1 o h
    subst this
    exact ⟨rfl, h, rfl, rfl⟩

/-- C16 at `filaTresExemplo` (head at slot 1) and `pilhaDoisExemplo`. -/
theorem percursos_sem_efeito_witness :
    (FilaOk filaTresExemplo ∧
      ∃ xs, percorrerFila filaTresExemplo.itens filaTresExemplo.contagem.toNat
          filaTresExemplo.inicio = some xs ∧
        xs.map some = conteudoFila filaTresExemplo ∧
        mostrarFila filaTresExemplo = some (filaTresExemplo,
          if filaTresExemplo.contagem = 0 then [Mensagem.cabecalhoFila, Mensagem.listaVazia]
          else [Mensagem.cabecalhoFila, Mensagem.abreLista]
            ++ xs.map (fun x => Mensagem.item x.id x.tipo) ++ [Mensagem.fechaLista])) ∧
    (PilhaOk pilhaDoisExemplo ∧
      ∃ xs, percorrerPilha pilhaDoisExemplo.itens (pilhaDoisExemplo.topo + 1).toNat
          pilhaDoisExemplo.topo = some xs ∧
        xs.reverse.map some = conteudoPilha pilhaDoisExemplo ∧
        mostrarPilha pilhaDoisExemplo = some (pilhaDoisExemplo,
          if pilhaDoisExemplo.topo = -1 then [Mensagem.cabecalhoPilha, Mensagem.listaVazia]
          else [Mensagem.cabecalhoPilha, Mensagem.abreLista]
            ++ xs.map (fun x => Mensagem.item x.id x.tipo) ++ [Mensagem.fechaLista])) ∧
    (mostrarFila filaTresExemplo = some (filaTresExemplo,
        [Mensagem.cabecalhoFila, Mensagem.abreLista, Mensagem.item 2 'O',
          Mensagem.item 3 'T', Mensagem.item 4 'S', Mensagem.fechaLista]) ∧
      filaTresExemplo = filaTresExemplo ∧
      mostrarFila filaTresExemplo = some (filaTresExemplo,
        [Mensagem.cabecalhoFila, Mensagem.abreLista, Mensagem.item 2 'O',
          Mensagem.item 3 'T', Mensagem.item 4 'S', Mensagem.fechaLista]) ∧
      filaVazia filaTresExemplo = filaVazia filaTresExemplo ∧
      filaCheia filaTresExemplo = filaCheia filaTresExemplo) :=
  ⟨⟨by decide, (percursos_sem_efeito filaTresExemplo pilhaDoisExemplo).2.2.1 (by decide)⟩,
   ⟨by decide, (percursos_sem_efeito filaTresExemplo pilhaDoisExemplo).2.2.2.1 (by decide)⟩,
   ⟨by decide, (percursos_sem_efeito filaTresExemplo pilhaDoisExemplo).2.2.2.2.1
      filaTresExemplo _ (by decide)⟩⟩

/-- The text `mostrarFila` and `mostrarPilha` print for `filaTresExemplo` and
`pilhaDoisExemplo`, evaluated, next to what the removals return. -/
theorem percursos_exemplo :
    (mostrarFila filaTresExemplo).map (fun r => r.2) =
      some [Mensagem.cabecalhoFila, Mensagem.abreLista, Mensagem.item 2 'O',
        Mensagem.item 3 'T', Mensagem.item 4 'S', Mensagem.fechaLista] ∧
    (executarFila filaTresExemplo (List.replicate 3 Chamada.remover)).map (fun r => r.2) =
      some [Efeito.saiu ⟨'O', 2⟩, Efeito.saiu ⟨'T', 3⟩, Efeito.saiu ⟨'S', 4⟩] ∧
    (mostrarPilha pilhaDoisExemplo).map (fun r => r.2) =
      some [Mensagem.cabecalhoPilha, Mensagem.abreLista, Mensagem.item 10 'L',
        Mensagem.item 9 'J', Mensagem.fechaLista] ∧
    (executarPilha pilhaDoisExemplo (List.replicate 2 Chamada.remover)).map (fun r => r.2) =
      some [Efeito.saiu ⟨'L', 10⟩, Efeito.saiu ⟨'J', 9⟩] := by
  decide

/-! ### The exchanges are involutions -/

/-- Writing back the piece a slot already holds leaves the array as it is. -/
theorem set_set_ler (a : List Peca) (i : Int) (A B : Peca) (h : ler a i = some A) :
    (a.set i.toNat B).set i.toNat A = a := by
  obtain ⟨h0, h1⟩ := ler_some_dentro _ _ _ h
  apply ler_ext
  intro j
  by_cases hj : j = i
  · subst hj
    rw [ler_set_mesmo _ _ _ h0 (by simpa using h1), h]
  · rw [ler_set_outro _ _ _ _ h0 hj, ler_set_outro _ _ _ _ h0 hj]

/-- Whenever `trocarFrenteTopo` returns, a second call on what it returned gives back the
queue and the stack of the first call. -/
theorem trocarFrenteTopo_duas (f : FilaCircular) (p : PilhaLinear) (f1 : FilaCircular)
    (p1 : PilhaLinear) (o : List Mensagem) (h : trocarFrenteTopo f p = some (f1, p1, o)) :
    ∃ o1, trocarFrenteTopo f1 p1 = some (f, p, o1) := by
  by_cases hc : f.contagem = 0 ∨ p.topo = -1
  · rw [trocarFrenteTopo_recusa f p hc] at h
    simp only [Option.some.injEq, Prod.mk.injEq] at h
    obtain ⟨rfl, rfl, _⟩ := h
    exact ⟨_, trocarFrenteTopo_recusa f p hc⟩
  · push_neg at hc
    have hcond : (filaVazia f || pilhaVazia p) = false := by
      simp [filaVazia, pilhaVazia, hc.1, hc.2]
    cases hA : ler f.itens f.inicio with
    | none => simp [trocarFrenteTopo, hcond, hA] at h
    | some A =>
      cases hB : ler p.itens p.topo with
      | none => simp [trocarFrenteTopo, hcond, hA, hB] at h
      | some B =>
        rw [trocarFrenteTopo_valor f p A B hc.1 hc.2 hA hB] at h
        simp only [Option.some.injEq, Prod.mk.injEq] at h
        obtain ⟨rfl, rfl, _⟩ := h
        obtain ⟨hi0, hi1⟩ := ler_some_dentro _ _ _ hA
        obtain ⟨ht0, ht1⟩ := ler_some_dentro _ _ _ hB
        have h2 := trocarFrenteTopo_valor { f with itens := f.itens.set f.inicio.toNat B }
          { p with itens := p.itens.set p.topo.toNat A } B A hc.1 hc.2
          (ler_set_mesmo _ _ _ hi0 hi1) (ler_set_mesmo _ _ _ ht0 ht1)
        simp only [set_set_ler _ _ _ _ hA, set_set_ler _ _ _ _ hB] at h2
        exact ⟨_, h2⟩

/-- On arrays of the declared sizes with the head in range, a second call of
`trocarTresComPilha` gives back the queue and the stack of the first call. -/
theorem trocarTresComPilha_duas (f : FilaCircular) (p : PilhaLinear)
    (hf : f.itens.length = 5) (hp : p.itens.length = 3) (h0 : 0 ≤ f.inicio)
    (h1 : f.inicio < 5) :
    ∃ f1 p1 o o1, trocarTresComPilha f p = some (f1, p1, o) ∧
      trocarTresComPilha f1 p1 = some (f, p, o1) := by
  by_cases hc : 3 ≤ f.contagem ∧ p.topo = 2
  · obtain ⟨f1, p1, hrun, htroca, hresto, hlf, hlp, hi, hfim, hcont, htopo⟩ :=
      trocarTresComPilha_efeito f p hf hp h0 h1 hc.1 hc.2
    obtain ⟨f2, p2, hrun2, htroca2, hresto2, hlf2, hlp2, hi2, hfim2, hcont2, htopo2⟩ :=
      trocarTresComPilha_efeito f1 p1 hlf hlp (by rw [hi]; exact h0) (by rw [hi]; exact h1)
        (by rw [hcont]; exact hc.1) (by rw [htopo]; exact hc.2)
    have hfi : f2.itens = f.itens := by
      apply ler_ext
      intro j
      by_cases hj : ∀ i : Nat, i < 3 → j ≠ Int.tmod (f.inicio + (i : Int)) 5
      · rw [hresto2 j (by rw [hi]; exact hj), hresto j hj]
      · push_neg at hj
        obtain ⟨i, hi3, rfl⟩ := hj
        obtain ⟨a, b, ha, hb, ha1, hb1⟩ := htroca i hi3
        obtain ⟨a', b', ha', hb', ha1', hb1'⟩ := htroca2 i hi3
        rw [hi] at ha' ha1'
        rw [ha1', ha, ← hb1, hb']
    have hpi : p2.itens = p.itens := by
      apply ler_ext
      intro j
      by_cases hj : 0 ≤ j ∧ j < 3
      · obtain ⟨i, rfl⟩ := Int.eq_ofNat_of_zero_le hj.1
        have hi3 : i < 3 := by omega
        obtain ⟨a, b, ha, hb, ha1, hb1⟩ := htroca i hi3
        obtain ⟨a', b', ha', hb', ha1', hb1'⟩ := htroca2 i hi3
        rw [hi] at ha' ha1'
        rw [hb1', hb, ← ha1, ha']
      · rw [ler_fora _ j (by rw [hlp2]; exact hj), ler_fora _ j (by rw [hp]; exact hj)]
    have ef : f2 = f := by
      cases f2; cases f; simp_all
    have ep : p2 = p := by
      cases p2; cases p; simp_all
    rw [ef, ep] at hrun2
    exact ⟨f1, p1, _, _, hrun, hrun2⟩
  · exact ⟨f, p, _, _, trocarTresComPilha_recusa f p hc, trocarTresComPilha_recusa f p hc⟩

/-- C17. For every queue and stack over arrays of the declared sizes whose `inicio` and `topo`
are in range (so that no call indexes outside an array), `trocarFrenteTopo` applied twice in
a row returns both containers exactly as they were, and so does `trocarTresComPilha` applied
twice in a row, whether the precondition of the call holds or not.  For `trocarFrenteTopo`
this holds of every queue and stack on which the first call returns at all. -/
theorem trocas_involutivas (f : FilaCircular) (p : PilhaLinear) (hf : f.itens.length = 5)
    (hp : p.itens.length = 3) (h0 : 0 ≤ f.inicio) (h1 : f.inicio ≤ 4) (h2 : -1 ≤ p.topo)
    (h3 : p.topo ≤ 2) :
    (∃ f1 p1 o o1, trocarFrenteTopo f p = some (f1, p1, o) ∧
      trocarFrenteTopo f1 p1 = some (f, p, o1)) ∧
    (∃ f1 p1 o o1, trocarTresComPilha f p = some (f1, p1, o) ∧
      trocarTresComPilha f1 p1 = some (f, p, o1)) ∧
    (∀ (g : FilaCircular) (q : PilhaLinear) (g1 : FilaCircular) (q1 : PilhaLinear)
      (o : List Mensagem), trocarFrenteTopo g q = some (g1, q1, o) →
      ∃ o1, trocarFrenteTopo g1 q1 = some (g, q, o1)) := by
  refine ⟨?_, trocarTresComPilha_duas f p hf hp h0 (by omega), trocarFrenteTopo_duas⟩
  have hprim : ∃ f1 p1 o, trocarFrenteTopo f p = some (f1, p1, o) := by
    by_cases hc : f.contagem = 0 ∨ p.topo = -1
    · exact ⟨f, p, _, trocarFrenteTopo_recusa f p hc⟩
    · push_neg at hc
      obtain ⟨A, hA⟩ := ler_dentro f.itens f.inicio h0 (by rw [hf]; push_cast; omega)
      obtain ⟨B, hB⟩ := ler_dentro p.itens p.topo (by omega) (by rw [hp]; push_cast; omega)
      exact ⟨_, _, _, trocarFrenteTopo_valor f p A B hc.1 hc.2 hA hB⟩
  obtain ⟨f1, p1, o, hrun⟩ := hprim
  obtain ⟨o1, hrun1⟩ := trocarFrenteTopo_duas f p f1 p1 o hrun
  exact ⟨f1, p1, o, o1, hrun, hrun1⟩

/-- C17 at `filaCheiaExemplo` (head at slot 4) and `pilhaCheiaExemplo`. -/
theorem trocas_involutivas_witness :
    (filaCheiaExemplo.itens.length = 5 ∧ pilhaCheiaExemplo.itens.length = 3 ∧
      0 ≤ filaCheiaExemplo.inicio ∧ filaCheiaExemplo.inicio ≤ 4 ∧
      -1 ≤ pilhaCheiaExemplo.topo ∧ pilhaCheiaExemplo.topo ≤ 2) ∧
    ((∃ f1 p1 o o1, trocarFrenteTopo filaCheiaExemplo pilhaCheiaExemplo = some (f1, p1, o) ∧
        trocarFrenteTopo f1 p1 = some (filaCheiaExemplo, pilhaCheiaExemplo, o1)) ∧
      (∃ f1 p1 o o1, trocarTresComPilha filaCheiaExemplo pilhaCheiaExemplo =
          some (f1, p1, o) ∧
        trocarTresComPilha f1 p1 = some (filaCheiaExemplo, pilhaCheiaExemplo, o1)) ∧
      (∀ (g : FilaCircular) (q : PilhaLinear) (g1 : FilaCircular) (q1 : PilhaLinear)
        (o : List Mensagem), trocarFrenteTopo g q = some (g1, q1, o) →
        ∃ o1, trocarFrenteTopo g1 q1 = some (g, q, o1))) :=
  ⟨by decide, trocas_involutivas filaCheiaExemplo pilhaCheiaExemplo (by decide) (by decide)
    (by decide) (by decide) (by decide) (by decide)⟩

/-! ### Conservation and uniqueness of the pieces -/

/-- Exchanging one entry of a list for one entry of another keeps the entries of the two
lists taken together. -/
theorem perm_troca_um (x y : Option Peca) (t u : List (Option Peca)) :
    ((y :: t) ++ (u ++ [x])).Perm ((x :: t) ++ (u ++ [y])) := by
  rw [List.perm_iff_count]
  intro z
  simp only [List.count_append, List.count_cons, List.count_nil]
  split_ifs <;> omega

/-- Exchanging a block of a list for another list keeps the entries of the two lists taken
together. -/
theorem perm_troca_bloco (a b d : List (Option Peca)) :
    ((b ++ d) ++ a).Perm ((a ++ d) ++ b) := by
  rw [List.perm_iff_count]
  intro z
  simp only [List.count_append]
  omega

/-- On well-formed containers `trocarFrenteTopo` returns, and the entries of queue and stack
taken together are the same before and after. -/
theorem trocarFrenteTopo_perm (f : FilaCircular) (p : PilhaLinear) (hf : FilaOk f)
    (hp : PilhaOk p) :
    ∃ f1 p1 o, trocarFrenteTopo f p = some (f1, p1, o) ∧ FilaOk f1 ∧ PilhaOk p1 ∧
      f1.contagem = f.contagem ∧ p1.topo = p.topo ∧
      (conteudoFila f1 ++ conteudoPilha p1).Perm (conteudoFila f ++ conteudoPilha p) := by
  by_cases hc : f.contagem = 0 ∨ p.topo = -1
  · exact ⟨f, p, _, trocarFrenteTopo_recusa f p hc, hf, hp, rfl, rfl, List.Perm.refl _⟩
  · push_neg at hc
    obtain ⟨f1, p1, x, y, hrun, hok1, hpok1, hc1, ht1, hx, hx1, hy, hy1⟩ :=
      trocarFrenteTopo_conteudo f p hf hp (by have := hf.2.2.2.1; omega)
        (by have := hp.2.1; omega)
    refine ⟨f1, p1, _, hrun, hok1, hpok1, hc1, ht1, ?_⟩
    rw [hx1, hy1]
    have := perm_troca_um (some x) (some y) (conteudoFila f).tail
      (conteudoPilha { p with topo := p.topo - 1 })
    rw [← hx, ← hy] at this
    exact this

/-- On well-formed containers `trocarTresComPilha` returns, and the entries of queue and stack
taken together are the same before and after. -/
theorem trocarTresComPilha_perm (f : FilaCircular) (p : PilhaLinear) (hf : FilaOk f)
    (hp : PilhaOk p) :
    ∃ f1 p1 o, trocarTresComPilha f p = some (f1, p1, o) ∧ FilaOk f1 ∧ PilhaOk p1 ∧
      f1.contagem = f.contagem ∧ p1.topo = p.topo ∧
      (conteudoFila f1 ++ conteudoPilha p1).Perm (conteudoFila f ++ conteudoPilha p) := by
  by_cases hc : 3 ≤ f.contagem ∧ p.topo = 2
  · obtain ⟨f1, p1, a, b, c, x, y, z, hrun, hok1, hpok1, hc1, ht1, ha, ha1, hx, hx1⟩ :=
      trocarTresComPilha_conteudo f p hf hp hc.1 hc.2
    refine ⟨f1, p1, _, hrun, hok1, hpok1, hc1, ht1, ?_⟩
    rw [ha1, hx1]
    have e : conteudoFila f ++ conteudoPilha p =
        ([some a, some b, some c] ++ (conteudoFila f).drop 3) ++ [some x, some y, some z] := by
      rw [hx, ← ha]
    rw [e]
    exact perm_troca_bloco [some a, some b, some c] [some x, some y, some z]
      ((conteudoFila f).drop 3)
  · exact ⟨f, p, _, trocarTresComPilha_recusa f p hc, hf, hp, rfl, rfl, List.Perm.refl _⟩

/-- Distinct ids below a bound stay so under a rearrangement of the entries. -/
theorem unica_perm (l l1 : List (Option Peca)) (m : Int) (hp : l1.Perm l)
    (h : (l.map (Option.map Peca.id)).Nodup ∧ ∀ x ∈ l, ∀ q ∈ x, q.id < m) :
    (l1.map (Option.map Peca.id)).Nodup ∧ ∀ x ∈ l1, ∀ q ∈ x, q.id < m :=
  ⟨((hp.map _).nodup_iff).mpr h.1, fun x hx q hq => h.2 x (hp.mem_iff.mp hx) q hq⟩

/-- Distinct ids below a bound stay so when an entry is taken away. -/
theorem unica_tira (x : Option Peca) (l : List (Option Peca)) (m : Int)
    (h : ((x :: l).map (Option.map Peca.id)).Nodup ∧ ∀ y ∈ x :: l, ∀ q ∈ y, q.id < m) :
    (l.map (Option.map Peca.id)).Nodup ∧ ∀ y ∈ l, ∀ q ∈ y, q.id < m := by
  refine ⟨?_, fun y hy q hq => h.2 y (List.mem_cons_of_mem _ hy) q hq⟩
  have := h.1
  rw [List.map_cons, List.nodup_cons] at this
  exact this.2

/-- Distinct ids below `m` stay distinct, and below `m + 1`, when a piece of id `m` is
added. -/
theorem unica_poe (n : Peca) (l : List (Option Peca)) (m : Int) (hn : n.id = m)
    (h : (l.map (Option.map Peca.id)).Nodup ∧ ∀ y ∈ l, ∀ q ∈ y, q.id < m) :
    ((some n :: l).map (Option.map Peca.id)).Nodup ∧
      ∀ y ∈ some n :: l, ∀ q ∈ y, q.id < m + 1 := by
  constructor
  · rw [List.map_cons, List.nodup_cons]
    refine ⟨?_, h.1⟩
    intro hmem
    obtain ⟨y, hy, hyn⟩ := List.mem_map.mp hmem
    cases y with
    | none => simp at hyn
    | some q =>
      simp only [Option.map_some', Option.some.injEq] at hyn
      have := h.2 (some q) hy q rfl
      omega
  · intro y hy q hq
    rcases List.mem_cons.mp hy with rfl | hy
    · cases hq; omega
    · have := h.2 y hy q hq
      omega

/-- Appending an entry in the middle of a concatenation is, up to rearrangement, putting it
in front. -/
theorem perm_meio (n : Option Peca) (t u : List (Option Peca)) :
    ((t ++ [n]) ++ u).Perm (n :: (t ++ u)) := by
  rw [List.perm_iff_count]
  intro z
  simp only [List.count_append, List.count_cons, List.count_nil]
  split_ifs <;> omega

/-- Moving the front of one list to the back of another while appending a new entry to the
first is, up to rearrangement, putting the new entry in front. -/
theorem perm_reserva (n x : Option Peca) (t u : List (Option Peca)) :
    ((t ++ [n]) ++ (u ++ [x])).Perm (n :: ((x :: t) ++ u)) := by
  rw [List.perm_iff_count]
  intro z
  simp only [List.count_append, List.count_cons, List.count_nil]
  split_ifs <;> omega

/-- With ids taken as unbounded integers, the state after the initial fill has distinct ids
below the next id. -/
theorem iniciarIdeal_unica (fila : FilaCircular) (pilha : PilhaLinear) (rand : Nat → Nat)
    (s : Sessao) (o : List Mensagem) (hf : fila.itens.length = 5)
    (hp : pilha.itens.length = 3) (h : iniciarIdeal fila pilha rand = some (s, o)) :
    SessaoUnica s := by
  obtain ⟨s1, hrun, _, _, _, hcont, _, hpil, _, hid⟩ :=
    iniciarIdeal_efeito fila pilha rand hf hp
  rw [hrun] at h
  simp only [Option.some.injEq, Prod.mk.injEq] at h
  obtain ⟨rfl, _⟩ := h
  constructor
  · simp only [idsVivas, vivas, hcont, hpil, List.append_nil, List.map_cons, List.map_nil,
      Option.map_some', gerarPecaIdeal]
    decide
  · intro x hx q hq
    simp only [vivas, hcont, hpil, List.append_nil, List.mem_cons, List.not_mem_nil,
      or_false] at hx
    rw [hid]
    rcases hx with rfl | rfl | rfl | rfl | rfl <;>
      (cases hq; simp [gerarPecaIdeal])

/-- With ids taken as unbounded integers, menu option 1 keeps the ids distinct and below the
next id. -/
theorem casoJogarIdeal_unica (s : Sessao) (r : Nat) (s1 : Sessao) (o : List Mensagem)
    (hok : SessaoOk s) (hu : SessaoUnica s)
    (hc : casoJogarCom gerarPecaIdeal s r = some (s1, o)) : SessaoUnica s1 := by
  obtain ⟨hf, h5, hp, hid, hv⟩ := hok
  have hpecas : FilaDePecas s.fila := fun x hx q hq =>
    hv x (List.mem_append_left _ hx) q hq
  obtain ⟨s2, x, hrun, hx, _, _, hcont2, hpil, hid3⟩ :=
    casoJogarCom_efeito gerarPecaIdeal s r hf h5 (frente_peca s.fila hf (by omega) hpecas)
  have hid2 : s2.id_sequencial = s.id_sequencial + 1 := hid3
  rw [hrun] at hc
  simp only [Option.some.injEq, Prod.mk.injEq] at hc
  obtain ⟨rfl, _⟩ := hc
  have h0 : ((some x :: ((conteudoFila s.fila).tail ++ conteudoPilha s.pilha)).map
      (Option.map Peca.id)).Nodup ∧
      ∀ y ∈ some x :: ((conteudoFila s.fila).tail ++ conteudoPilha s.pilha),
        ∀ q ∈ y, q.id < s.id_sequencial := by
    have := hu
    simp only [SessaoUnica, idsVivas, vivas] at this
    rw [hx] at this
    exact this
  have h1 := unica_poe (gerarPecaIdeal r s.id_sequencial).1 _ s.id_sequencial rfl
    (unica_tira _ _ _ h0)
  have h2 := unica_perm _ _ _ (perm_meio (some (gerarPecaIdeal r s.id_sequencial).1)
    (conteudoFila s.fila).tail (conteudoPilha s.pilha)) h1
  simp only [SessaoUnica, idsVivas, vivas, hcont2, hpil, hid2]
  exact h2

/-- With ids taken as unbounded integers, menu option 2 keeps the ids distinct and below the
next id. -/
theorem casoReservarIdeal_unica (s : Sessao) (r : Nat) (s1 : Sessao) (o : List Mensagem)
    (hok : SessaoOk s) (hu : SessaoUnica s)
    (hc : casoReservarCom gerarPecaIdeal s r = some (s1, o)) : SessaoUnica s1 := by
  by_cases ht : s.pilha.topo = 2
  · have : casoReservarCom gerarPecaIdeal s r =
        some (s, [Mensagem.acaoReservar, Mensagem.avisoPilhaCheia]) := by
      simp [casoReservarCom, pilhaCheia, CAPACIDADE_PILHA, ht]
    rw [this] at hc
    simp only [Option.some.injEq, Prod.mk.injEq] at hc
    obtain ⟨rfl, _⟩ := hc
    exact hu
  · obtain ⟨hf, h5, hp, hid, hv⟩ := hok
    obtain ⟨s2, x, hrun, hx, hpc, _, hcont2, _, _, _, hid3⟩ :=
      casoReservarCom_efeito gerarPecaIdeal s r hf hp ht (by omega)
    have hid2 : s2.id_sequencial = s.id_sequencial + 1 := hid3
    rw [hrun] at hc
    simp only [Option.some.injEq, Prod.mk.injEq] at hc
    obtain ⟨rfl, _⟩ := hc
    have h0 : (((some x :: (conteudoFila s.fila).tail) ++ conteudoPilha s.pilha).map
        (Option.map Peca.id)).Nodup ∧
        ∀ y ∈ (some x :: (conteudoFila s.fila).tail) ++ conteudoPilha s.pilha,
          ∀ q ∈ y, q.id < s.id_sequencial := by
      have := hu
      simp only [SessaoUnica, idsVivas, vivas] at this
      rw [hx] at this
      exact this
    have h1 := unica_poe (gerarPecaIdeal r s.id_sequencial).1 _ s.id_sequencial rfl h0
    have h2 := unica_perm _ _ _ (perm_reserva (some (gerarPecaIdeal r s.id_sequencial).1)
      (some x) (conteudoFila s.fila).tail (conteudoPilha s.pilha)) h1
    simp only [SessaoUnica, idsVivas, vivas, hcont2, hpc, hid2]
    exact h2

/-- Menu option 3 keeps the ids distinct and below the next id. -/
theorem casoUsar_unica (s : Sessao) (s1 : Sessao) (o : List Mensagem)
    (hok : SessaoOk s) (hu : SessaoUnica s) (hc : casoUsar s = some (s1, o)) :
    SessaoUnica s1 := by
  obtain ⟨hf, h5, hp, hid, hv⟩ := hok
  by_cases ht : s.pilha.topo = -1
  · rw [casoUsar_vazia s ht] at hc
    simp only [Option.some.injEq, Prod.mk.injEq] at hc
    obtain ⟨rfl, _⟩ := hc
    exact hu
  · obtain ⟨x, p1, hpop, _, _, _, hcont⟩ := pop_conteudo s.pilha hp (by have := hp.2.1; omega)
    simp only [casoUsar, hpop, Option.some.injEq, Prod.mk.injEq] at hc
    obtain ⟨rfl, _⟩ := hc
    have h0 : ((conteudoFila s.fila ++ (conteudoPilha p1 ++ [some x])).map
        (Option.map Peca.id)).Nodup ∧
        ∀ y ∈ conteudoFila s.fila ++ (conteudoPilha p1 ++ [some x]),
          ∀ q ∈ y, q.id < s.id_sequencial := by
      have := hu
      simp only [SessaoUnica, idsVivas, vivas] at this
      rw [hcont] at this
      exact this
    have hperm : (some x :: (conteudoFila s.fila ++ conteudoPilha p1)).Perm
        (conteudoFila s.fila ++ (conteudoPilha p1 ++ [some x])) := by
      rw [List.perm_iff_count]
      intro z
      simp only [List.count_append, List.count_cons, List.count_nil]
      split_ifs <;> omega
    have h1 := unica_tira _ _ _ (unica_perm _ _ _ hperm h0)
    simp only [SessaoUnica, idsVivas, vivas]
    exact h1

/-- Menu option 4 keeps the ids distinct and below the next id. -/
theorem casoTrocarFrenteTopo_unica (s : Sessao) (s1 : Sessao) (o : List Mensagem)
    (hok : SessaoOk s) (hu : SessaoUnica s) (hc : casoTrocarFrenteTopo s = some (s1, o)) :
    SessaoUnica s1 := by
  obtain ⟨hf, h5, hp, hid, hv⟩ := hok
  obtain ⟨f1, p1, o1, hrun, _, _, _, _, hperm⟩ := trocarFrenteTopo_perm s.fila s.pilha hf hp
  rw [casoTrocarFrenteTopo, hrun] at hc
  simp only [Option.some.injEq, Prod.mk.injEq] at hc
  obtain ⟨rfl, _⟩ := hc
  have := unica_perm _ _ s.id_sequencial hperm (by
    have := hu
    simp only [SessaoUnica, idsVivas, vivas] at this
    exact this)
  simp only [SessaoUnica, idsVivas, vivas]
  exact this

/-- Menu option 5 keeps the ids distinct and below the next id. -/
theorem casoTrocarTres_unica (s : Sessao) (s1 : Sessao) (o : List Mensagem)
    (hok : SessaoOk s) (hu : SessaoUnica s) (hc : casoTrocarTres s = some (s1, o)) :
    SessaoUnica s1 := by
  obtain ⟨hf, h5, hp, hid, hv⟩ := hok
  obtain ⟨f1, p1, o1, hrun, _, _, _, _, hperm⟩ := trocarTresComPilha_perm s.fila s.pilha hf hp
  rw [casoTrocarTres, hrun] at hc
  simp only [Option.some.injEq, Prod.mk.injEq] at hc
  obtain ⟨rfl, _⟩ := hc
  have := unica_perm _ _ s.id_sequencial hperm (by
    have := hu
    simp only [SessaoUnica, idsVivas, vivas] at this
    exact this)
  simp only [SessaoUnica, idsVivas, vivas]
  exact this

/-- With ids taken as unbounded integers, every command of the menu keeps the ids distinct
and below the next id. -/
theorem comandoIdeal_unica (s : Sessao) (opcao : Int) (r : Nat) (s1 : Sessao)
    (o : List Mensagem) (hok : SessaoOk s) (hu : SessaoUnica s)
    (hc : comandoIdeal s opcao r = some (s1, o)) : SessaoUnica s1 := by
  unfold comandoIdeal comandoCom at hc
  split_ifs at hc
  · simp only [Option.some.injEq, Prod.mk.injEq] at hc
    obtain ⟨rfl, _⟩ := hc
    exact hu
  · exact casoJogarIdeal_unica s r s1 o hok hu hc
  · exact casoReservarIdeal_unica s r s1 o hok hu hc
  · exact casoUsar_unica s s1 o hok hu hc
  · exact casoTrocarFrenteTopo_unica s s1 o hok hu hc
  · exact casoTrocarTres_unica s s1 o hok hu hc
  · simp only [Option.some.injEq, Prod.mk.injEq] at hc
    obtain ⟨rfl, _⟩ := hc
    exact hu

/-- With ids taken as unbounded integers, in every reachable session state the live pieces
have pairwise distinct ids, all below the next id. -/
theorem alcancavelIdeal_unica (s : Sessao) (h : AlcancavelIdeal s) : SessaoUnica s := by
  unfold AlcancavelIdeal at h
  induction h with
  | inicial fila pilha rand s o hf hp h => exact iniciarIdeal_unica fila pilha rand s o hf hp h
  | passo s opcao r s1 o hs h ih =>
    exact comandoIdeal_unica s opcao r s1 o (alcancavelIdeal_ok s hs) ih h

/-- A list of entries that all hold a piece is the list of those pieces. -/
theorem todas_some (l : List (Option Peca)) (h : ∀ x ∈ l, ∃ q, x = some q) :
    ∃ qs : List Peca, l = qs.map some := by
  induction l with
  | nil => exact ⟨[], rfl⟩
  | cons x l ih =>
    obtain ⟨q, rfl⟩ := h x (List.mem_cons_self _ _)
    obtain ⟨qs, rfl⟩ := ih (fun y hy => h y (List.mem_cons_of_mem _ hy))
    exact ⟨q :: qs, rfl⟩

/-- The pieces held by a well-formed queue and a well-formed stack. -/
theorem conteudo_pecas (f : FilaCircular) (p : PilhaLinear) (hf : FilaOk f) (hp : PilhaOk p) :
    ∃ qs : List Peca, conteudoFila f ++ conteudoPilha p = qs.map some := by
  apply todas_some
  intro x hx
  rcases List.mem_append.mp hx with h | h
  · exact conteudoFila_some f hf x h
  · exact conteudoPilha_some p hp x h

/-- Two lists of pieces whose lists of entries are rearrangements of each other are
rearrangements of each other. -/
theorem perm_pecas (qs qs1 : List Peca) (h : (qs1.map some).Perm (qs.map some)) :
    qs1.Perm qs := by
  have := h.filterMap id
  simpa [List.filterMap_map] using this

/-- C18. On a well-formed queue and stack `trocarFrenteTopo` and `trocarTresComPilha`
return, and the multiset of the pieces held by the queue and the stack together is the same
after the call as before it.  With ids taken as unbounded integers, in every session state
reachable from the initial fill by any sequence of commands, the live pieces of the queue and
the stack have pairwise distinct ids, all strictly below the current `id_sequencial`. -/
theorem pecas_conservadas (f : FilaCircular) (p : PilhaLinear) (s : Sessao) (hf : FilaOk f)
    (hp : PilhaOk p) (hs : AlcancavelIdeal s) :
    (∃ f1 p1 o, trocarFrenteTopo f p = some (f1, p1, o) ∧ ∃ qs qs1 : List Peca,
      conteudoFila f ++ conteudoPilha p = qs.map some ∧
      conteudoFila f1 ++ conteudoPilha p1 = qs1.map some ∧
      Multiset.ofList qs1 = Multiset.ofList qs) ∧
    (∃ f1 p1 o, trocarTresComPilha f p = some (f1, p1, o) ∧ ∃ qs qs1 : List Peca,
      conteudoFila f ++ conteudoPilha p = qs.map some ∧
      conteudoFila f1 ++ conteudoPilha p1 = qs1.map some ∧
      Multiset.ofList qs1 = Multiset.ofList qs) ∧
    (∃ qs : List Peca, vivas s = qs.map some ∧ (qs.map Peca.id).Nodup ∧
      ∀ q ∈ qs, q.id < s.id_sequencial) := by
  refine ⟨?_, ?_, ?_⟩
  · obtain ⟨f1, p1, o, hrun, hok1, hpok1, _, _, hperm⟩ := trocarFrenteTopo_perm f p hf hp
    obtain ⟨qs, hqs⟩ := conteudo_pecas f p hf hp
    obtain ⟨qs1, hqs1⟩ := conteudo_pecas f1 p1 hok1 hpok1
    rw [hqs, hqs1] at hperm
    exact ⟨f1, p1, o, hrun, qs, qs1, hqs, hqs1, Multiset.coe_eq_coe.mpr (perm_pecas _ _ hperm)⟩
  · obtain ⟨f1, p1, o, hrun, hok1, hpok1, _, _, hperm⟩ := trocarTresComPilha_perm f p hf hp
    obtain ⟨qs, hqs⟩ := conteudo_pecas f p hf hp
    obtain ⟨qs1, hqs1⟩ := conteudo_pecas f1 p1 hok1 hpok1
    rw [hqs, hqs1] at hperm
    exact ⟨f1, p1, o, hrun, qs, qs1, hqs, hqs1, Multiset.coe_eq_coe.mpr (perm_pecas _ _ hperm)⟩
  · obtain ⟨hfo, _, hpo, _, _⟩ := alcancavelIdeal_ok s hs
    obtain ⟨hnd, hb⟩ := alcancavelIdeal_unica s hs
    obtain ⟨qs, hqs⟩ := conteudo_pecas s.fila s.pilha hfo hpo
    refine ⟨qs, hqs, ?_, ?_⟩
    · have h1 : idsVivas s = (qs.map Peca.id).map some := by
        simp only [idsVivas, vivas, hqs, List.map_map]
        rfl
      rw [h1] at hnd
      exact List.Nodup.of_map _ hnd
    · intro q hq
      exact hb (some q) (by simp only [vivas, hqs]; exact List.mem_map_of_mem _ hq) q rfl

/-- C18 at `filaCheiaExemplo`, `pilhaCheiaExemplo` and the reachable state
`sessaoReservaExemplo`. -/
theorem pecas_conservadas_witness :
    (FilaOk filaCheiaExemplo ∧ PilhaOk pilhaCheiaExemplo ∧
      AlcancavelIdeal sessaoReservaExemplo) ∧
    ((∃ f1 p1 o, trocarFrenteTopo filaCheiaExemplo pilhaCheiaExemplo = some (f1, p1, o) ∧
        ∃ qs qs1 : List Peca,
        conteudoFila filaCheiaExemplo ++ conteudoPilha pilhaCheiaExemplo = qs.map some ∧
        conteudoFila f1 ++ conteudoPilha p1 = qs1.map some ∧
        Multiset.ofList qs1 = Multiset.ofList qs) ∧
      (∃ f1 p1 o, trocarTresComPilha filaCheiaExemplo pilhaCheiaExemplo = some (f1, p1, o) ∧
        ∃ qs qs1 : List Peca,
        conteudoFila filaCheiaExemplo ++ conteudoPilha pilhaCheiaExemplo = qs.map some ∧
        conteudoFila f1 ++ conteudoPilha p1 = qs1.map some ∧
        Multiset.ofList qs1 = Multiset.ofList qs) ∧
      (∃ qs : List Peca, vivas sessaoReservaExemplo = qs.map some ∧
        (qs.map Peca.id).Nodup ∧ ∀ q ∈ qs, q.id < sessaoReservaExemplo.id_sequencial)) :=
  ⟨⟨by decide, by decide, sessaoReservaExemplo_alcancavel.2⟩,
    pecas_conservadas filaCheiaExemplo pilhaCheiaExemplo sessaoReservaExemplo (by decide)
      (by decide) sessaoReservaExemplo_alcancavel.2⟩

/-- C18 as stated fails: the state the program is in after the initial fill and 2147483642
runs of menu option 1 is reachable; its queue holds the piece of id 2147483647, and its
counter, incremented from 2147483647, is -2147483648.  So the live ids are not all below
`id_sequencial` in every reachable state. -/
theorem ids_acima_do_contador :
    (∃ s, aposJogadas 2147483642 = some s ∧ Alcancavel s ∧
      conteudoFila s.fila = [some ⟨'I', 2147483643⟩, some ⟨'I', 2147483644⟩,
        some ⟨'I', 2147483645⟩, some ⟨'I', 2147483646⟩, some ⟨'I', 2147483647⟩] ∧
      s.id_sequencial = -2147483648) ∧
    ¬ ∀ s, Alcancavel s → ∀ x ∈ vivas s, ∀ q ∈ x, q.id < s.id_sequencial := by
  have hex : ∃ s, aposJogadas 2147483642 = some s ∧ Alcancavel s ∧
      conteudoFila s.fila = [some ⟨'I', 2147483643⟩, some ⟨'I', 2147483644⟩,
        some ⟨'I', 2147483645⟩, some ⟨'I', 2147483646⟩, some ⟨'I', 2147483647⟩] ∧
      s.id_sequencial = -2147483648 := by
    obtain ⟨s, hap, hs, _, _, hcont, _, hid⟩ := aposJogadas_efeito 2147483642 (by omega)
    exact ⟨s, hap, hs, by rw [hcont]; decide, by rw [hid]; decide⟩
  refine ⟨hex, ?_⟩
  intro hall
  obtain ⟨s, _, hs, hcont, hid⟩ := hex
  have := hall s hs (some ⟨'I', 2147483647⟩)
    (List.mem_append_left _ (by rw [hcont]; simp)) ⟨'I', 2147483647⟩ rfl
  rw [hid] at this
  exact absurd this (by decide)

/-! ### The program while the counter has not wrapped -/

/-- Below 2147483647 the program's generator is the one with unbounded ids. -/
theorem gerarPeca_ideal (r : Nat) (n : Int) (h0 : -2147483648 ≤ n) (h1 : n < 2147483647) :
    gerarPeca r n = gerarPecaIdeal r n := by
  simp only [gerarPeca, gerarPecaIdeal, incrementar, comoInt_dentro (n + 1) (by omega) (by omega)]

/-- While the counter is below 2147483647 the program's command switch is the one with
unbounded ids. -/
theorem comando_ideal (s : Sessao) (opcao : Int) (r : Nat) (h0 : -2147483648 ≤ s.id_sequencial)
    (h1 : s.id_sequencial < 2147483647) : comando s opcao r = comandoIdeal s opcao r := by
  simp only [comando, comandoIdeal, comandoCom, casoJogarCom, casoReservarCom,
    gerarPeca_ideal r s.id_sequencial h0 h1]

/-- The program's initial fill is the one with unbounded ids. -/
theorem iniciar_ideal (fila : FilaCircular) (pilha : PilhaLinear) (rand : Nat → Nat)
    (hf : fila.itens.length = 5) (hp : pilha.itens.length = 3) :
    iniciar fila pilha rand = iniciarIdeal fila pilha rand := by
  obtain ⟨itens, inicio, fim, contagem⟩ := fila
  obtain ⟨pitens, topo⟩ := pilha
  obtain ⟨a, b, c, d, e, rfl⟩ := lista_cinco itens hf
  obtain ⟨u, v, w, rfl⟩ := lista_tres pitens hp
  rfl

/-- Every state the program reaches by commands executed while `id_sequencial` is below
2147483647 is a state reachable with ids taken as unbounded integers; the program reaches
it. -/
theorem alcancavelCedo_ideal (s : Sessao) (h : AlcancavelCedo s) :
    AlcancavelIdeal s ∧ Alcancavel s := by
  induction h with
  | inicial fila pilha rand s o hf hp h =>
    have hi : iniciarIdeal fila pilha rand = some (s, o) := by
      rw [← iniciar_ideal fila pilha rand hf hp]; exact h
    exact ⟨AlcancavelCom.inicial fila pilha rand s o hf hp hi,
      AlcancavelCom.inicial fila pilha rand s o hf hp h⟩
  | passo s opcao r s1 o _ hlim h ih =>
    have hid := (alcancavelIdeal_ok s ih.1).2.2.2.1
    have hi : comandoIdeal s opcao r = some (s1, o) := by
      rw [← comando_ideal s opcao r (by omega) hlim]; exact h
    exact ⟨AlcancavelCom.passo s opcao r s1 o ih.1 hi,
      AlcancavelCom.passo s opcao r s1 o ih.2 h⟩

/-- In every state the program reaches by commands executed while `id_sequencial` is below
2147483647, the containers are well formed, the queue holds 5 pieces of the data model, and
the live pieces have pairwise distinct ids, all below `id_sequencial`. -/
theorem alcancavelCedo_ok (s : Sessao) (h : AlcancavelCedo s) : SessaoOk s ∧ SessaoUnica s :=
  ⟨alcancavelIdeal_ok s (alcancavelCedo_ideal s h).1,
    alcancavelIdeal_unica s (alcancavelCedo_ideal s h).1⟩

/-! ### Index ranges and array bounds -/

/-- Under the index-range predicate `enqueue` makes no out-of-range access and keeps the
predicate. -/
theorem enqueue_indices (f : FilaCircular) (x : Peca) (hf : IndicesFila f) :
    ∃ f1 o, enqueue f x = some (f1, o) ∧ IndicesFila f1 := by
  obtain ⟨hl, h1, h2, h3, h4, h5, h6⟩ := hf
  by_cases hc : f.contagem = 5
  · exact ⟨f, [Mensagem.erroFilaCheia x.id], by simp [enqueue, filaCheia, CAPACIDADE_FILA, hc],
      hl, h1, h2, h3, h4, h5, h6⟩
  · have ht : Int.tmod (f.fim + 1) 5 = (f.fim + 1) % 5 := tmod_cinco _ (by omega)
    have hg := gravar_dentro f.itens (Int.tmod (f.fim + 1) 5) x (by rw [ht]; omega)
      (by rw [ht, hl]; omega)
    refine ⟨_, _, enqueue_valor f x _ hc hg, ?_⟩
    exact ⟨by simp [hl], h1, h2, by simp only [ht]; omega, by simp only [ht]; omega,
      by simp only; omega, by simp only; omega⟩

/-- Under the index-range predicate `dequeue` makes no out-of-range access and keeps the
predicate. -/
theorem dequeue_indices (f : FilaCircular) (hf : IndicesFila f) :
    ∃ y f1 o, dequeue f = some (y, f1, o) ∧ IndicesFila f1 := by
  obtain ⟨hl, h1, h2, h3, h4, h5, h6⟩ := hf
  by_cases hc : f.contagem = 0
  · exact ⟨vazia, f, [Mensagem.erroFilaVazia], by simp [dequeue, filaVazia, hc],
      hl, h1, h2, h3, h4, h5, h6⟩
  · obtain ⟨y, hy⟩ := ler_dentro f.itens f.inicio h1 (by rw [hl]; push_cast; omega)
    have ht : Int.tmod (f.inicio + 1) 5 = (f.inicio + 1) % 5 := tmod_cinco _ (by omega)
    refine ⟨y, _, _, dequeue_valor f y hc hy, ?_⟩
    exact ⟨hl, by simp only [ht]; omega, by simp only [ht]; omega, h3, h4,
      by simp only; omega, by simp only; omega⟩

/-- Under the index-range predicate `push` makes no out-of-range access and keeps the
predicate. -/
theorem push_indices (p : PilhaLinear) (x : Peca) (hp : IndicesPilha p) :
    ∃ p1 o, push p x = some (p1, o) ∧ IndicesPilha p1 := by
  obtain ⟨hl, h1, h2⟩ := hp
  by_cases hc : p.topo = 2
  · exact ⟨p, [Mensagem.erroPilhaCheia x.id], by simp [push, pilhaCheia, CAPACIDADE_PILHA, hc],
      hl, h1, h2⟩
  · have hg := gravar_dentro p.itens (p.topo + 1) x (by omega) (by rw [hl]; omega)
    refine ⟨{ itens := p.itens.set (p.topo + 1).toNat x, topo := p.topo + 1 }, [], ?_, ?_⟩
    · simp [push, pilhaCheia, CAPACIDADE_PILHA, hc, hg]
    · exact ⟨by simp [hl], by simp only; omega, by simp only; omega⟩

/-- Under the index-range predicate `pop` makes no out-of-range access and keeps the
predicate. -/
theorem pop_indices (p : PilhaLinear) (hp : IndicesPilha p) :
    ∃ y p1 o, pop p = some (y, p1, o) ∧ IndicesPilha p1 := by
  obtain ⟨hl, h1, h2⟩ := hp
  by_cases hc : p.topo = -1
  · exact ⟨vazia, p, [Mensagem.erroPilhaVazia], by simp [pop, pilhaVazia, hc], hl, h1, h2⟩
  · obtain ⟨y, hy⟩ := ler_dentro p.itens p.topo (by omega) (by rw [hl]; push_cast; omega)
    refine ⟨y, { p with topo := p.topo - 1 }, [], ?_, ?_⟩
    · simp [pop, pilhaVazia, hc, hy]
    · exact ⟨hl, by simp only; omega, by simp only; omega⟩

/-- Under the index-range predicates `trocarFrenteTopo` makes no out-of-range access and keeps
the predicates. -/
theorem trocarFrenteTopo_dentro (f : FilaCircular) (p : PilhaLinear) (hf : IndicesFila f)
    (hp : IndicesPilha p) :
    ∃ f1 p1 o, trocarFrenteTopo f p = some (f1, p1, o) ∧ IndicesFila f1 ∧ IndicesPilha p1 := by
  have hprim : ∃ f1 p1 o, trocarFrenteTopo f p = some (f1, p1, o) := by
    by_cases hc : f.contagem = 0 ∨ p.topo = -1
    · exact ⟨f, p, _, trocarFrenteTopo_recusa f p hc⟩
    · push_neg at hc
      obtain ⟨A, hA⟩ := ler_dentro f.itens f.inicio hf.2.1
        (by rw [hf.1]; have := hf.2.2.1; push_cast; omega)
      obtain ⟨B, hB⟩ := ler_dentro p.itens p.topo (by have := hp.2.1; omega)
        (by rw [hp.1]; have := hp.2.2; push_cast; omega)
      exact ⟨_, _, _, trocarFrenteTopo_valor f p A B hc.1 hc.2 hA hB⟩
  obtain ⟨f1, p1, o, hrun⟩ := hprim
  obtain ⟨e1, e2, e3, e4, e5, e6⟩ := trocarFrenteTopo_indices f p f1 p1 o hrun
  refine ⟨f1, p1, o, hrun, ?_, ?_⟩
  · unfold IndicesFila at hf ⊢
    rw [e1, e2, e3, e4]; exact hf
  · unfold IndicesPilha at hp ⊢
    rw [e5, e6]; exact hp

/-- Under the index-range predicates `trocarTresComPilha` makes no out-of-range access and
keeps the predicates. -/
theorem trocarTresComPilha_dentro (f : FilaCircular) (p : PilhaLinear) (hf : IndicesFila f)
    (hp : IndicesPilha p) :
    ∃ f1 p1 o, trocarTresComPilha f p = some (f1, p1, o) ∧ IndicesFila f1 ∧
      IndicesPilha p1 := by
  have hprim : ∃ f1 p1 o, trocarTresComPilha f p = some (f1, p1, o) := by
    by_cases hc : 3 ≤ f.contagem ∧ p.topo = 2
    · obtain ⟨f1, p1, hrun, _⟩ := trocarTresComPilha_efeito f p hf.1 hp.1 hf.2.1
        (by have := hf.2.2.1; omega) hc.1 hc.2
      exact ⟨f1, p1, _, hrun⟩
    · exact ⟨f, p, _, trocarTresComPilha_recusa f p hc⟩
  obtain ⟨f1, p1, o, hrun⟩ := hprim
  obtain ⟨e1, e2, e3, e4, e5, e6⟩ := trocarTresComPilha_indices f p f1 p1 o hrun
  refine ⟨f1, p1, o, hrun, ?_, ?_⟩
  · unfold IndicesFila at hf ⊢
    rw [e1, e2, e3, e4]; exact hf
  · unfold IndicesPilha at hp ⊢
    rw [e5, e6]; exact hp

/-- From an index in range the loop of `mostrarFila` never leaves the array, however many
times it runs. -/
theorem percorrerFila_dentro (itens : List Peca) (hl : itens.length = 5) (n : Nat) :
    ∀ i : Int, 0 ≤ i → i ≤ 4 → ∃ xs, percorrerFila itens n i = some xs := by
  induction n with
  | zero => intro i _ _; exact ⟨[], rfl⟩
  | succ n ih =>
    intro i h0 h4
    obtain ⟨y, hy⟩ := ler_dentro itens i h0 (by rw [hl]; push_cast; omega)
    have ht : Int.tmod (i + 1) 5 = (i + 1) % 5 := tmod_cinco _ (by omega)
    obtain ⟨xs, hxs⟩ := ih (Int.tmod (i + 1) 5) (by rw [ht]; omega) (by rw [ht]; omega)
    exact ⟨y :: xs, by simp [percorrerFila, hy, CAPACIDADE_FILA, hxs]⟩

/-- From an index in range the loop of `mostrarPilha` never leaves the array when it runs at
most down to slot 0. -/
theorem percorrerPilha_dentro (itens : List Peca) (hl : itens.length = 3) (n : Nat) :
    ∀ i : Int, i ≤ 2 → (n : Int) ≤ i + 1 → ∃ xs, percorrerPilha itens n i = some xs := by
  induction n with
  | zero => intro i _ _; exact ⟨[], rfl⟩
  | succ n ih =>
    intro i h2 hn
    obtain ⟨y, hy⟩ := ler_dentro itens i (by push_cast at hn; omega)
      (by rw [hl]; push_cast; omega)
    obtain ⟨xs, hxs⟩ := ih (i - 1) (by omega) (by push_cast at hn; omega)
    exact ⟨y :: xs, by simp [percorrerPilha, hy, hxs]⟩

/-- Under the index-range predicates the display functions make no out-of-range access. -/
theorem mostrar_dentro (f : FilaCircular) (p : PilhaLinear) (hf : IndicesFila f)
    (hp : IndicesPilha p) :
    (∃ o, mostrarFila f = some (f, o)) ∧ (∃ o, mostrarPilha p = some (p, o)) := by
  constructor
  · obtain ⟨xs, hxs⟩ := percorrerFila_dentro f.itens hf.1 f.contagem.toNat f.inicio hf.2.1
      hf.2.2.1
    by_cases hc : f.contagem = 0
    · exact ⟨[Mensagem.cabecalhoFila, Mensagem.listaVazia],
        by simp [mostrarFila, filaVazia, hc]⟩
    · exact ⟨[Mensagem.cabecalhoFila, Mensagem.abreLista]
        ++ xs.map (fun x => Mensagem.item x.id x.tipo) ++ [Mensagem.fechaLista],
        by simp [mostrarFila, filaVazia, hc, hxs]⟩
  · obtain ⟨xs, hxs⟩ := percorrerPilha_dentro p.itens hp.1 (p.topo + 1).toNat p.topo hp.2.2
      (by have := hp.2.1; omega)
    by_cases hc : p.topo = -1
    · exact ⟨[Mensagem.cabecalhoPilha, Mensagem.listaVazia],
        by simp [mostrarPilha, pilhaVazia, hc]⟩
    · exact ⟨[Mensagem.cabecalhoPilha, Mensagem.abreLista]
        ++ xs.map (fun x => Mensagem.item x.id x.tipo) ++ [Mensagem.fechaLista],
        by simp [mostrarPilha, pilhaVazia, hc, hxs]⟩

/-- C19. The index-range predicate (`0 ≤ inicio ≤ 4`, `-1 ≤ fim ≤ 4`, `0 ≤ contagem ≤ 5`,
`-1 ≤ topo ≤ 2`, over arrays of 5 and 3 slots) holds after `inicializarFila` and
`inicializarPilha`.  Under it `enqueue`, `dequeue`, `push`, `pop`, `trocarFrenteTopo`,
`trocarTresComPilha`, `mostrarFila` and `mostrarPilha` all return a result, that is, none of
their array accesses is out of range, and the containers returned satisfy the predicate
again.  In particular the first `enqueue` after initialisation, where `fim = -1`, writes at
index `(-1 + 1) % 5 = 0`. -/
theorem indices_no_intervalo (f0 f : FilaCircular) (p0 p : PilhaLinear) (x : Peca)
    (hf0 : f0.itens.length = 5) (hp0 : p0.itens.length = 3) (hf : IndicesFila f)
    (hp : IndicesPilha p) :
    IndicesFila (inicializarFila f0) ∧ IndicesPilha (inicializarPilha p0) ∧
    (∃ f1 o, enqueue f x = some (f1, o) ∧ IndicesFila f1) ∧
    (∃ y f1 o, dequeue f = some (y, f1, o) ∧ IndicesFila f1) ∧
    (∃ p1 o, push p x = some (p1, o) ∧ IndicesPilha p1) ∧
    (∃ y p1 o, pop p = some (y, p1, o) ∧ IndicesPilha p1) ∧
    (∃ f1 p1 o, trocarFrenteTopo f p = some (f1, p1, o) ∧ IndicesFila f1 ∧ IndicesPilha p1) ∧
    (∃ f1 p1 o, trocarTresComPilha f p = some (f1, p1, o) ∧ IndicesFila f1 ∧
      IndicesPilha p1) ∧
    (∃ o, mostrarFila f = some (f, o)) ∧ (∃ o, mostrarPilha p = some (p, o)) ∧
    (Int.tmod ((inicializarFila f0).fim + 1) CAPACIDADE_FILA = 0 ∧
      enqueue (inicializarFila f0) x =
        some ({ itens := f0.itens.set 0 x, inicio := 0, fim := 0, contagem := 1 }, [])) := by
  refine ⟨by simp [IndicesFila, inicializarFila, hf0],
    by simp [IndicesPilha, inicializarPilha, hp0], enqueue_indices f x hf,
    dequeue_indices f hf, push_indices p x hp, pop_indices p hp,
    trocarFrenteTopo_dentro f p hf hp, trocarTresComPilha_dentro f p hf hp,
    (mostrar_dentro f p hf hp).1, (mostrar_dentro f p hf hp).2, rfl, ?_⟩
  obtain ⟨a, b, c, d, e, hab⟩ := lista_cinco f0.itens hf0
  obtain ⟨itens, inicio, fim, contagem⟩ := f0
  simp only at hab
  subst hab
  rfl

/-- C19 at `filaExemplo` and `pilhaExemplo` before initialisation, at the full queue
`filaCheiaExemplo` (head at slot 4) and the stack `pilhaDoisExemplo`, and the piece
`{'S', 9}`. -/
theorem indices_no_intervalo_witness :
    (filaExemplo.itens.length = 5 ∧ pilhaExemplo.itens.length = 3 ∧
      IndicesFila filaCheiaExemplo ∧ IndicesPilha pilhaDoisExemplo) ∧
    (IndicesFila (inicializarFila filaExemplo) ∧ IndicesPilha (inicializarPilha pilhaExemplo) ∧
      (∃ f1 o, enqueue filaCheiaExemplo ⟨'S', 9⟩ = some (f1, o) ∧ IndicesFila f1) ∧
      (∃ y f1 o, dequeue filaCheiaExemplo = some (y, f1, o) ∧ IndicesFila f1) ∧
      (∃ p1 o, push pilhaDoisExemplo ⟨'S', 9⟩ = some (p1, o) ∧ IndicesPilha p1) ∧
      (∃ y p1 o, pop pilhaDoisExemplo = some (y, p1, o) ∧ IndicesPilha p1) ∧
      (∃ f1 p1 o, trocarFrenteTopo filaCheiaExemplo pilhaDoisExemplo = some (f1, p1, o) ∧
        IndicesFila f1 ∧ IndicesPilha p1) ∧
      (∃ f1 p1 o, trocarTresComPilha filaCheiaExemplo pilhaDoisExemplo = some (f1, p1, o) ∧
        IndicesFila f1 ∧ IndicesPilha p1) ∧
      (∃ o, mostrarFila filaCheiaExemplo = some (filaCheiaExemplo, o)) ∧
      (∃ o, mostrarPilha pilhaDoisExemplo = some (pilhaDoisExemplo, o)) ∧
      (Int.tmod ((inicializarFila filaExemplo).fim + 1) CAPACIDADE_FILA = 0 ∧
        enqueue (inicializarFila filaExemplo) ⟨'S', 9⟩ =
          some ({ itens := filaExemplo.itens.set 0 ⟨'S', 9⟩, inicio := 0, fim := 0,
                  contagem := 1 }, []))) :=
  ⟨by decide, indices_no_intervalo filaExemplo filaCheiaExemplo pilhaExemplo pilhaDoisExemplo
    ⟨'S', 9⟩ (by decide) (by decide) (by decide) (by decide)⟩

end Tetris
